import Mathlib

/-!
A shallow embedding of `src/ifmetric.c`.

The program rewrites the metric (priority) of every route of the main routing
table that leaves through one interface.  Netlink messages are byte regions;
the C structures `nlmsghdr`, `rtmsg` and `rtattr` are read and written through
their field offsets.  Multi-byte fields use the byte order of the host, taken
here to be little-endian.
-/

namespace Ifmetric

/-! ## Memory -/

/-- A region of memory, one entry per byte.  An entry is read modulo 256, so
every list is a region. -/
abbrev Buf := List Nat

/-- The byte at offset `i`; a read outside the region yields 0. -/
def rd8 (b : Buf) (i : Nat) : Nat := b.getD i 0 % 256

/-- The `unsigned short` stored at offset `i`. -/
def rd16 (b : Buf) (i : Nat) : Nat := rd8 b i + 256 * rd8 b (i + 1)

/-- The 32-bit unsigned word stored at offset `i`. -/
def rd32 (b : Buf) (i : Nat) : Nat :=
  rd8 b i + 256 * rd8 b (i + 1) + 65536 * rd8 b (i + 2) + 16777216 * rd8 b (i + 3)

/-- Store one byte at offset `i`; a store outside the region changes nothing. -/
def wr8 (b : Buf) (i : Nat) (v : Nat) : Buf := b.set i (v % 256)

/-- Store an `unsigned short` at offset `i`. -/
def wr16 (b : Buf) (i : Nat) (v : Nat) : Buf :=
  wr8 (wr8 b i v) (i + 1) (v / 256)

/-- Store a 32-bit word at offset `i`. -/
def wr32 (b : Buf) (i : Nat) (v : Nat) : Buf :=
  wr8 (wr8 (wr8 (wr8 b i v) (i + 1) (v / 256)) (i + 2) (v / 65536)) (i + 3) (v / 16777216)

/-- Conversion of an integer to C `int`: reduction modulo 2^32 into
`[-2^31, 2^31)`. -/
def toInt32 (v : Int) : Int := (v + 2147483648) % 4294967296 - 2147483648

/-- The 32-bit pattern of a C `int`. -/
def ofInt32 (v : Int) : Nat := (v % 4294967296).toNat

/-- The `int` stored at offset `i`. -/
def rdInt (b : Buf) (i : Nat) : Int := toInt32 (rd32 b i)

/-- Store an `int` at offset `i`. -/
def wrInt (b : Buf) (i : Nat) (v : Int) : Buf := wr32 b i (ofInt32 v)

/-- The first `len` bytes starting at `src`, as `memcpy` into a fresh region
of `len` bytes leaves them. -/
def memcpy (src : Buf) (len : Nat) : Buf := (List.range len).map (fun i => src.getD i 0)

/-! ## Constants of `linux/netlink.h` and `linux/rtnetlink.h` -/

def NLMSG_ALIGNTO : Nat := 4
def RTA_ALIGNTO : Nat := 4
/-- Size `sizeof(struct nlmsghdr)`. -/
def sizeof_nlmsghdr : Nat := 16
/-- Size `sizeof(struct rtmsg)`. -/
def sizeof_rtmsg : Nat := 12
/-- Size `sizeof(struct rtattr)`. -/
def sizeof_rtattr : Nat := 4
/-- Size `sizeof(int)`. -/
def sizeof_int : Nat := 4

def RTM_NEWROUTE : Nat := 24
def RTM_DELROUTE : Nat := 25
def RTM_GETROUTE : Nat := 26
def RT_TABLE_MAIN : Nat := 254
def RTA_OIF : Nat := 4
def RTA_PRIORITY : Nat := 6
def NLM_F_REQUEST : Nat := 1
def NLM_F_MATCH : Nat := 512
def NLM_F_CREATE : Nat := 1024
def AF_INET : Nat := 2
def AF_INET6 : Nat := 10

def MAX_ROUTES : Nat := 64

/-! ## Macros

The macros of `linux/netlink.h` and `linux/rtnetlink.h` that `ifmetric.c`
uses, as those headers define them. -/

/-- Macro `((len)+NLMSG_ALIGNTO-1) & ~(NLMSG_ALIGNTO-1)`: clearing the low bits rounds
down to a multiple of the alignment. -/
def NLMSG_ALIGN (len : Nat) : Nat := (len + NLMSG_ALIGNTO - 1) / NLMSG_ALIGNTO * NLMSG_ALIGNTO

def NLMSG_HDRLEN : Nat := NLMSG_ALIGN sizeof_nlmsghdr

def NLMSG_LENGTH (len : Nat) : Nat := len + NLMSG_HDRLEN

def NLMSG_SPACE (len : Nat) : Nat := NLMSG_ALIGN (NLMSG_LENGTH len)

/-- Macro `((len)+RTA_ALIGNTO-1) & ~(RTA_ALIGNTO-1)`. -/
def RTA_ALIGN (len : Nat) : Nat := (len + RTA_ALIGNTO - 1) / RTA_ALIGNTO * RTA_ALIGNTO

def RTA_LENGTH (len : Nat) : Nat := RTA_ALIGN sizeof_rtattr + len

/-! ## Fields -/

/-- Field `nlmsg_len` of the header at the start of the region. -/
def nlmsg_len (n : Buf) : Nat := rd32 n 0

/-- Field `nlmsg_type`. -/
def nlmsg_type (n : Buf) : Nat := rd16 n 4

/-- Field `nlmsg_flags`. -/
def nlmsg_flags (n : Buf) : Nat := rd16 n 6

/-- Macro `NLMSG_DATA(n)`, as an offset into the region of `n`. -/
def NLMSG_DATA : Nat := NLMSG_HDRLEN

/-- Field `rtm_table` of the `rtmsg` at offset `r`. -/
def rtm_table (n : Buf) (r : Nat) : Nat := rd8 n (r + 4)

/-- Macro `NLMSG_PAYLOAD(n, len)` as stored into an `int`: the subtraction is
unsigned and wraps. -/
def NLMSG_PAYLOAD (n : Buf) (len : Nat) : Int := toInt32 ((nlmsg_len n : Int) - NLMSG_SPACE len)

/-- Macro `RTM_RTA(r)`: offset of the first attribute. -/
def RTM_RTA (r : Nat) : Nat := r + NLMSG_ALIGN sizeof_rtmsg

/-- Field `rta_len` of the attribute at offset `a`. -/
def rta_len (n : Buf) (a : Nat) : Nat := rd16 n a

/-- Field `rta_type` of the attribute at offset `a`. -/
def rta_type (n : Buf) (a : Nat) : Nat := rd16 n (a + 2)

/-- Macro `RTA_OK(a, l)`. -/
def RTA_OK (n : Buf) (a : Nat) (l : Int) : Bool :=
  decide ((sizeof_rtattr : Int) ≤ l) && decide (sizeof_rtattr ≤ rta_len n a)
    && decide ((rta_len n a : Int) ≤ l)

/-- Macro `RTA_DATA(a)`: offset of the payload. -/
def RTA_DATA (a : Nat) : Nat := a + RTA_LENGTH 0

/-- Macro `RTA_PAYLOAD(a)`. -/
def RTA_PAYLOAD (n : Buf) (a : Nat) : Int := (rta_len n a : Int) - RTA_LENGTH 0

/-- The pointer part of `RTA_NEXT(a, l)`. -/
def RTA_NEXT (n : Buf) (a : Nat) : Nat := a + RTA_ALIGN (rta_len n a)

/-- The length part of `RTA_NEXT(a, l)`.  It is only evaluated after
`RTA_OK(a, l)`, where `rta_len ≤ l` keeps the result above `-4`, so the
subtraction does not wrap. -/
def RTA_NEXT_len (n : Buf) (a : Nat) (l : Int) : Int := l - RTA_ALIGN (rta_len n a)

/-! ## `enumerate_callback` -/

/-- The `while (RTA_OK(a, l))` loop of `enumerate_callback`.  `routes` is the
global route array, its length the counter `n_routes`; `ifn` is `*ifn`;
`malloc k` tells whether the allocation requested while the set holds `k`
routes succeeds.  The result is the value returned (`none` when the loop ends
and control reaches `return 0`) and the route set.  `k` bounds the remaining
length and is the recursion argument: every step lowers `l` by at least 4,
and at `k = 0` the test `RTA_OK` cannot hold. -/
def enumerate_loop (n : Buf) (ifn : Int) (malloc : Nat → Bool) :
    (k : Nat) → (a : Nat) → (l : Int) → l.toNat ≤ k → List Buf → Option Int × List Buf
  | 0, a, l, h, routes =>
    if hok : RTA_OK n a l = true then
      absurd hok (by
        simp only [RTA_OK, sizeof_rtattr, Bool.and_eq_true, decide_eq_true_eq]
        omega)
    else
      (none, routes)
  | k + 1, a, l, h, routes =>
    if hok : RTA_OK n a l = true then
      have hnext : (RTA_NEXT_len n a l).toNat ≤ k := by
        simp only [RTA_OK, sizeof_rtattr, Bool.and_eq_true, decide_eq_true_eq] at hok
        simp only [RTA_NEXT_len, RTA_ALIGN, RTA_ALIGNTO]
        omega
      if rta_type n a = RTA_OIF then
        if RTA_PAYLOAD n a ≠ sizeof_int then
          (some (-1), routes)
        else if rdInt n (RTA_DATA a) = ifn then
          if routes.length < MAX_ROUTES then
            if malloc routes.length then
              enumerate_loop n ifn malloc k (RTA_NEXT n a) (RTA_NEXT_len n a l) hnext
                (routes ++ [memcpy n (nlmsg_len n)])
            else
              (some (-1), routes)
          else
            enumerate_loop n ifn malloc k (RTA_NEXT n a) (RTA_NEXT_len n a l) hnext routes
        else
          enumerate_loop n ifn malloc k (RTA_NEXT n a) (RTA_NEXT_len n a l) hnext routes
      else
        enumerate_loop n ifn malloc k (RTA_NEXT n a) (RTA_NEXT_len n a l) hnext routes
    else
      (none, routes)

/-- Function `enumerate_callback(n, &ifn)`: the value returned and the route
set afterwards. -/
def enumerate_callback (n : Buf) (ifn : Int) (malloc : Nat → Bool) (routes : List Buf) :
    Int × List Buf :=
  if nlmsg_type n ≠ RTM_NEWROUTE then
    (-1, routes)
  else
    let r := NLMSG_DATA
    let l := NLMSG_PAYLOAD n sizeof_rtmsg
    let a := RTM_RTA r
    if rtm_table n r ≠ RT_TABLE_MAIN then
      (0, routes)
    else
      match enumerate_loop n ifn malloc l.toNat a l (Nat.le_refl _) routes with
      | (some v, routes') => (v, routes')
      | (none, routes') => (0, routes')

/-! ## `set_route_metric` -/

/-- The `while (RTA_OK(a, l))` loop of `set_route_metric`.  `some ret` is a
`return ret` taken inside the loop (`ret = none` for `NULL`); `none` means the
loop ended and control continues after it. -/
def set_route_metric_loop (n : Buf) (metric : Int) :
    (k : Nat) → (a : Nat) → (l : Int) → l.toNat ≤ k → Option (Option Buf)
  | 0, a, l, h =>
    if hok : RTA_OK n a l = true then
      absurd hok (by
        simp only [RTA_OK, sizeof_rtattr, Bool.and_eq_true, decide_eq_true_eq]
        omega)
    else
      none
  | k + 1, a, l, h =>
    if hok : RTA_OK n a l = true then
      have hnext : (RTA_NEXT_len n a l).toNat ≤ k := by
        simp only [RTA_OK, sizeof_rtattr, Bool.and_eq_true, decide_eq_true_eq] at hok
        simp only [RTA_NEXT_len, RTA_ALIGN, RTA_ALIGNTO]
        omega
      if rta_type n a = RTA_PRIORITY then
        if RTA_PAYLOAD n a ≠ sizeof_int then
          some none
        else
          some (some (wrInt n (RTA_DATA a) metric))
      else
        set_route_metric_loop n metric k (RTA_NEXT n a) (RTA_NEXT_len n a l) hnext
    else
      none

/-- Function `realloc(n, size)`.  `heap = none` is the failing allocator;
`some fresh` succeeds, the bytes carried over are those of `n` and `fresh i`
is the indeterminate content of a new byte `i`. -/
def realloc (n : Buf) (size : Nat) (heap : Option (Nat → Nat)) : Option Buf :=
  heap.map fun fresh =>
    (List.range size).map fun i => if i < n.length then n.getD i 0 else fresh i

/-- Modelled from the spec: `addattr32` is declared in `nlrequest.h` and its
body is not among the sources.  §4.4 step 3: "append a new priority TLV at the
old end, update the header length to reflect the new total size"; §3: a TLV is
(length, type-tag, payload) and starts on the alignment unit; §8 S2: the header
length grows by the aligned TLV size.  The TLV is placed at the old total
length rounded up to the alignment unit.  The spec does not say what the
second argument, the size of the region, is used for; it is not consulted. -/
def addattr32 (n : Buf) (_maxlen : Int) (type : Nat) (data : Int) : Buf :=
  let len := RTA_LENGTH 4
  let rta := NLMSG_ALIGN (nlmsg_len n)
  let n1 := wr16 n (rta + 2) type
  let n2 := wr16 n1 rta len
  let n3 := wrInt n2 (RTA_DATA rta) data
  wr32 n3 0 (NLMSG_ALIGN (nlmsg_len n) + len)

/-- Conversion of an `int` to `size_t` (64 bits). -/
def toSize (v : Int) : Nat := (v % 18446744073709551616).toNat

/-- Function `set_route_metric(n, metric)`; `none` is `NULL`.  `heap` is the
outcome of the one `realloc` the function may issue. -/
def set_route_metric (n : Buf) (metric : Int) (heap : Option (Nat → Nat)) : Option Buf :=
  let r := NLMSG_DATA
  let l := NLMSG_PAYLOAD n sizeof_rtmsg
  let a := RTM_RTA r
  match set_route_metric_loop n metric l.toNat a l (Nat.le_refl _) with
  | some ret => ret
  | none =>
    let t := toInt32 ((nlmsg_len n : Int) + 1024)
    match realloc n (toSize t) heap with
    | some n' => some (addattr32 n' t RTA_PRIORITY metric)
    | none => none

/-! ## The transport and the orchestrator -/

/-- The collaborators of `ifmetric.c` that live outside it: the functions of
`nlrequest.h` and `getifn.h`, the kernel behind them, and the allocator. -/
structure World where
  /-- Value returned by `netlink_open()`. -/
  netlink_open : Int
  /-- Value returned by `getifn(s, iface)`. -/
  getifn : Int → String → Int
  /-- Answer of the kernel to a request, given the requests sent before it:
  the response records, and the status of the exchange when no handler
  objects. -/
  respond : List Buf → Buf → List Buf × Int
  /-- Outcome of the `malloc` issued while the route set holds `k` entries. -/
  malloc : Nat → Bool
  /-- Outcome of the `realloc` issued for route `j`. -/
  realloc : Nat → Option (Nat → Nat)

/-- Modelled from the spec: the response loop of `netlink_request`, whose body
is not among the sources.  §4.1: the handler is invoked for each record, and
"if handler returns a negative result, the transport aborts the dump and
surfaces that error"; `status` is what the exchange returns otherwise. -/
def deliver (callback : Buf → List Buf → Int × List Buf) (status : Int) :
    List Buf → List Buf → Int × List Buf
  | [], u => (status, u)
  | p :: ps, u =>
    let (ret, u') := callback p u
    if ret < 0 then (ret, u') else deliver callback status ps u'

/-- Modelled from the spec: `netlink_request` is declared in `nlrequest.h` and
its body is not among the sources.  §4.1: "Sends one request message; reads
response records until a terminal done record or a protocol-level error record
is seen; invokes handler(record, handler_state) for each non-terminal record.
If handler returns a negative result, the transport aborts the dump and
surfaces that error."  `trace` lists the requests sent so far; the result is
the value returned, the handler state and the extended trace. -/
def netlink_request (w : World) (trace : List Buf) (n : Buf)
    (callback : Option (Buf → List Buf → Int × List Buf)) (u : List Buf) :
    Int × List Buf × List Buf :=
  let (records, status) := w.respond trace n
  match callback with
  | some cb =>
    let (ret, u') := deliver cb status records u
    (ret, u', trace ++ [n])
  | none => (status, u, trace ++ [n])

/-- The request `req` that `enumerate` builds: a zeroed
`struct { nlmsghdr n; rtmsg r; char a[1024]; }` with the fields set. -/
def enumerate_req (family : Nat) : Buf :=
  let req := List.replicate (sizeof_nlmsghdr + sizeof_rtmsg + 1024) 0
  let req := wr32 req 0 (NLMSG_LENGTH sizeof_rtmsg)
  let req := wr16 req 6 (NLM_F_REQUEST ||| NLM_F_MATCH)
  let req := wr16 req 4 RTM_GETROUTE
  let req := wr8 req NLMSG_DATA family
  wr8 req (NLMSG_DATA + 4) RT_TABLE_MAIN

/-- Function `enumerate(s, ifn, family)`: value returned, route set, trace. -/
def enumerate (w : World) (trace : List Buf) (ifn : Int) (family : Nat) (routes : List Buf) :
    Int × List Buf × List Buf :=
  netlink_request w trace (enumerate_req family)
    (some (fun n u => enumerate_callback n ifn w.malloc u)) routes

/-- Function `delete_route(s, n)`: value returned, the buffer `n` after the call,
trace.  The assertion `s >= 0 && n` holds at the one call site: `go` has
tested the socket and `n` is a buffer of the route set. -/
def delete_route (w : World) (trace : List Buf) (n : Buf) : Int × Buf × List Buf :=
  let n := wr16 n 4 RTM_DELROUTE
  let n := wr16 n 6 NLM_F_REQUEST
  let (ret, _, trace') := netlink_request w trace n none []
  (ret, n, trace')

/-- Function `add_route(s, n)`: value returned, the buffer `n` after the call, trace. -/
def add_route (w : World) (trace : List Buf) (n : Buf) : Int × Buf × List Buf :=
  let n := wr16 n 4 RTM_NEWROUTE
  let n := wr16 n 6 (NLM_F_REQUEST ||| NLM_F_CREATE)
  let (ret, _, trace') := netlink_request w trace n none []
  (ret, n, trace')

/-- The body of the `for` loop of `go` for route `j`: the trace afterwards. -/
def go_body (w : World) (metric : Int) (j : Nat) (route : Buf) (trace : List Buf) : List Buf :=
  let (ret, route, trace) := delete_route w trace route
  if ret ≥ 0 then
    match set_route_metric route metric (w.realloc j) with
    | some route => (add_route w trace route).2.2
    | none => trace
  else
    trace

/-- The `for (j = 0; j < n_routes; j++)` loop of `go`, from index `j` on. -/
def go_loop (w : World) (metric : Int) : Nat → List Buf → List Buf → List Buf
  | _, [], trace => trace
  | j, route :: routes, trace => go_loop w metric (j + 1) routes (go_body w metric j route trace)

/-- Function `go(iface, family, metric)`: the value returned and the requests this file
hands to `netlink_request`, in order.  The route set starts empty
(`n_routes = 0`); closing the socket and freeing the buffers leave no trace
here. -/
def go (w : World) (iface : String) (family : Nat) (metric : Int) : Int × List Buf :=
  let s := w.netlink_open
  if s < 0 then
    (-1, [])
  else
    let ifn := w.getifn s iface
    if ifn < 0 then
      (-1, [])
    else
      let (ret, routes, trace) := enumerate w [] ifn family []
      if ret < 0 then
        (-1, trace)
      else
        (0, go_loop w metric 0 routes trace)

/-! ## The attribute walk -/

/-- The attributes a walk `while (RTA_OK(a, l)) a = RTA_NEXT(a, l)` steps over,
by offset, in order. -/
def rta_walk (n : Buf) : (k : Nat) → (a : Nat) → (l : Int) → l.toNat ≤ k → List Nat
  | 0, _, _, _ => []
  | k + 1, a, l, h =>
    if hok : RTA_OK n a l = true then
      have hnext : (RTA_NEXT_len n a l).toNat ≤ k := by
        simp only [RTA_OK, sizeof_rtattr, Bool.and_eq_true, decide_eq_true_eq] at hok
        simp only [RTA_NEXT_len, RTA_ALIGN, RTA_ALIGNTO]
        omega
      a :: rta_walk n k (RTA_NEXT n a) (RTA_NEXT_len n a l) hnext
    else
      []

/-- The length left over when the walk stops. -/
def rta_rest (n : Buf) : (k : Nat) → (a : Nat) → (l : Int) → l.toNat ≤ k → Int
  | 0, _, l, _ => l
  | k + 1, a, l, h =>
    if hok : RTA_OK n a l = true then
      have hnext : (RTA_NEXT_len n a l).toNat ≤ k := by
        simp only [RTA_OK, sizeof_rtattr, Bool.and_eq_true, decide_eq_true_eq] at hok
        simp only [RTA_NEXT_len, RTA_ALIGN, RTA_ALIGNTO]
        omega
      rta_rest n k (RTA_NEXT n a) (RTA_NEXT_len n a l) hnext
    else
      l

/-- The attributes of the route message `n`, as both walks of the program
meet them: from `RTM_RTA(NLMSG_DATA(n))` over `NLMSG_PAYLOAD(n, sizeof rtmsg)`
bytes. -/
def attrs (n : Buf) : List Nat :=
  rta_walk n (NLMSG_PAYLOAD n sizeof_rtmsg).toNat (RTM_RTA NLMSG_DATA)
    (NLMSG_PAYLOAD n sizeof_rtmsg) (Nat.le_refl _)

/-- The length the walk over the attributes of `n` leaves unread. -/
def attrs_rest (n : Buf) : Int :=
  rta_rest n (NLMSG_PAYLOAD n sizeof_rtmsg).toNat (RTM_RTA NLMSG_DATA)
    (NLMSG_PAYLOAD n sizeof_rtmsg) (Nat.le_refl _)

/-- The first attribute of `n` with type tag `ty`. -/
def first_attr (n : Buf) (ty : Nat) : Option Nat :=
  (attrs n).find? (fun a => rta_type n a = ty)

/-- The header rewrite of `delete_route`. -/
def delete_msg (n : Buf) : Buf := wr16 (wr16 n 4 RTM_DELROUTE) 6 NLM_F_REQUEST

/-- The header rewrite of `add_route`. -/
def add_msg (n : Buf) : Buf := wr16 (wr16 n 4 RTM_NEWROUTE) 6 (NLM_F_REQUEST ||| NLM_F_CREATE)

/-- The body of the loop of `enumerate_callback`, run over a given list of
attributes. -/
def enumerate_attrs (n : Buf) (ifn : Int) (malloc : Nat → Bool) :
    List Nat → List Buf → Option Int × List Buf
  | [], routes => (none, routes)
  | a :: as, routes =>
    if rta_type n a = RTA_OIF then
      if RTA_PAYLOAD n a ≠ sizeof_int then
        (some (-1), routes)
      else if rdInt n (RTA_DATA a) = ifn then
        if routes.length < MAX_ROUTES then
          if malloc routes.length then
            enumerate_attrs n ifn malloc as (routes ++ [memcpy n (nlmsg_len n)])
          else
            (some (-1), routes)
        else
          enumerate_attrs n ifn malloc as routes
      else
        enumerate_attrs n ifn malloc as routes
    else
      enumerate_attrs n ifn malloc as routes

/-- The filter of the enumerator: a new-route record of the main table with an
output-interface attribute whose 4-byte payload is the index `ifn`. -/
def Matches (ifn : Int) (n : Buf) : Prop :=
  nlmsg_type n = RTM_NEWROUTE ∧ rtm_table n NLMSG_DATA = RT_TABLE_MAIN ∧
    ∃ a ∈ attrs n, rta_type n a = RTA_OIF ∧ RTA_PAYLOAD n a = 4 ∧ rdInt n (RTA_DATA a) = ifn

instance (ifn : Int) (n : Buf) : Decidable (Matches ifn n) := by
  unfold Matches
  infer_instance

/-- The output-interface attributes of a message. -/
def oif_attrs (n : Buf) : List Nat := (attrs n).filter (fun a => rta_type n a = RTA_OIF)

/-! ## Sample messages -/

/-- A new-route record of the main table, 36 bytes: header, route descriptor
and one output-interface attribute with index 3. -/
def route_plain : Buf :=
  [36, 0, 0, 0, 24, 0, 2, 0, 0, 0, 0, 0, 0, 0, 0, 0,
   2, 0, 0, 0, 254, 0, 0, 1, 0, 0, 0, 0,
   8, 0, 4, 0, 3, 0, 0, 0]

/-- As `route_plain`, followed by a priority attribute of value 100. -/
def route_prio : Buf :=
  [44, 0, 0, 0, 24, 0, 2, 0, 0, 0, 0, 0, 0, 0, 0, 0,
   2, 0, 0, 0, 254, 0, 0, 1, 0, 0, 0, 0,
   8, 0, 4, 0, 3, 0, 0, 0,
   8, 0, 6, 0, 100, 0, 0, 0]

/-- A 36-byte record whose only attribute declares 12 bytes where 8 are left:
the attribute extends past the end of the record. -/
def route_truncated : Buf :=
  [36, 0, 0, 0, 24, 0, 2, 0, 0, 0, 0, 0, 0, 0, 0, 0,
   2, 0, 0, 0, 254, 0, 0, 1, 0, 0, 0, 0,
   12, 0, 1, 0, 10, 0, 0, 0]

/-- A 44-byte new-route record of the main table with two output-interface
attributes, both of index 3. -/
def route_two_oif : Buf :=
  [44, 0, 0, 0, 24, 0, 2, 0, 0, 0, 0, 0, 0, 0, 0, 0,
   2, 0, 0, 0, 254, 0, 0, 1, 0, 0, 0, 0,
   8, 0, 4, 0, 3, 0, 0, 0,
   8, 0, 4, 0, 3, 0, 0, 0]

/-- A 40-byte new-route record of the main table: an output-interface
attribute of index 3, then an output-interface attribute without payload. -/
def route_oif_corrupt : Buf :=
  [40, 0, 0, 0, 24, 0, 2, 0, 0, 0, 0, 0, 0, 0, 0, 0,
   2, 0, 0, 0, 254, 0, 0, 1, 0, 0, 0, 0,
   8, 0, 4, 0, 3, 0, 0, 0,
   4, 0, 4, 0]

/-- The bytes of `route_plain` under a header that declares length zero. -/
def record_zero_len : Buf :=
  [0, 0, 0, 0, 24, 0, 2, 0, 0, 0, 0, 0, 0, 0, 0, 0,
   2, 0, 0, 0, 254, 0, 0, 1, 0, 0, 0, 0,
   8, 0, 4, 0, 3, 0, 0, 0]

/-- A 36-byte new-route record of the main table whose only attribute is an
output-interface attribute declaring a 2-byte payload. -/
def route_corrupt_oif : Buf :=
  [36, 0, 0, 0, 24, 0, 2, 0, 0, 0, 0, 0, 0, 0, 0, 0,
   2, 0, 0, 0, 254, 0, 0, 1, 0, 0, 0, 0,
   6, 0, 4, 0, 3, 0, 0, 0]

/-- The bytes of `route_plain` with the record kind delete-route. -/
def record_wrong_kind : Buf :=
  [36, 0, 0, 0, 25, 0, 2, 0, 0, 0, 0, 0, 0, 0, 0, 0,
   2, 0, 0, 0, 254, 0, 0, 1, 0, 0, 0, 0,
   8, 0, 4, 0, 3, 0, 0, 0]

/-- As `route_prio`, but the priority attribute declares a 2-byte payload. -/
def route_corrupt_prio : Buf :=
  [44, 0, 0, 0, 24, 0, 2, 0, 0, 0, 0, 0, 0, 0, 0, 0,
   2, 0, 0, 0, 254, 0, 0, 1, 0, 0, 0, 0,
   8, 0, 4, 0, 3, 0, 0, 0,
   6, 0, 6, 0, 100, 0, 0, 0]

/-- A kernel that opens, resolves every name to index 3, answers the first
request with the one record `route_prio` and acknowledges every other request;
every allocation succeeds and new bytes are zero. -/
def sample_world : World where
  netlink_open := 3
  getifn := fun _ _ => 3
  respond := fun trace _ => if trace = [] then ([route_prio], 0) else ([], 0)
  malloc := fun _ => true
  realloc := fun _ => some (fun _ => 0)

/-- A kernel as `sample_world` that rejects every request after the dump. -/
def reject_world : World where
  netlink_open := 3
  getifn := fun _ _ => 3
  respond := fun trace _ => if trace = [] then ([route_prio], 0) else ([], -1)
  malloc := fun _ => true
  realloc := fun _ => some (fun _ => 0)

/-- A kernel whose resolver yields index 0 and whose routing table is empty. -/
def zero_index_world : World where
  netlink_open := 3
  getifn := fun _ _ => 0
  respond := fun _ _ => ([], 0)
  malloc := fun _ => true
  realloc := fun _ => some (fun _ => 0)

/-- A kernel whose resolver does not know the interface. -/
def no_interface_world : World where
  netlink_open := 3
  getifn := fun _ _ => -1
  respond := fun _ _ => ([], 0)
  malloc := fun _ => true
  realloc := fun _ => some (fun _ => 0)

/-! ## The walk as a transition relation -/

/-- One iteration of `while (RTA_OK(a, l)) { ...; a = RTA_NEXT(a, l); }` over
the message `n`: the state `s = (a, l)` passes the test and the iteration
leaves the state `s'`. -/
def walk_step (n : Buf) (s' s : Nat × Int) : Prop :=
  RTA_OK n s.1 s.2 = true ∧ s' = (RTA_NEXT n s.1, RTA_NEXT_len n s.1 s.2)

/-- A 36-byte record whose only attribute declares length zero. -/
def route_zero_attr : Buf :=
  [36, 0, 0, 0, 24, 0, 2, 0, 0, 0, 0, 0, 0, 0, 0, 0,
   2, 0, 0, 0, 254, 0, 0, 1, 0, 0, 0, 0,
   0, 0, 4, 0, 3, 0, 0, 0]

/-! ## The accesses of the walks -/

/-- A memory access to the message through the pointer `n`: the offset of its
first byte and its width in bytes, for reads and writes alike. -/
abbrev Access := Nat × Nat

/-- The accesses of the test `RTA_OK(a, l)`: the field `rta_len` is read only
when the first operand of `&&`, `l >= (int)sizeof(struct rtattr)`, holds. -/
def RTA_OK_accesses (a : Nat) (l : Int) : List Access :=
  if (sizeof_rtattr : Int) ≤ l then [(a, 2)] else []

/-- The loop of `enumerate_callback` as `enumerate_loop`, with the accesses it
makes to the message, in order: the test `RTA_OK`, the field `rta_type` of the
`switch`, the field `rta_len` in `RTA_PAYLOAD`, the `int` at `RTA_DATA`, the
field `nlmsg_len` for `malloc` and for `memcpy`, the `nlmsg_len` bytes `memcpy`
reads, and the field `rta_len` in `RTA_NEXT`. -/
def enumerate_loop_traced (n : Buf) (ifn : Int) (malloc : Nat → Bool) :
    (k : Nat) → (a : Nat) → (l : Int) → l.toNat ≤ k → List Buf →
      (Option Int × List Buf) × List Access
  | 0, a, l, h, routes =>
    if hok : RTA_OK n a l = true then
      absurd hok (by
        simp only [RTA_OK, sizeof_rtattr, Bool.and_eq_true, decide_eq_true_eq]
        omega)
    else
      ((none, routes), RTA_OK_accesses a l)
  | k + 1, a, l, h, routes =>
    if hok : RTA_OK n a l = true then
      have hnext : (RTA_NEXT_len n a l).toNat ≤ k := by
        simp only [RTA_OK, sizeof_rtattr, Bool.and_eq_true, decide_eq_true_eq] at hok
        simp only [RTA_NEXT_len, RTA_ALIGN, RTA_ALIGNTO]
        omega
      if rta_type n a = RTA_OIF then
        if RTA_PAYLOAD n a ≠ sizeof_int then
          ((some (-1), routes), RTA_OK_accesses a l ++ [(a + 2, 2), (a, 2)])
        else if rdInt n (RTA_DATA a) = ifn then
          if routes.length < MAX_ROUTES then
            if malloc routes.length then
              let rest := enumerate_loop_traced n ifn malloc k (RTA_NEXT n a)
                (RTA_NEXT_len n a l) hnext (routes ++ [memcpy n (nlmsg_len n)])
              (rest.1, RTA_OK_accesses a l ++ [(a + 2, 2), (a, 2), (RTA_DATA a, 4), (0, 4),
                (0, 4), (0, nlmsg_len n), (a, 2)] ++ rest.2)
            else
              ((some (-1), routes),
                RTA_OK_accesses a l ++ [(a + 2, 2), (a, 2), (RTA_DATA a, 4), (0, 4)])
          else
            let rest := enumerate_loop_traced n ifn malloc k (RTA_NEXT n a)
              (RTA_NEXT_len n a l) hnext routes
            (rest.1, RTA_OK_accesses a l ++ [(a + 2, 2), (a, 2), (RTA_DATA a, 4), (a, 2)]
              ++ rest.2)
        else
          let rest := enumerate_loop_traced n ifn malloc k (RTA_NEXT n a)
            (RTA_NEXT_len n a l) hnext routes
          (rest.1, RTA_OK_accesses a l ++ [(a + 2, 2), (a, 2), (RTA_DATA a, 4), (a, 2)]
            ++ rest.2)
      else
        let rest := enumerate_loop_traced n ifn malloc k (RTA_NEXT n a)
          (RTA_NEXT_len n a l) hnext routes
        (rest.1, RTA_OK_accesses a l ++ [(a + 2, 2), (a, 2)] ++ rest.2)
    else
      ((none, routes), RTA_OK_accesses a l)

/-- Function `enumerate_callback` with the accesses it makes to the record:
the field `nlmsg_type`, the field `nlmsg_len` in `NLMSG_PAYLOAD`, the field
`rtm_table`, then those of the loop. -/
def enumerate_callback_traced (n : Buf) (ifn : Int) (malloc : Nat → Bool)
    (routes : List Buf) : (Int × List Buf) × List Access :=
  if nlmsg_type n ≠ RTM_NEWROUTE then
    ((-1, routes), [(4, 2)])
  else
    let r := NLMSG_DATA
    let l := NLMSG_PAYLOAD n sizeof_rtmsg
    let a := RTM_RTA r
    if rtm_table n r ≠ RT_TABLE_MAIN then
      ((0, routes), [(4, 2), (0, 4), (r + 4, 1)])
    else
      let res := enumerate_loop_traced n ifn malloc l.toNat a l (Nat.le_refl _) routes
      (match res.1 with
        | (some v, routes') => (v, routes')
        | (none, routes') => (0, routes'),
        [(4, 2), (0, 4), (r + 4, 1)] ++ res.2)

/-- The loop of `set_route_metric` as `set_route_metric_loop`, with the
accesses it makes to the message, in order: the test `RTA_OK`, the field
`rta_type` of the `switch`, the field `rta_len` in `RTA_PAYLOAD`, the store of
the `int` at `RTA_DATA`, and the field `rta_len` in `RTA_NEXT`. -/
def set_route_metric_loop_traced (n : Buf) (metric : Int) :
    (k : Nat) → (a : Nat) → (l : Int) → l.toNat ≤ k → Option (Option Buf) × List Access
  | 0, a, l, h =>
    if hok : RTA_OK n a l = true then
      absurd hok (by
        simp only [RTA_OK, sizeof_rtattr, Bool.and_eq_true, decide_eq_true_eq]
        omega)
    else
      (none, RTA_OK_accesses a l)
  | k + 1, a, l, h =>
    if hok : RTA_OK n a l = true then
      have hnext : (RTA_NEXT_len n a l).toNat ≤ k := by
        simp only [RTA_OK, sizeof_rtattr, Bool.and_eq_true, decide_eq_true_eq] at hok
        simp only [RTA_NEXT_len, RTA_ALIGN, RTA_ALIGNTO]
        omega
      if rta_type n a = RTA_PRIORITY then
        if RTA_PAYLOAD n a ≠ sizeof_int then
          (some none, RTA_OK_accesses a l ++ [(a + 2, 2), (a, 2)])
        else
          (some (some (wrInt n (RTA_DATA a) metric)),
            RTA_OK_accesses a l ++ [(a + 2, 2), (a, 2), (RTA_DATA a, 4)])
      else
        let rest := set_route_metric_loop_traced n metric k (RTA_NEXT n a)
          (RTA_NEXT_len n a l) hnext
        (rest.1, RTA_OK_accesses a l ++ [(a + 2, 2), (a, 2)] ++ rest.2)
    else
      (none, RTA_OK_accesses a l)

/-- The walk of `set_route_metric`, up to the end of its loop, with the
accesses it makes to the message: the field `nlmsg_len` in `NLMSG_PAYLOAD`,
then those of the loop. -/
def set_route_metric_walk_traced (n : Buf) (metric : Int) :
    Option (Option Buf) × List Access :=
  let r := NLMSG_DATA
  let l := NLMSG_PAYLOAD n sizeof_rtmsg
  let a := RTM_RTA r
  let res := set_route_metric_loop_traced n metric l.toNat a l (Nat.le_refl _)
  (res.1, [(0, 4)] ++ res.2)

/-! ## The order of the mutation requests -/

/-- The mutation requests that §4.6 step 4 of the spec prescribes for the
routes `routes`, numbered from `j`, after the requests `hist` were sent:
"Attempt delete. If delete succeeds, attempt rewrite; if rewrite yields a
buffer, attempt add. A failed delete skips rewrite/add for that route", route
after route in the order of the set. -/
inductive Mutations (w : World) (metric : Int) : Nat → List Buf → List Buf → List Buf → Prop
  | done (j : Nat) (hist : List Buf) : Mutations w metric j [] hist []
  | delete_failed (j : Nat) (r : Buf) (rs hist rest : List Buf) :
      (w.respond hist (delete_msg r)).2 < 0 →
      Mutations w metric (j + 1) rs (hist ++ [delete_msg r]) rest →
      Mutations w metric j (r :: rs) hist (delete_msg r :: rest)
  | rewrite_failed (j : Nat) (r : Buf) (rs hist rest : List Buf) :
      0 ≤ (w.respond hist (delete_msg r)).2 →
      set_route_metric (delete_msg r) metric (w.realloc j) = none →
      Mutations w metric (j + 1) rs (hist ++ [delete_msg r]) rest →
      Mutations w metric j (r :: rs) hist (delete_msg r :: rest)
  | readded (j : Nat) (r b : Buf) (rs hist rest : List Buf) :
      0 ≤ (w.respond hist (delete_msg r)).2 →
      set_route_metric (delete_msg r) metric (w.realloc j) = some b →
      Mutations w metric (j + 1) rs (hist ++ [delete_msg r, add_msg b]) rest →
      Mutations w metric j (r :: rs) hist (delete_msg r :: add_msg b :: rest)

/-! ## `usage` and `main` -/

/-- The part of `prog` after its last `/`, all of it when there is none:
`strrchr(prog, '/')` followed by `b++`, else `b = prog`.  `best` is the part
after the last `/` seen so far. -/
def after_slash : List Char → List Char → List Char
  | [], best => best
  | ch :: cs, best => if ch = '/' then after_slash cs cs else after_slash cs best

/-- Function `usage(prog)`: the text printed on the standard output. -/
def usage (prog : String) : String :=
  let b := String.mk (after_slash prog.data prog.data)
  "Usage: " ++ b ++ " [-6] <iface> [metric]\n" ++
  "\n" ++
  b ++ " is a tool for setting the metrics of all IPv4 or IPv6 routes\n" ++
  "attached to a given network interface at once.\n" ++
  "\n" ++
  "   -6         Set IPv6 metric, IPv4 is default\n" ++
  "   <iface>    The interface\n" ++
  "   <metric>   The new metric (default: 0)\n"

/-- The `for (optind = 1; optind < argc; optind++)` loop of `main`, run over
the arguments from `argv[optind]` on.  `none` is the `return 0` after `-h` or
`--help`; otherwise the result is `family` and `optind` at the `break` or at
the end of the arguments. -/
def main_options : List String → Nat → Nat → Option (Nat × Nat)
  | [], family, optind => some (family, optind)
  | arg :: rest, family, optind =>
    if arg = "-6" then
      main_options rest AF_INET6 (optind + 1)
    else if arg = "-h" ∨ arg = "--help" then
      none
    else
      some (family, optind)

/-- The observable result of a run of `main`: the value returned, the text
printed by `usage` if it was called, the arguments `(iface, family, metric)` of
the call of `go` if it was made, and the requests sent. -/
structure Run where
  exit : Int
  output : Option String
  call : Option (String × Nat × Int)
  trace : List Buf
deriving DecidableEq

/-- Function `main(argc, argv)` with `argc = argv.length`.  `atoi` is the
function of the C library. -/
def main (w : World) (atoi : String → Int) (argv : List String) : Run :=
  let argc : Int := argv.length
  match main_options (argv.drop 1) AF_INET 1 with
  | none => { exit := 0, output := some (usage (argv.getD 0 "")), call := none, trace := [] }
  | some (family, optind) =>
    if argc - optind < 2 then
      { exit := 0, output := some (usage (argv.getD 0 "")), call := none, trace := [] }
    else
      let iface := argv.getD optind ""
      let metric := if argc > 2 then atoi (argv.getD (optind + 1) "") else 0
      let (ret, trace) := go w iface family metric
      { exit := if ret < 0 then 1 else 0, output := none,
        call := some (iface, family, metric), trace := trace }

/-! ## Bytes: reading after writing -/

theorem rd8_lt (b : Buf) (i : Nat) : rd8 b i < 256 := by
  unfold rd8
  omega

theorem rd16_lt (b : Buf) (i : Nat) : rd16 b i < 65536 := by
  have h0 := rd8_lt b i
  have h1 := rd8_lt b (i + 1)
  unfold rd16
  omega

theorem rd32_lt (b : Buf) (i : Nat) : rd32 b i < 4294967296 := by
  have h0 := rd8_lt b i
  have h1 := rd8_lt b (i + 1)
  have h2 := rd8_lt b (i + 2)
  have h3 := rd8_lt b (i + 3)
  unfold rd32
  omega

theorem rd8_congr {b d : Buf} {i : Nat} (h : d[i]? = b[i]?) : rd8 d i = rd8 b i := by
  simp [rd8, h]

theorem rd16_congr {b d : Buf} {i : Nat} (h : ∀ j, i ≤ j → j < i + 2 → d[j]? = b[j]?) :
    rd16 d i = rd16 b i := by
  unfold rd16
  rw [rd8_congr (h i (by omega) (by omega)), rd8_congr (h (i + 1) (by omega) (by omega))]

theorem rd32_congr {b d : Buf} {i : Nat} (h : ∀ j, i ≤ j → j < i + 4 → d[j]? = b[j]?) :
    rd32 d i = rd32 b i := by
  unfold rd32
  rw [rd8_congr (h i (by omega) (by omega)), rd8_congr (h (i + 1) (by omega) (by omega)),
    rd8_congr (h (i + 2) (by omega) (by omega)), rd8_congr (h (i + 3) (by omega) (by omega))]

@[simp] theorem wr8_length (b : Buf) (i v : Nat) : (wr8 b i v).length = b.length := by
  simp [wr8]

@[simp] theorem wr16_length (b : Buf) (i v : Nat) : (wr16 b i v).length = b.length := by
  simp [wr16]

@[simp] theorem wr32_length (b : Buf) (i v : Nat) : (wr32 b i v).length = b.length := by
  simp [wr32]

@[simp] theorem wrInt_length (b : Buf) (i : Nat) (v : Int) : (wrInt b i v).length = b.length := by
  simp [wrInt]

theorem wr8_other (b : Buf) (i v j : Nat) (h : i ≠ j) : (wr8 b i v)[j]? = b[j]? := by
  simp [wr8, List.getElem?_set, h]

theorem wr8_same (b : Buf) (i v : Nat) (h : i < b.length) : (wr8 b i v)[i]? = some (v % 256) := by
  simp [wr8, List.getElem?_set, h]

theorem wr16_other (b : Buf) (i v j : Nat) (h : j < i ∨ i + 2 ≤ j) :
    (wr16 b i v)[j]? = b[j]? := by
  unfold wr16
  rw [wr8_other _ _ _ _ (by omega), wr8_other _ _ _ _ (by omega)]

theorem wr32_other (b : Buf) (i v j : Nat) (h : j < i ∨ i + 4 ≤ j) :
    (wr32 b i v)[j]? = b[j]? := by
  unfold wr32
  rw [wr8_other _ _ _ _ (by omega), wr8_other _ _ _ _ (by omega), wr8_other _ _ _ _ (by omega),
    wr8_other _ _ _ _ (by omega)]

theorem wrInt_other (b : Buf) (i : Nat) (v : Int) (j : Nat) (h : j < i ∨ i + 4 ≤ j) :
    (wrInt b i v)[j]? = b[j]? :=
  wr32_other b i _ j h

theorem rd8_wr8_same (b : Buf) (i v : Nat) (h : i < b.length) : rd8 (wr8 b i v) i = v % 256 := by
  simp [rd8, wr8_same b i v h]

theorem rd16_wr16 (b : Buf) (i v : Nat) (h : i + 2 ≤ b.length) :
    rd16 (wr16 b i v) i = v % 65536 := by
  have e0 : rd8 (wr16 b i v) i = v % 256 := by
    unfold wr16
    rw [rd8_congr (wr8_other _ _ _ _ (by omega)), rd8_wr8_same _ _ _ (by omega)]
  have e1 : rd8 (wr16 b i v) (i + 1) = v / 256 % 256 := by
    unfold wr16
    rw [rd8_wr8_same _ _ _ (by simp; omega)]
  unfold rd16
  rw [e0, e1]
  omega

theorem rd32_wr32 (b : Buf) (i v : Nat) (h : i + 4 ≤ b.length) :
    rd32 (wr32 b i v) i = v % 4294967296 := by
  have e0 : rd8 (wr32 b i v) i = v % 256 := by
    unfold wr32
    rw [rd8_congr (wr8_other _ _ _ _ (by omega)), rd8_congr (wr8_other _ _ _ _ (by omega)),
      rd8_congr (wr8_other _ _ _ _ (by omega)), rd8_wr8_same _ _ _ (by omega)]
  have e1 : rd8 (wr32 b i v) (i + 1) = v / 256 % 256 := by
    unfold wr32
    rw [rd8_congr (wr8_other _ _ _ _ (by omega)), rd8_congr (wr8_other _ _ _ _ (by omega)),
      rd8_wr8_same _ _ _ (by simp; omega)]
  have e2 : rd8 (wr32 b i v) (i + 2) = v / 65536 % 256 := by
    unfold wr32
    rw [rd8_congr (wr8_other _ _ _ _ (by omega)), rd8_wr8_same _ _ _ (by simp; omega)]
  have e3 : rd8 (wr32 b i v) (i + 3) = v / 16777216 % 256 := by
    unfold wr32
    rw [rd8_wr8_same _ _ _ (by simp; omega)]
  unfold rd32
  rw [e0, e1, e2, e3]
  omega

theorem ofInt32_lt (v : Int) : ofInt32 v < 4294967296 := by
  unfold ofInt32
  omega

theorem toInt32_ofInt32 (v : Int) (h0 : -2147483648 ≤ v) (h1 : v < 2147483648) :
    toInt32 (ofInt32 v) = v := by
  unfold toInt32 ofInt32
  omega

theorem rdInt_wrInt (b : Buf) (i : Nat) (v : Int) (h : i + 4 ≤ b.length)
    (h0 : -2147483648 ≤ v) (h1 : v < 2147483648) : rdInt (wrInt b i v) i = v := by
  unfold rdInt wrInt
  rw [rd32_wr32 b i _ h, Nat.mod_eq_of_lt (ofInt32_lt v), toInt32_ofInt32 v h0 h1]

/-! ## The walk -/

theorem RTA_OK_iff (n : Buf) (a : Nat) (l : Int) :
    RTA_OK n a l = true ↔ 4 ≤ l ∧ 4 ≤ rta_len n a ∧ (rta_len n a : Int) ≤ l := by
  simp [RTA_OK, sizeof_rtattr, and_assoc]

theorem RTA_ALIGN_ge (x : Nat) : x ≤ RTA_ALIGN x := by
  simp only [RTA_ALIGN, RTA_ALIGNTO]
  omega

theorem RTA_ALIGN_lt (x : Nat) : RTA_ALIGN x < x + 4 := by
  simp only [RTA_ALIGN, RTA_ALIGNTO]
  omega

theorem RTA_ALIGN_mod (x : Nat) : RTA_ALIGN x % 4 = 0 := by
  simp only [RTA_ALIGN, RTA_ALIGNTO]
  omega

theorem RTA_DATA_eq (a : Nat) : RTA_DATA a = a + 4 := by
  simp [RTA_DATA, RTA_LENGTH, RTA_ALIGN, RTA_ALIGNTO, sizeof_rtattr]

theorem RTA_PAYLOAD_eq (n : Buf) (a : Nat) : RTA_PAYLOAD n a = (rta_len n a : Int) - 4 := by
  simp [RTA_PAYLOAD, RTA_LENGTH, RTA_ALIGN, RTA_ALIGNTO, sizeof_rtattr]

theorem rta_walk_zero (n : Buf) (a : Nat) (l : Int) (h : l.toNat ≤ 0) :
    rta_walk n 0 a l h = [] := by
  simp [rta_walk]

theorem rta_walk_ok (n : Buf) (k a : Nat) (l : Int) (h : l.toNat ≤ k + 1)
    (hok : RTA_OK n a l = true) (h' : (RTA_NEXT_len n a l).toNat ≤ k) :
    rta_walk n (k + 1) a l h = a :: rta_walk n k (RTA_NEXT n a) (RTA_NEXT_len n a l) h' := by
  simp [rta_walk, hok]

theorem rta_walk_stop (n : Buf) (k a : Nat) (l : Int) (h : l.toNat ≤ k)
    (hok : ¬ RTA_OK n a l = true) : rta_walk n k a l h = [] := by
  cases k with
  | zero => simp [rta_walk]
  | succ k => simp [rta_walk, hok]

theorem RTA_NEXT_len_toNat (n : Buf) (k a : Nat) (l : Int) (h : l.toNat ≤ k + 1)
    (hok : RTA_OK n a l = true) : (RTA_NEXT_len n a l).toNat ≤ k := by
  rw [RTA_OK_iff] at hok
  have := RTA_ALIGN_ge (rta_len n a)
  simp only [RTA_NEXT_len]
  omega

theorem RTA_OK_pos (n : Buf) (k a : Nat) (l : Int) (h : l.toNat ≤ k)
    (hok : RTA_OK n a l = true) : ∃ k', k = k' + 1 := by
  rw [RTA_OK_iff] at hok
  cases k with
  | zero => omega
  | succ k => exact ⟨k, rfl⟩

/-- The walk does not depend on the bound it is given. -/
theorem rta_walk_bound (n : Buf) :
    ∀ (k k' a : Nat) (l : Int) (h : l.toNat ≤ k) (h' : l.toNat ≤ k'),
    rta_walk n k a l h = rta_walk n k' a l h' := by
  intro k
  induction k with
  | zero =>
    intro k' a l h h'
    rw [rta_walk_zero]
    have hne : ¬ RTA_OK n a l = true := by
      rw [RTA_OK_iff]
      omega
    rw [rta_walk_stop n k' a l h' hne]
  | succ k ih =>
    intro k' a l h h'
    by_cases hok : RTA_OK n a l = true
    · obtain ⟨k'', rfl⟩ := RTA_OK_pos n k' a l h' hok
      rw [rta_walk_ok n k a l h hok (RTA_NEXT_len_toNat n k a l h hok),
        rta_walk_ok n k'' a l h' hok (RTA_NEXT_len_toNat n k'' a l h' hok)]
      rw [ih]
    · rw [rta_walk_stop n _ a l h hok, rta_walk_stop n _ a l h' hok]

/-- Every attribute of a walk lies at or after its start, has a declared
length of at least a header, and ends inside the walked length. -/
theorem rta_walk_mem (n : Buf) : ∀ (k a : Nat) (l : Int) (h : l.toNat ≤ k) (p : Nat),
    p ∈ rta_walk n k a l h →
      a ≤ p ∧ 4 ≤ rta_len n p ∧ ((p : Int) + rta_len n p ≤ a + l) := by
  intro k
  induction k with
  | zero =>
    intro a l h p hp
    simp [rta_walk] at hp
  | succ k ih =>
    intro a l h p hp
    by_cases hok : RTA_OK n a l = true
    · rw [rta_walk_ok n k a l h hok (RTA_NEXT_len_toNat n k a l h hok)] at hp
      have hok' := (RTA_OK_iff n a l).1 hok
      rcases List.mem_cons.1 hp with rfl | hp
      · exact ⟨Nat.le_refl _, hok'.2.1, by omega⟩
      · have := ih _ _ _ p hp
        have hge := RTA_ALIGN_ge (rta_len n a)
        simp only [RTA_NEXT, RTA_NEXT_len] at this
        refine ⟨by omega, this.2.1, by omega⟩
    · rw [rta_walk_stop n _ a l h hok] at hp
      simp at hp

/-- The loop of `set_route_metric` acts on the first priority attribute of
the walk. -/
theorem set_route_metric_loop_eq (n : Buf) (metric : Int) :
    ∀ (k a : Nat) (l : Int) (h : l.toNat ≤ k),
      set_route_metric_loop n metric k a l h =
        match (rta_walk n k a l h).find? (fun p => rta_type n p = RTA_PRIORITY) with
        | some p =>
          if RTA_PAYLOAD n p ≠ sizeof_int then some none
          else some (some (wrInt n (RTA_DATA p) metric))
        | none => none := by
  intro k
  induction k with
  | zero =>
    intro a l h
    have hne : ¬ RTA_OK n a l = true := by
      rw [RTA_OK_iff]
      omega
    simp [set_route_metric_loop, rta_walk, hne]
  | succ k ih =>
    intro a l h
    by_cases hok : RTA_OK n a l = true
    · rw [rta_walk_ok n k a l h hok (RTA_NEXT_len_toNat n k a l h hok)]
      by_cases hty : rta_type n a = RTA_PRIORITY
      · simp [set_route_metric_loop, hok, hty]
      · simp [set_route_metric_loop, hok, hty, ih]
    · rw [rta_walk_stop n _ a l h hok]
      simp [set_route_metric_loop, hok]

/-! ## The attributes of a message -/

theorem NLMSG_SPACE_rtmsg : NLMSG_SPACE sizeof_rtmsg = 28 := by decide

theorem RTM_RTA_DATA : RTM_RTA NLMSG_DATA = 28 := by decide

/-- A positive payload length is the declared length less header and route
descriptor: the subtraction did not wrap. -/
theorem NLMSG_PAYLOAD_pos (n : Buf) (h : 0 < NLMSG_PAYLOAD n sizeof_rtmsg) :
    NLMSG_PAYLOAD n sizeof_rtmsg = (nlmsg_len n : Int) - 28 := by
  have hlt := rd32_lt n 0
  simp only [NLMSG_PAYLOAD, NLMSG_SPACE_rtmsg, toInt32, nlmsg_len] at h ⊢
  omega

/-- Every attribute of a message starts after the route descriptor and ends
inside the declared length. -/
theorem attrs_mem (n : Buf) (p : Nat) (hp : p ∈ attrs n) :
    28 ≤ p ∧ 4 ≤ rta_len n p ∧ p + rta_len n p ≤ nlmsg_len n := by
  unfold attrs at hp
  have h := rta_walk_mem n _ _ _ _ p hp
  rw [RTM_RTA_DATA] at h
  have hpos : 0 < NLMSG_PAYLOAD n sizeof_rtmsg := by omega
  rw [NLMSG_PAYLOAD_pos n hpos] at h
  omega

theorem first_attr_mem (n : Buf) (ty p : Nat) (hp : first_attr n ty = some p) :
    p ∈ attrs n ∧ rta_type n p = ty := by
  unfold first_attr at hp
  have h1 := List.mem_of_find?_eq_some hp
  have h2 := List.find?_some hp
  exact ⟨h1, by simpa using h2⟩

/-- What `set_route_metric` does, in terms of the first priority attribute. -/
theorem set_route_metric_eq (n : Buf) (metric : Int) (heap : Option (Nat → Nat)) :
    set_route_metric n metric heap =
      match first_attr n RTA_PRIORITY with
      | some p =>
        if RTA_PAYLOAD n p ≠ sizeof_int then none else some (wrInt n (RTA_DATA p) metric)
      | none =>
        (realloc n (toSize (toInt32 ((nlmsg_len n : Int) + 1024))) heap).map
          (fun n' => addattr32 n' (toInt32 ((nlmsg_len n : Int) + 1024)) RTA_PRIORITY metric) := by
  unfold set_route_metric first_attr attrs
  simp only [set_route_metric_loop_eq]
  cases hf : (rta_walk n (NLMSG_PAYLOAD n sizeof_rtmsg).toNat (RTM_RTA NLMSG_DATA)
      (NLMSG_PAYLOAD n sizeof_rtmsg) (Nat.le_refl _)).find?
      (fun p => rta_type n p = RTA_PRIORITY) with
  | some p =>
    by_cases hpay : RTA_PAYLOAD n p = sizeof_int <;> simp [hpay]
  | none =>
    cases hr : realloc n (toSize (toInt32 ((nlmsg_len n : Int) + 1024))) heap <;> simp

/-- C1. For every route message held in a buffer of at least its declared
length whose attribute walk reaches a priority attribute, the first one having a
payload of exactly 4 bytes, and for every metric, `set_route_metric` returns the
same buffer: same size, same header total-length, the 4 payload bytes of that
attribute hold the 32-bit pattern of the metric (read back as an `int` they give
the metric), and every other byte is as in the input. -/
theorem set_route_metric_overwrite (n : Buf) (metric : Int) (heap : Option (Nat → Nat))
    (p : Nat) (hlen : nlmsg_len n ≤ n.length)
    (hp : first_attr n RTA_PRIORITY = some p) (hpay : RTA_PAYLOAD n p = 4) :
    ∃ n', set_route_metric n metric heap = some n' ∧
      n'.length = n.length ∧ nlmsg_len n' = nlmsg_len n ∧
      rd32 n' (RTA_DATA p) = ofInt32 metric ∧
      (-2147483648 ≤ metric → metric < 2147483648 → rdInt n' (RTA_DATA p) = metric) ∧
      ∀ i, i < RTA_DATA p ∨ RTA_DATA p + 4 ≤ i → n'[i]? = n[i]? := by
  have hm := attrs_mem n p (first_attr_mem n _ p hp).1
  have hl : (rta_len n p : Int) = 8 := by
    rw [RTA_PAYLOAD_eq] at hpay
    omega
  have hb : RTA_DATA p + 4 ≤ n.length := by
    rw [RTA_DATA_eq]
    omega
  refine ⟨wrInt n (RTA_DATA p) metric, ?_, by simp, ?_, ?_, ?_, ?_⟩
  · rw [set_route_metric_eq, hp]
    simp [hpay, sizeof_int]
  · unfold nlmsg_len
    apply rd32_congr
    intro j _ hj
    apply wrInt_other
    rw [RTA_DATA_eq]
    omega
  · unfold wrInt
    rw [rd32_wr32 n _ _ hb, Nat.mod_eq_of_lt (ofInt32_lt metric)]
  · intro h0 h1
    exact rdInt_wrInt n _ metric hb h0 h1
  · intro i hi
    exact wrInt_other n _ metric i hi

/-! ## Growing the buffer and appending -/

theorem realloc_some (n : Buf) (size : Nat) (fresh : Nat → Nat) :
    ∃ r, realloc n size (some fresh) = some r ∧ r.length = size ∧
      ∀ j, j < size → j < n.length → r[j]? = n[j]? := by
  refine ⟨_, rfl, by simp, ?_⟩
  intro j hj hjn
  simp [List.getElem?_map, List.getElem?_range hj, hjn, List.getD_eq_getElem?_getD,
    List.getElem?_eq_getElem hjn]

theorem NLMSG_ALIGN_ge (x : Nat) : x ≤ NLMSG_ALIGN x := by
  simp only [NLMSG_ALIGN, NLMSG_ALIGNTO]
  omega

theorem NLMSG_ALIGN_lt (x : Nat) : NLMSG_ALIGN x < x + 4 := by
  simp only [NLMSG_ALIGN, NLMSG_ALIGNTO]
  omega

theorem NLMSG_ALIGN_of_mod (x : Nat) (h : x % 4 = 0) : NLMSG_ALIGN x = x := by
  simp only [NLMSG_ALIGN, NLMSG_ALIGNTO]
  omega

/-- The effect of `addattr32` on a region with room for the new TLV. -/
theorem addattr32_spec (m : Buf) (t : Int) (ty : Nat) (data : Int)
    (h4 : 4 ≤ nlmsg_len m) (hroom : NLMSG_ALIGN (nlmsg_len m) + 8 ≤ m.length)
    (hty : ty < 65536) :
    (addattr32 m t ty data).length = m.length ∧
    nlmsg_len (addattr32 m t ty data) = (NLMSG_ALIGN (nlmsg_len m) + 8) % 4294967296 ∧
    rta_len (addattr32 m t ty data) (NLMSG_ALIGN (nlmsg_len m)) = 8 ∧
    rta_type (addattr32 m t ty data) (NLMSG_ALIGN (nlmsg_len m)) = ty ∧
    rd32 (addattr32 m t ty data) (NLMSG_ALIGN (nlmsg_len m) + 4) = ofInt32 data ∧
    ∀ j, 4 ≤ j → (j < NLMSG_ALIGN (nlmsg_len m) ∨ NLMSG_ALIGN (nlmsg_len m) + 8 ≤ j) →
      (addattr32 m t ty data)[j]? = m[j]? := by
  have hge := NLMSG_ALIGN_ge (nlmsg_len m)
  have hlen8 : RTA_LENGTH 4 = 8 := by decide
  generalize he : NLMSG_ALIGN (nlmsg_len m) = e at *
  have hres : addattr32 m t ty data =
      wr32 (wrInt (wr16 (wr16 m (e + 2) ty) e 8) (e + 4) data) 0 (e + 8) := by
    simp only [addattr32, he, hlen8, RTA_DATA_eq]
  rw [hres]
  refine ⟨by simp, ?_, ?_, ?_, ?_, ?_⟩
  · unfold nlmsg_len
    rw [rd32_wr32 _ _ _ (by simp; omega)]
  · unfold rta_len
    rw [rd16_congr (fun j h1 h2 => wr32_other _ _ _ j (by omega)),
      rd16_congr (fun j h1 h2 => wrInt_other _ _ _ j (by omega)),
      rd16_wr16 _ _ _ (by simp; omega)]
  · unfold rta_type
    rw [rd16_congr (fun j h1 h2 => wr32_other _ _ _ j (by omega)),
      rd16_congr (fun j h1 h2 => wrInt_other _ _ _ j (by omega)),
      rd16_congr (fun j h1 h2 => wr16_other _ _ _ j (by omega)),
      rd16_wr16 _ _ _ (by omega)]
    omega
  · rw [rd32_congr (fun j h1 h2 => wr32_other _ _ _ j (by omega))]
    unfold wrInt
    rw [rd32_wr32 _ _ _ (by simp; omega), Nat.mod_eq_of_lt (ofInt32_lt data)]
  · intro j hj4 hj
    rw [wr32_other _ _ _ j (by omega), wrInt_other _ _ _ j (by omega),
      wr16_other _ _ _ j (by omega), wr16_other _ _ _ j (by omega)]

/-- The append branch of `set_route_metric`: no priority attribute, the
reallocation succeeds and the grown size fits an `int`. -/
theorem set_route_metric_grow (n : Buf) (metric : Int) (fresh : Nat → Nat)
    (hlen : nlmsg_len n ≤ n.length) (hmin : 4 ≤ nlmsg_len n)
    (hmax : nlmsg_len n + 1024 < 2147483648)
    (hp : first_attr n RTA_PRIORITY = none) :
    ∃ n', set_route_metric n metric (some fresh) = some n' ∧
      n'.length = nlmsg_len n + 1024 ∧
      nlmsg_len n' = NLMSG_ALIGN (nlmsg_len n) + 8 ∧
      rta_len n' (NLMSG_ALIGN (nlmsg_len n)) = 8 ∧
      rta_type n' (NLMSG_ALIGN (nlmsg_len n)) = RTA_PRIORITY ∧
      rd32 n' (NLMSG_ALIGN (nlmsg_len n) + 4) = ofInt32 metric ∧
      ∀ j, 4 ≤ j → j < n.length → j < nlmsg_len n + 1024 →
        (j < NLMSG_ALIGN (nlmsg_len n) ∨ NLMSG_ALIGN (nlmsg_len n) + 8 ≤ j) →
        n'[j]? = n[j]? := by
  have hsize : toSize (toInt32 ((nlmsg_len n : Int) + 1024)) = nlmsg_len n + 1024 := by
    unfold toSize toInt32
    omega
  obtain ⟨r, hr, hrl, hrj⟩ := realloc_some n (nlmsg_len n + 1024) fresh
  have hrn : nlmsg_len r = nlmsg_len n := by
    unfold nlmsg_len
    exact rd32_congr (fun j _ hj => hrj j (by omega) (by omega))
  have hlt := NLMSG_ALIGN_lt (nlmsg_len n)
  have hspec := addattr32_spec r (toInt32 ((nlmsg_len n : Int) + 1024)) RTA_PRIORITY metric
    (by omega) (by rw [hrn]; omega) (by decide)
  rw [hrn] at hspec
  obtain ⟨s1, s2, s3, s4, s5, s6⟩ := hspec
  refine ⟨_, ?_, ?_, ?_, s3, s4, s5, ?_⟩
  · rw [set_route_metric_eq, hp]
    simp only [hsize, hr, Option.map_some']
  · rw [s1, hrl]
  · rw [s2]
    omega
  · intro j h4 hjn hjs hj
    rw [s6 j h4 hj, hrj j hjs hjn]

/-- C2. For every route message (header and route descriptor present, held in
a buffer of at least its declared length, the grown size fitting an `int`) of
4-byte-aligned length whose attribute walk finds no priority attribute, when the
reallocation succeeds `set_route_metric` returns a buffer grown by 1024 bytes
whose message is the original bytes followed, at the old end, by one TLV of
length 8, type priority and payload the metric; the header total-length grows by
exactly 8 and no original byte outside the header length field changes. -/
theorem set_route_metric_append (n : Buf) (metric : Int) (fresh : Nat → Nat)
    (hlen : nlmsg_len n ≤ n.length) (hmin : NLMSG_LENGTH sizeof_rtmsg ≤ nlmsg_len n)
    (hmax : nlmsg_len n + 1024 < 2147483648) (hal : nlmsg_len n % 4 = 0)
    (hp : first_attr n RTA_PRIORITY = none) :
    ∃ n', set_route_metric n metric (some fresh) = some n' ∧
      n'.length = nlmsg_len n + 1024 ∧
      nlmsg_len n' = nlmsg_len n + 8 ∧
      (∀ j, 4 ≤ j → j < nlmsg_len n → n'[j]? = n[j]?) ∧
      rta_len n' (nlmsg_len n) = RTA_LENGTH 4 ∧
      rta_type n' (nlmsg_len n) = RTA_PRIORITY ∧
      rd32 n' (RTA_DATA (nlmsg_len n)) = ofInt32 metric ∧
      (-2147483648 ≤ metric → metric < 2147483648 →
        rdInt n' (RTA_DATA (nlmsg_len n)) = metric) := by
  have h28 : NLMSG_LENGTH sizeof_rtmsg = 28 := by decide
  obtain ⟨n', h1, h2, h3, h4, h5, h6, h7⟩ :=
    set_route_metric_grow n metric fresh hlen (by omega) hmax hp
  rw [NLMSG_ALIGN_of_mod _ hal] at h3 h4 h5 h6 h7
  refine ⟨n', h1, h2, h3, ?_, ?_, h5, ?_, ?_⟩
  · intro j hj4 hj
    exact h7 j hj4 (by omega) (by omega) (Or.inl hj)
  · rw [h4]
    decide
  · rw [RTA_DATA_eq, h6]
  · intro h0 hh1
    rw [RTA_DATA_eq]
    unfold rdInt
    rw [h6, toInt32_ofInt32 metric h0 hh1]

/-! ## Walking a rewritten message -/

theorem rta_walk_cast (n : Buf) (k a a' : Nat) (l l' : Int) (h : l.toNat ≤ k)
    (h' : l'.toNat ≤ k) (ha : a = a') (hl : l = l') :
    rta_walk n k a l h = rta_walk n k a' l' h' := by
  subst ha
  subst hl
  rfl

theorem rta_rest_stop (n : Buf) (k a : Nat) (l : Int) (h : l.toNat ≤ k)
    (hok : ¬ RTA_OK n a l = true) : rta_rest n k a l h = l := by
  cases k with
  | zero => simp [rta_rest]
  | succ k => simp [rta_rest, hok]

theorem rta_rest_ok (n : Buf) (k a : Nat) (l : Int) (h : l.toNat ≤ k + 1)
    (hok : RTA_OK n a l = true) (h' : (RTA_NEXT_len n a l).toNat ≤ k) :
    rta_rest n (k + 1) a l h = rta_rest n k (RTA_NEXT n a) (RTA_NEXT_len n a l) h' := by
  simp [rta_rest, hok]

/-- The length left over is at most the length walked and differs from it by
a multiple of the alignment. -/
theorem rta_rest_le (n : Buf) : ∀ (k a : Nat) (l : Int) (h : l.toNat ≤ k),
    rta_rest n k a l h ≤ l ∧ (l - rta_rest n k a l h) % 4 = 0 := by
  intro k
  induction k with
  | zero =>
    intro a l h
    simp [rta_rest]
  | succ k ih =>
    intro a l h
    by_cases hok : RTA_OK n a l = true
    · rw [rta_rest_ok n k a l h hok (RTA_NEXT_len_toNat n k a l h hok)]
      have := ih (RTA_NEXT n a) (RTA_NEXT_len n a l) (RTA_NEXT_len_toNat n k a l h hok)
      have hge := RTA_ALIGN_ge (rta_len n a)
      have hmod := RTA_ALIGN_mod (rta_len n a)
      simp only [RTA_NEXT_len] at this ⊢
      omega
    · rw [rta_rest_stop n _ a l h hok]
      simp

/-- A message whose walk ends exactly at its declared end has its header and
route descriptor, and an aligned length. -/
theorem attrs_rest_zero (n : Buf) (h : attrs_rest n = 0) :
    28 ≤ nlmsg_len n ∧ nlmsg_len n % 4 = 0 ∧
      NLMSG_PAYLOAD n sizeof_rtmsg = (nlmsg_len n : Int) - 28 := by
  unfold attrs_rest at h
  have hr := rta_rest_le n _ (RTM_RTA NLMSG_DATA) _
    (Nat.le_refl (NLMSG_PAYLOAD n sizeof_rtmsg).toNat)
  rw [h] at hr
  have hlt := rd32_lt n 0
  have hpay : NLMSG_PAYLOAD n sizeof_rtmsg = (nlmsg_len n : Int) - 28 := by
    simp only [NLMSG_PAYLOAD, NLMSG_SPACE_rtmsg, toInt32, nlmsg_len] at hr ⊢
    omega
  rw [hpay] at hr
  omega

/-- Overwriting the payload of the first attribute of some type leaves it the
first attribute of that type: the walk reads attribute headers only, and those
up to it lie before its payload. -/
theorem rta_walk_first_congr (n n' : Buf) (ty p : Nat)
    (hagree : ∀ j, j < p + 4 → n'[j]? = n[j]?) :
    ∀ (k a : Nat) (l : Int) (h : l.toNat ≤ k),
      (rta_walk n k a l h).find? (fun q => rta_type n q = ty) = some p →
      (rta_walk n' k a l h).find? (fun q => rta_type n' q = ty) = some p := by
  intro k
  induction k with
  | zero =>
    intro a l h hf
    simp [rta_walk] at hf
  | succ k ih =>
    intro a l h hf
    by_cases hok : RTA_OK n a l = true
    · have hn := RTA_NEXT_len_toNat n k a l h hok
      have hge : a ≤ p := (rta_walk_mem n _ a l h p (List.mem_of_find?_eq_some hf)).1
      have hlen : rta_len n' a = rta_len n a :=
        rd16_congr (fun j _ hj => hagree j (by omega))
      have hty : rta_type n' a = rta_type n a :=
        rd16_congr (fun j _ hj => hagree j (by omega))
      have hok' : RTA_OK n' a l = true := by
        rw [RTA_OK_iff] at hok ⊢
        rw [hlen]
        exact hok
      have hn' := RTA_NEXT_len_toNat n' k a l h hok'
      rw [rta_walk_ok n k a l h hok hn] at hf
      rw [rta_walk_ok n' k a l h hok' hn']
      by_cases hta : rta_type n a = ty
      · simp only [List.find?_cons, hta, decide_True] at hf
        simp only [List.find?_cons, hty, hta, decide_True]
        exact hf
      · simp only [List.find?_cons, hta, decide_False] at hf
        simp only [List.find?_cons, hty, hta, decide_False]
        have := ih (RTA_NEXT n a) (RTA_NEXT_len n a l) hn hf
        rw [rta_walk_cast n' k (RTA_NEXT n' a) (RTA_NEXT n a) (RTA_NEXT_len n' a l)
          (RTA_NEXT_len n a l) hn' hn (by simp [RTA_NEXT, hlen]) (by simp [RTA_NEXT_len, hlen])]
        exact this
    · rw [rta_walk_stop n _ a l h hok] at hf
      simp at hf

/-- After a TLV of type `ty` is appended at the end `e` of a stream that the
walk consumes exactly and that holds no such attribute, the walk over the
extended length finds it at `e`. -/
theorem rta_walk_append (n n' : Buf) (ty e : Nat)
    (hlenE : rta_len n' e = 8) (htyE : rta_type n' e = ty) :
    ∀ (k a : Nat) (l : Int) (h : l.toNat ≤ k) (k' : Nat) (h' : (l + 8).toNat ≤ k'),
      (a : Int) + l = e → (∀ j, a ≤ j → j < e → n'[j]? = n[j]?) →
      rta_rest n k a l h = 0 →
      (rta_walk n k a l h).find? (fun q => rta_type n q = ty) = none →
      (rta_walk n' k' a (l + 8) h').find? (fun q => rta_type n' q = ty) = some e := by
  intro k
  induction k with
  | zero =>
    intro a l h k' h' hae hagree hrest hf
    simp only [rta_rest] at hrest
    subst hrest
    have hok' : RTA_OK n' a (0 + 8) = true := by
      rw [RTA_OK_iff]
      have : a = e := by omega
      subst this
      omega
    obtain ⟨k'', rfl⟩ := RTA_OK_pos n' k' a (0 + 8) h' hok'
    rw [rta_walk_ok n' k'' a (0 + 8) h' hok' (RTA_NEXT_len_toNat n' k'' a _ h' hok')]
    have : a = e := by omega
    subst this
    simp [List.find?_cons, htyE]
  | succ k ih =>
    intro a l h k' h' hae hagree hrest hf
    by_cases hok : RTA_OK n a l = true
    · have hn := RTA_NEXT_len_toNat n k a l h hok
      have hokp := (RTA_OK_iff n a l).1 hok
      have hlen : rta_len n' a = rta_len n a :=
        rd16_congr (fun j h1 h2 => hagree j h1 (by omega))
      have hty : rta_type n' a = rta_type n a :=
        rd16_congr (fun j h1 h2 => hagree j (by omega) (by omega))
      have hok' : RTA_OK n' a (l + 8) = true := by
        rw [RTA_OK_iff, hlen]
        omega
      obtain ⟨k'', rfl⟩ := RTA_OK_pos n' k' a (l + 8) h' hok'
      have hn' := RTA_NEXT_len_toNat n' k'' a (l + 8) h' hok'
      rw [rta_rest_ok n k a l h hok hn] at hrest
      rw [rta_walk_ok n k a l h hok hn] at hf
      rw [rta_walk_ok n' k'' a (l + 8) h' hok' hn']
      have hta : ¬ rta_type n a = ty := by
        intro hta
        simp [List.find?_cons, hta] at hf
      simp only [List.find?_cons, hta, decide_False] at hf
      simp only [List.find?_cons, hty, hta, decide_False]
      have hge := RTA_ALIGN_ge (rta_len n a)
      have hl8 : RTA_NEXT_len n' a (l + 8) = RTA_NEXT_len n a l + 8 := by
        simp only [RTA_NEXT_len, hlen]
        omega
      have hn'' : (RTA_NEXT_len n a l + 8).toNat ≤ k'' := by
        rw [← hl8]
        exact hn'
      rw [rta_walk_cast n' k'' (RTA_NEXT n' a) (RTA_NEXT n a) (RTA_NEXT_len n' a (l + 8))
        (RTA_NEXT_len n a l + 8) hn' hn'' (by simp [RTA_NEXT, hlen]) hl8]
      apply ih (RTA_NEXT n a) (RTA_NEXT_len n a l) hn k'' hn''
      · simp only [RTA_NEXT, RTA_NEXT_len]
        push_cast
        omega
      · intro j h1 h2
        apply hagree j _ h2
        simp only [RTA_NEXT] at h1
        omega
      · exact hrest
      · exact hf
    · rw [rta_rest_stop n _ a l h hok] at hrest
      subst hrest
      have hok' : RTA_OK n' a (0 + 8) = true := by
        rw [RTA_OK_iff]
        have : a = e := by omega
        subst this
        omega
      obtain ⟨k'', rfl⟩ := RTA_OK_pos n' k' a (0 + 8) h' hok'
      rw [rta_walk_ok n' k'' a (0 + 8) h' hok' (RTA_NEXT_len_toNat n' k'' a _ h' hok')]
      have : a = e := by omega
      subst this
      simp [List.find?_cons, htyE]

/-! ## Read-after-write of the priority -/

theorem NLMSG_PAYLOAD_congr (n n' : Buf) (h : nlmsg_len n' = nlmsg_len n) :
    NLMSG_PAYLOAD n' sizeof_rtmsg = NLMSG_PAYLOAD n sizeof_rtmsg := by
  simp [NLMSG_PAYLOAD, h]

theorem first_attr_overwrite (n : Buf) (metric : Int) (p : Nat)
    (hp : first_attr n RTA_PRIORITY = some p) :
    first_attr (wrInt n (RTA_DATA p) metric) RTA_PRIORITY = some p := by
  have hm := attrs_mem n p (first_attr_mem n _ p hp).1
  have hagree : ∀ j, j < p + 4 → (wrInt n (RTA_DATA p) metric)[j]? = n[j]? := by
    intro j hj
    apply wrInt_other
    rw [RTA_DATA_eq]
    omega
  have hl : nlmsg_len (wrInt n (RTA_DATA p) metric) = nlmsg_len n := by
    unfold nlmsg_len
    exact rd32_congr (fun j _ hj => hagree j (by omega))
  have hP := NLMSG_PAYLOAD_congr n _ hl
  unfold first_attr attrs at hp ⊢
  have := rta_walk_first_congr n (wrInt n (RTA_DATA p) metric) RTA_PRIORITY p hagree _ _ _ _ hp
  rw [rta_walk_cast _ _ (RTM_RTA NLMSG_DATA) (RTM_RTA NLMSG_DATA)
    (NLMSG_PAYLOAD (wrInt n (RTA_DATA p) metric) sizeof_rtmsg) (NLMSG_PAYLOAD n sizeof_rtmsg)
    (Nat.le_refl _) (by rw [hP]) rfl hP]
  rw [rta_walk_bound _ _ (NLMSG_PAYLOAD n sizeof_rtmsg).toNat _ _ _ (Nat.le_refl _)]
  exact this

/-- C3, amended. For every route message held in a buffer of at least its
declared length that either carries a priority attribute or has an attribute
stream the walk consumes exactly, and every metric for which `set_route_metric`
returns a buffer, the walk over the returned message finds a priority
attribute, and the first one has a 4-byte payload holding the metric. -/
theorem set_route_metric_readback (n : Buf) (metric : Int) (heap : Option (Nat → Nat))
    (n' : Buf) (hlen : nlmsg_len n ≤ n.length) (hmax : nlmsg_len n + 1024 < 2147483648)
    (h0 : -2147483648 ≤ metric) (h1 : metric < 2147483648)
    (hwf : first_attr n RTA_PRIORITY ≠ none ∨ attrs_rest n = 0)
    (hs : set_route_metric n metric heap = some n') :
    ∃ p, first_attr n' RTA_PRIORITY = some p ∧ RTA_PAYLOAD n' p = 4 ∧
      rdInt n' (RTA_DATA p) = metric := by
  cases hf : first_attr n RTA_PRIORITY with
  | some p =>
    rw [set_route_metric_eq, hf] at hs
    by_cases hpay : RTA_PAYLOAD n p = sizeof_int
    · simp only [hpay, ne_eq, not_true_eq_false, ↓reduceIte, Option.some.injEq] at hs
      subst hs
      have hm := attrs_mem n p (first_attr_mem n _ p hf).1
      have hl8 : (rta_len n p : Int) = 8 := by
        rw [RTA_PAYLOAD_eq] at hpay
        simp only [sizeof_int] at hpay
        omega
      refine ⟨p, first_attr_overwrite n metric p hf, ?_, ?_⟩
      · rw [RTA_PAYLOAD_eq]
        have : rta_len (wrInt n (RTA_DATA p) metric) p = rta_len n p := by
          apply rd16_congr
          intro j _ hj
          apply wrInt_other
          rw [RTA_DATA_eq]
          omega
        rw [this]
        omega
      · apply rdInt_wrInt _ _ _ _ h0 h1
        rw [RTA_DATA_eq]
        omega
    · simp [hpay] at hs
  | none =>
    have hz : attrs_rest n = 0 := by
      rcases hwf with h | h
      · exact absurd hf h
      · exact h
    obtain ⟨z1, z2, z3⟩ := attrs_rest_zero n hz
    cases heap with
    | none =>
      rw [set_route_metric_eq, hf] at hs
      simp [realloc] at hs
    | some fresh =>
      obtain ⟨m, g1, g2, g3, g4, g5, g6, g7⟩ :=
        set_route_metric_grow n metric fresh hlen (by omega) hmax hf
      rw [g1] at hs
      simp only [Option.some.injEq] at hs
      subst hs
      rw [NLMSG_ALIGN_of_mod _ z2] at g3 g4 g5 g6 g7
      have hP : NLMSG_PAYLOAD m sizeof_rtmsg = NLMSG_PAYLOAD n sizeof_rtmsg + 8 := by
        rw [z3]
        simp only [NLMSG_PAYLOAD, NLMSG_SPACE_rtmsg, toInt32, g3]
        push_cast
        omega
      have hfind : first_attr m RTA_PRIORITY = some (nlmsg_len n) := by
        unfold first_attr attrs at hf ⊢
        unfold attrs_rest at hz
        rw [rta_walk_cast m _ (RTM_RTA NLMSG_DATA) (RTM_RTA NLMSG_DATA)
          (NLMSG_PAYLOAD m sizeof_rtmsg) (NLMSG_PAYLOAD n sizeof_rtmsg + 8)
          (Nat.le_refl _) (by rw [hP]) rfl hP]
        apply rta_walk_append n m RTA_PRIORITY (nlmsg_len n) g4 g5 _ _ _ _ _ _ _ _ hz hf
        · rw [RTM_RTA_DATA, z3]
          push_cast
          omega
        · intro j hj1 hj2
          rw [RTM_RTA_DATA] at hj1
          exact g7 j (by omega) (by omega) (by omega) (Or.inl hj2)
      refine ⟨nlmsg_len n, hfind, ?_, ?_⟩
      · rw [RTA_PAYLOAD_eq, g4]
        norm_num
      · rw [RTA_DATA_eq]
        unfold rdInt
        rw [g6, toInt32_ofInt32 metric h0 h1]

/-- C4, amended. For every route message with header and route descriptor whose
header total-length equals the length of its buffer (the grown size fitting an
`int`) and every buffer `set_route_metric` returns: after an overwrite the
buffer and the header total-length are unchanged, so they still agree; after an
append the header total-length is the aligned old length plus 8 while the buffer
is 1024 bytes longer than before, so the message fills only the first
total-length bytes of it. -/
theorem set_route_metric_length (n : Buf) (metric : Int) (heap : Option (Nat → Nat))
    (n' : Buf) (hlen : nlmsg_len n = n.length) (hmin : NLMSG_LENGTH sizeof_rtmsg ≤ nlmsg_len n)
    (hmax : nlmsg_len n + 1024 < 2147483648)
    (hs : set_route_metric n metric heap = some n') :
    (first_attr n RTA_PRIORITY ≠ none →
      n'.length = n.length ∧ nlmsg_len n' = n'.length) ∧
    (first_attr n RTA_PRIORITY = none →
      n'.length = n.length + 1024 ∧
      nlmsg_len n' = NLMSG_ALIGN (nlmsg_len n) + RTA_LENGTH 4 ∧
      nlmsg_len n' < n'.length) := by
  have h28 : NLMSG_LENGTH sizeof_rtmsg = 28 := by decide
  have h8 : RTA_LENGTH 4 = 8 := by decide
  constructor
  · intro hne
    cases hf : first_attr n RTA_PRIORITY with
    | none => exact absurd hf hne
    | some p =>
      rw [set_route_metric_eq, hf] at hs
      by_cases hpay : RTA_PAYLOAD n p = sizeof_int
      · simp only [hpay, ne_eq, not_true_eq_false, ↓reduceIte, Option.some.injEq] at hs
        subst hs
        refine ⟨by simp, ?_⟩
        have : nlmsg_len (wrInt n (RTA_DATA p) metric) = nlmsg_len n := by
          unfold nlmsg_len
          apply rd32_congr
          intro j _ hj
          apply wrInt_other
          rw [RTA_DATA_eq]
          omega
        rw [this, hlen]
        simp
      · simp [hpay] at hs
  · intro hf
    cases heap with
    | none =>
      rw [set_route_metric_eq, hf] at hs
      simp [realloc] at hs
    | some fresh =>
      obtain ⟨m, g1, g2, g3, _⟩ :=
        set_route_metric_grow n metric fresh (by omega) (by omega) hmax hf
      rw [g1] at hs
      simp only [Option.some.injEq] at hs
      subst hs
      have := NLMSG_ALIGN_lt (nlmsg_len n)
      refine ⟨by omega, by omega, by omega⟩

/-! ## One route of `go` -/

/-- The requests the body of the loop of `go` sends for one route. -/
theorem go_body_eq (w : World) (metric : Int) (j : Nat) (route : Buf) (trace : List Buf) :
    go_body w metric j route trace =
      if (w.respond trace (delete_msg route)).2 ≥ 0 then
        match set_route_metric (delete_msg route) metric (w.realloc j) with
        | some b => trace ++ [delete_msg route, add_msg b]
        | none => trace ++ [delete_msg route]
      else trace ++ [delete_msg route] := by
  simp only [go_body, delete_route, add_route, netlink_request, delete_msg, add_msg]
  split
  · cases set_route_metric (wr16 (wr16 route 4 RTM_DELROUTE) 6 NLM_F_REQUEST) metric
      (w.realloc j) <;> simp
  · rfl

theorem delete_msg_other (n : Buf) (j : Nat) (h : j < 4 ∨ 8 ≤ j) :
    (delete_msg n)[j]? = n[j]? := by
  unfold delete_msg
  rw [wr16_other _ _ _ j (by omega), wr16_other _ _ _ j (by omega)]

theorem add_msg_other (n : Buf) (j : Nat) (h : j < 4 ∨ 8 ≤ j) : (add_msg n)[j]? = n[j]? := by
  unfold add_msg
  rw [wr16_other _ _ _ j (by omega), wr16_other _ _ _ j (by omega)]

/-- C5, amended. For every route processed by `go` whose delete message `D`
(header and route descriptor present, held in a buffer of at least its declared
length, the grown size fitting an `int`) is followed by an add message `A`, the
bytes of `A` differ from those of `D` only in the header's record kind and flags
(offsets 4 to 7), and in the payload of the first priority attribute, or, when
the route had no priority attribute, in the header length field and at or after
the old declared end, where the new TLV is. -/
theorem go_body_preservation (w : World) (metric : Int) (j : Nat) (route : Buf)
    (trace : List Buf) (D A : Buf)
    (hlen : nlmsg_len D ≤ D.length) (hmin : NLMSG_LENGTH sizeof_rtmsg ≤ nlmsg_len D)
    (hmax : nlmsg_len D + 1024 < 2147483648)
    (hgo : go_body w metric j route trace = trace ++ [D, A]) :
    D = delete_msg route ∧
    ∀ i, A[i]? ≠ D[i]? →
      (4 ≤ i ∧ i < 8) ∨
      (∃ p, first_attr D RTA_PRIORITY = some p ∧ RTA_DATA p ≤ i ∧ i < RTA_DATA p + 4) ∨
      (first_attr D RTA_PRIORITY = none ∧ (i < 4 ∨ nlmsg_len D ≤ i)) := by
  have h28 : NLMSG_LENGTH sizeof_rtmsg = 28 := by decide
  rw [go_body_eq] at hgo
  have key : ∃ b, D = delete_msg route ∧ A = add_msg b ∧
      set_route_metric D metric (w.realloc j) = some b := by
    split at hgo
    · cases hs : set_route_metric (delete_msg route) metric (w.realloc j) with
      | some b =>
        rw [hs] at hgo
        simp only [List.append_cancel_left_eq, List.cons.injEq, and_true] at hgo
        exact ⟨b, hgo.1.symm, hgo.2.symm, by rw [← hgo.1]; exact hs⟩
      | none =>
        rw [hs] at hgo
        have := congrArg List.length hgo
        simp at this
    · have := congrArg List.length hgo
      simp at this
  obtain ⟨b, hD, hA, hs⟩ := key
  refine ⟨hD, ?_⟩
  intro i hne
  by_cases hi : 4 ≤ i ∧ i < 8
  · exact Or.inl hi
  · right
    rw [hA, add_msg_other b i (by omega)] at hne
    cases hf : first_attr D RTA_PRIORITY with
    | some p =>
      left
      refine ⟨p, rfl, ?_⟩
      rw [set_route_metric_eq, hf] at hs
      by_cases hpay : RTA_PAYLOAD D p = sizeof_int
      · simp only [hpay, ne_eq, not_true_eq_false, ↓reduceIte, Option.some.injEq] at hs
        subst hs
        by_contra hcon
        exact hne (wrInt_other D _ metric i (by omega))
      · simp [hpay] at hs
    | none =>
      right
      refine ⟨rfl, ?_⟩
      cases hh : w.realloc j with
      | none =>
        rw [set_route_metric_eq, hf, hh] at hs
        simp [realloc] at hs
      | some fresh =>
        rw [hh] at hs
        obtain ⟨m, g1, g2, g3, g4, g5, g6, g7⟩ :=
          set_route_metric_grow D metric fresh hlen (by omega) hmax hf
        rw [g1] at hs
        simp only [Option.some.injEq] at hs
        subst hs
        by_contra hcon
        have hge := NLMSG_ALIGN_ge (nlmsg_len D)
        exact hne (g7 i (by omega) (by omega) (by omega) (Or.inl (by omega)))

/-! ## The enumerator -/

theorem enumerate_loop_eq (n : Buf) (ifn : Int) (malloc : Nat → Bool) :
    ∀ (k a : Nat) (l : Int) (h : l.toNat ≤ k) (routes : List Buf),
      enumerate_loop n ifn malloc k a l h routes =
        enumerate_attrs n ifn malloc (rta_walk n k a l h) routes := by
  intro k
  induction k with
  | zero =>
    intro a l h routes
    have hne : ¬ RTA_OK n a l = true := by
      rw [RTA_OK_iff]
      omega
    simp [enumerate_loop, rta_walk, hne, enumerate_attrs]
  | succ k ih =>
    intro a l h routes
    by_cases hok : RTA_OK n a l = true
    · rw [rta_walk_ok n k a l h hok (RTA_NEXT_len_toNat n k a l h hok)]
      simp only [enumerate_loop, hok, ↓reduceDIte, enumerate_attrs, ih]
    · rw [rta_walk_stop n _ a l h hok]
      simp [enumerate_loop, hok, enumerate_attrs]

theorem enumerate_callback_eq (n : Buf) (ifn : Int) (malloc : Nat → Bool) (routes : List Buf) :
    enumerate_callback n ifn malloc routes =
      if nlmsg_type n ≠ RTM_NEWROUTE then (-1, routes)
      else if rtm_table n NLMSG_DATA ≠ RT_TABLE_MAIN then (0, routes)
      else ((enumerate_attrs n ifn malloc (attrs n) routes).1.getD 0,
        (enumerate_attrs n ifn malloc (attrs n) routes).2) := by
  unfold enumerate_callback attrs
  simp only [enumerate_loop_eq]
  split
  · rfl
  · split
    · rfl
    · split <;> rename_i heq <;> simp [heq]

/-- The loop appends copies of the record and nothing else. -/
theorem enumerate_attrs_routes (n : Buf) (ifn : Int) (malloc : Nat → Bool) :
    ∀ (as : List Nat) (routes : List Buf),
      ∃ c, (enumerate_attrs n ifn malloc as routes).2 =
        routes ++ List.replicate c (memcpy n (nlmsg_len n)) := by
  intro as
  induction as with
  | nil =>
    intro routes
    exact ⟨0, by simp [enumerate_attrs]⟩
  | cons a as ih =>
    intro routes
    simp only [enumerate_attrs]
    split_ifs
    · exact ⟨0, by simp⟩
    · obtain ⟨c, hc⟩ := ih (routes ++ [memcpy n (nlmsg_len n)])
      exact ⟨c + 1, by rw [hc]; simp [List.replicate_succ]⟩
    · exact ⟨0, by simp⟩
    · exact ih routes
    · exact ih routes
    · exact ih routes

/-- The loop returns from inside with `-1` only. -/
theorem enumerate_attrs_ret (n : Buf) (ifn : Int) (malloc : Nat → Bool) :
    ∀ (as : List Nat) (routes : List Buf),
      (enumerate_attrs n ifn malloc as routes).1 = none ∨
        (enumerate_attrs n ifn malloc as routes).1 = some (-1) := by
  intro as
  induction as with
  | nil =>
    intro routes
    simp [enumerate_attrs]
  | cons a as ih =>
    intro routes
    simp only [enumerate_attrs]
    split_ifs
    · simp
    · exact ih _
    · simp
    · exact ih _
    · exact ih _
    · exact ih _

/-- The route set changes only when an output-interface attribute with a
4-byte payload equal to the index is met. -/
theorem enumerate_attrs_changed (n : Buf) (ifn : Int) (malloc : Nat → Bool) :
    ∀ (as : List Nat) (routes : List Buf),
      (enumerate_attrs n ifn malloc as routes).2 ≠ routes →
      ∃ a ∈ as, rta_type n a = RTA_OIF ∧ RTA_PAYLOAD n a = 4 ∧ rdInt n (RTA_DATA a) = ifn := by
  intro as
  induction as with
  | nil =>
    intro routes h
    simp [enumerate_attrs] at h
  | cons a as ih =>
    intro routes h
    simp only [enumerate_attrs] at h
    split_ifs at h with h1 h2 h3 h4 h5
    · exact absurd rfl h
    · exact ⟨a, List.mem_cons_self _ _, h1, by simpa [sizeof_int] using h2, h3⟩
    · exact absurd rfl h
    · exact ⟨a, List.mem_cons_self _ _, h1, by simpa [sizeof_int] using h2, h3⟩
    · obtain ⟨b, hb, hh⟩ := ih routes h
      exact ⟨b, List.mem_cons_of_mem _ hb, hh⟩
    · obtain ⟨b, hb, hh⟩ := ih routes h
      exact ⟨b, List.mem_cons_of_mem _ hb, hh⟩

/-- The loop keeps the route set within the capacity. -/
theorem enumerate_attrs_length (n : Buf) (ifn : Int) (malloc : Nat → Bool) :
    ∀ (as : List Nat) (routes : List Buf), routes.length ≤ MAX_ROUTES →
      (enumerate_attrs n ifn malloc as routes).2.length ≤ MAX_ROUTES := by
  intro as
  induction as with
  | nil =>
    intro routes h
    simpa [enumerate_attrs] using h
  | cons a as ih =>
    intro routes h
    simp only [enumerate_attrs]
    split_ifs with h1 h2 h3 h4 h5
    · exact h
    · exact ih _ (by simp; omega)
    · exact h
    · exact ih _ h
    · exact ih _ h
    · exact ih _ h

/-- A full route set is left as it is. -/
theorem enumerate_attrs_full (n : Buf) (ifn : Int) (malloc : Nat → Bool) :
    ∀ (as : List Nat) (routes : List Buf), MAX_ROUTES ≤ routes.length →
      (enumerate_attrs n ifn malloc as routes).2 = routes := by
  intro as
  induction as with
  | nil =>
    intro routes h
    simp [enumerate_attrs]
  | cons a as ih =>
    intro routes h
    simp only [enumerate_attrs]
    split_ifs with h1 h2 h3 h4 h5
    · rfl
    · omega
    · rfl
    · exact ih _ h
    · exact ih _ h
    · exact ih _ h

/-- An output-interface attribute with a payload other than 4 bytes makes the
loop return `-1`. -/
theorem enumerate_attrs_corrupt (n : Buf) (ifn : Int) (malloc : Nat → Bool) :
    ∀ (as : List Nat) (routes : List Buf),
      (∃ a ∈ as, rta_type n a = RTA_OIF ∧ RTA_PAYLOAD n a ≠ 4) →
      (enumerate_attrs n ifn malloc as routes).1 = some (-1) := by
  intro as
  induction as with
  | nil =>
    intro routes h
    simp at h
  | cons a as ih =>
    intro routes h
    have hrest : rta_type n a = RTA_OIF → RTA_PAYLOAD n a = 4 →
        ∃ b ∈ as, rta_type n b = RTA_OIF ∧ RTA_PAYLOAD n b ≠ 4 := by
      intro _ h2
      obtain ⟨b, hb, hb1, hb2⟩ := h
      rcases List.mem_cons.1 hb with rfl | hb
      · exact absurd h2 hb2
      · exact ⟨b, hb, hb1, hb2⟩
    have hrest' : ¬ rta_type n a = RTA_OIF →
        ∃ b ∈ as, rta_type n b = RTA_OIF ∧ RTA_PAYLOAD n b ≠ 4 := by
      intro h1
      obtain ⟨b, hb, hb1, hb2⟩ := h
      rcases List.mem_cons.1 hb with rfl | hb
      · exact absurd hb1 h1
      · exact ⟨b, hb, hb1, hb2⟩
    simp only [enumerate_attrs]
    split_ifs with h1 h2 h3 h4 h5
    · rfl
    · exact ih _ (hrest h1 (by simpa [sizeof_int] using h2))
    · rfl
    · exact ih _ (hrest h1 (by simpa [sizeof_int] using h2))
    · exact ih _ (hrest h1 (by simpa [sizeof_int] using h2))
    · exact ih _ (hrest' h1)

/-- With well-formed output-interface attributes and a successful allocator
the loop runs to its end. -/
theorem enumerate_attrs_clean (n : Buf) (ifn : Int) (malloc : Nat → Bool)
    (hm : ∀ k, malloc k = true) :
    ∀ (as : List Nat) (routes : List Buf),
      (∀ a ∈ as, rta_type n a = RTA_OIF → RTA_PAYLOAD n a = 4) →
      (enumerate_attrs n ifn malloc as routes).1 = none := by
  intro as
  induction as with
  | nil =>
    intro routes h
    simp [enumerate_attrs]
  | cons a as ih =>
    intro routes h
    have hrest : ∀ b ∈ as, rta_type n b = RTA_OIF → RTA_PAYLOAD n b = 4 :=
      fun b hb => h b (List.mem_cons_of_mem _ hb)
    simp only [enumerate_attrs]
    split_ifs with h1 h2 h3 h4 h5
    · exact absurd (h a (List.mem_cons_self _ _) h1) (by simpa [sizeof_int] using h2)
    · exact ih _ hrest
    · exact absurd (hm _) h5
    · exact ih _ hrest
    · exact ih _ hrest
    · exact ih _ hrest

/-- Attributes that are not a matching output-interface attribute, their
payloads well formed, leave the route set alone and let the loop finish. -/
theorem enumerate_attrs_skip (n : Buf) (ifn : Int) (malloc : Nat → Bool) :
    ∀ (as : List Nat) (routes : List Buf),
      (∀ a ∈ as, rta_type n a = RTA_OIF → RTA_PAYLOAD n a = 4 ∧ rdInt n (RTA_DATA a) ≠ ifn) →
      enumerate_attrs n ifn malloc as routes = (none, routes) := by
  intro as
  induction as with
  | nil =>
    intro routes h
    simp [enumerate_attrs]
  | cons a as ih =>
    intro routes h
    have hrest := ih routes (fun b hb => h b (List.mem_cons_of_mem _ hb))
    have ha := h a (List.mem_cons_self _ _)
    simp only [enumerate_attrs]
    split_ifs with h1 h2 h3 h4 h5
    · exact absurd (ha h1).1 (by simpa [sizeof_int] using h2)
    · exact absurd h3 (ha h1).2
    · exact absurd h3 (ha h1).2
    · exact absurd h3 (ha h1).2
    · exact hrest
    · exact hrest

/-- A single output-interface attribute, matching, with room in the set and a
successful allocation: one copy is appended and the loop finishes. -/
theorem enumerate_attrs_one (n : Buf) (ifn : Int) (malloc : Nat → Bool) (a : Nat)
    (hpay : RTA_PAYLOAD n a = 4) (hval : rdInt n (RTA_DATA a) = ifn) :
    ∀ (as : List Nat) (routes : List Buf),
      as.filter (fun b => rta_type n b = RTA_OIF) = [a] →
      routes.length < MAX_ROUTES → malloc routes.length = true →
      enumerate_attrs n ifn malloc as routes = (none, routes ++ [memcpy n (nlmsg_len n)]) := by
  intro as
  induction as with
  | nil =>
    intro routes h
    simp at h
  | cons b bs ih =>
    intro routes h hlen hm
    by_cases hb : rta_type n b = RTA_OIF
    · simp only [List.filter_cons, hb, decide_True, ↓reduceIte, List.cons.injEq] at h
      obtain ⟨rfl, hnil⟩ := h
      have hskip := enumerate_attrs_skip n ifn malloc bs (routes ++ [memcpy n (nlmsg_len n)])
        (by
          intro c hc hct
          have : c ∈ bs.filter (fun b => rta_type n b = RTA_OIF) := by
            simp [List.mem_filter, hc, hct]
          rw [hnil] at this
          simp at this)
      simp only [enumerate_attrs, hb, ↓reduceIte, hpay, sizeof_int, hval, hlen, hm]
      simpa using hskip
    · simp only [List.filter_cons, hb, decide_False] at h
      simp only [enumerate_attrs, hb, ↓reduceIte]
      exact ih routes (by simpa using h) hlen hm

/-- When the first output-interface attribute has a payload other than 4
bytes the loop returns `-1` with the route set as it was. -/
theorem enumerate_attrs_first_corrupt (n : Buf) (ifn : Int) (malloc : Nat → Bool) (a : Nat)
    (hpay : RTA_PAYLOAD n a ≠ 4) :
    ∀ (as : List Nat) (routes : List Buf),
      as.find? (fun b => rta_type n b = RTA_OIF) = some a →
      enumerate_attrs n ifn malloc as routes = (some (-1), routes) := by
  intro as
  induction as with
  | nil =>
    intro routes h
    simp at h
  | cons b bs ih =>
    intro routes h
    by_cases hb : rta_type n b = RTA_OIF
    · simp only [List.find?_cons, hb, decide_True, Option.some.injEq] at h
      subst h
      simp [enumerate_attrs, hb, hpay, sizeof_int]
    · simp only [List.find?_cons, hb, decide_False] at h
      simp only [enumerate_attrs, hb, ↓reduceIte]
      exact ih routes h

/-- The handler appends copies of the record, and only of a record that
passes the filter. -/
theorem enumerate_callback_set (n : Buf) (ifn : Int) (malloc : Nat → Bool) (routes : List Buf) :
    ∃ c, (enumerate_callback n ifn malloc routes).2 =
        routes ++ List.replicate c (memcpy n (nlmsg_len n)) ∧
      (c ≠ 0 → Matches ifn n) := by
  rw [enumerate_callback_eq]
  by_cases h1 : nlmsg_type n = RTM_NEWROUTE
  · by_cases h2 : rtm_table n NLMSG_DATA = RT_TABLE_MAIN
    · simp only [h1, h2, ne_eq, not_true_eq_false, ↓reduceIte]
      obtain ⟨c, hc⟩ := enumerate_attrs_routes n ifn malloc (attrs n) routes
      refine ⟨c, hc, ?_⟩
      intro hne
      have hch : (enumerate_attrs n ifn malloc (attrs n) routes).2 ≠ routes := by
        rw [hc]
        cases c with
        | zero => exact absurd rfl hne
        | succ c => simp [List.replicate_succ]
      exact ⟨h1, h2, enumerate_attrs_changed n ifn malloc (attrs n) routes hch⟩
    · exact ⟨0, by simp [h1, h2], fun h => absurd rfl h⟩
  · exact ⟨0, by simp [h1], fun h => absurd rfl h⟩

/-- Every route a dump adds to the set is a copy of a delivered record that
passes the filter. -/
theorem deliver_mem (ifn : Int) (malloc : Nat → Bool) (status : Int) :
    ∀ (records routes : List Buf) (r : Buf),
      r ∈ (deliver (fun n u => enumerate_callback n ifn malloc u) status records routes).2 →
      r ∈ routes ∨ ∃ p ∈ records, Matches ifn p ∧ r = memcpy p (nlmsg_len p) := by
  intro records
  induction records with
  | nil =>
    intro routes r h
    exact Or.inl (by simpa [deliver] using h)
  | cons p ps ih =>
    intro routes r h
    obtain ⟨c, hc, hm⟩ := enumerate_callback_set p ifn malloc routes
    have hstep : ∀ x, x ∈ (enumerate_callback p ifn malloc routes).2 →
        x ∈ routes ∨ ∃ q ∈ p :: ps, Matches ifn q ∧ x = memcpy q (nlmsg_len q) := by
      intro x hx
      rw [hc] at hx
      rcases List.mem_append.1 hx with hx | hx
      · exact Or.inl hx
      · have hx' := List.mem_replicate.1 hx
        exact Or.inr ⟨p, List.mem_cons_self _ _, hm hx'.1, hx'.2⟩
    simp only [deliver] at h
    split_ifs at h with hneg
    · exact hstep r h
    · rcases ih _ r h with h' | ⟨q, hq, hh⟩
      · exact hstep r h'
      · exact Or.inr ⟨q, List.mem_cons_of_mem _ hq, hh⟩

/-- Every request the loop of `go` sends is the delete message of a route of
the set, or the add message of its rewrite. -/
theorem go_loop_mem (w : World) (metric : Int) :
    ∀ (routes : List Buf) (j : Nat) (trace : List Buf) (m : Buf),
      m ∈ go_loop w metric j routes trace →
      m ∈ trace ∨ ∃ r ∈ routes, m = delete_msg r ∨
        ∃ b i, set_route_metric (delete_msg r) metric (w.realloc i) = some b ∧ m = add_msg b := by
  intro routes
  induction routes with
  | nil =>
    intro j trace m h
    exact Or.inl (by simpa [go_loop] using h)
  | cons r rs ih =>
    intro j trace m h
    simp only [go_loop] at h
    rcases ih _ _ m h with h' | ⟨q, hq, hh⟩
    · rw [go_body_eq] at h'
      split_ifs at h' with hge
      · cases hs : set_route_metric (delete_msg r) metric (w.realloc j) with
        | some b =>
          rw [hs] at h'
          simp only [List.mem_append, List.mem_cons, List.mem_singleton, List.not_mem_nil,
            or_false] at h'
          rcases h' with h' | h' | h'
          · exact Or.inl h'
          · exact Or.inr ⟨r, List.mem_cons_self _ _, Or.inl h'⟩
          · exact Or.inr ⟨r, List.mem_cons_self _ _, Or.inr ⟨b, j, hs, h'⟩⟩
        | none =>
          rw [hs] at h'
          simp only [List.mem_append, List.mem_singleton] at h'
          rcases h' with h' | h'
          · exact Or.inl h'
          · exact Or.inr ⟨r, List.mem_cons_self _ _, Or.inl h'⟩
      · simp only [List.mem_append, List.mem_singleton] at h'
        rcases h' with h' | h'
        · exact Or.inl h'
        · exact Or.inr ⟨r, List.mem_cons_self _ _, Or.inl h'⟩
    · exact Or.inr ⟨q, List.mem_cons_of_mem _ hq, hh⟩

/-- C6. Filter correctness: `enumerate_callback` changes the route set only
for a new-route record of the main table that has an output-interface attribute
with a 4-byte payload equal to the index, and then only by appending copies of
that record; a record of another table, or without an output-interface
attribute equal to the index, leaves the set unchanged; hence every request `go`
sends after the dump request is the delete message of a copy of a delivered
record that passes this filter, or the add message of its rewrite. -/
theorem enumerate_callback_filter (n : Buf) (ifn : Int) (malloc : Nat → Bool)
    (routes : List Buf) (w : World) (iface : String) (family : Nat) (metric : Int) :
    ((enumerate_callback n ifn malloc routes).2 ≠ routes → Matches ifn n) ∧
    (∃ c, (enumerate_callback n ifn malloc routes).2 =
      routes ++ List.replicate c (memcpy n (nlmsg_len n))) ∧
    (rtm_table n NLMSG_DATA ≠ RT_TABLE_MAIN →
      (enumerate_callback n ifn malloc routes).2 = routes) ∧
    ((∀ a ∈ attrs n, rta_type n a = RTA_OIF → rdInt n (RTA_DATA a) ≠ ifn) →
      (enumerate_callback n ifn malloc routes).2 = routes) ∧
    ∀ m ∈ (go w iface family metric).2, m = enumerate_req family ∨
      ∃ p ∈ (w.respond [] (enumerate_req family)).1,
        Matches (w.getifn w.netlink_open iface) p ∧
        (m = delete_msg (memcpy p (nlmsg_len p)) ∨
          ∃ b i, set_route_metric (delete_msg (memcpy p (nlmsg_len p))) metric (w.realloc i)
            = some b ∧ m = add_msg b) := by
  obtain ⟨c, hc, hm⟩ := enumerate_callback_set n ifn malloc routes
  have hchg : (enumerate_callback n ifn malloc routes).2 ≠ routes → Matches ifn n := by
    intro hne
    apply hm
    intro h0
    subst h0
    exact hne (by simpa using hc)
  refine ⟨hchg, ⟨c, hc⟩, ?_, ?_, ?_⟩
  · intro ht
    by_contra hne
    exact ht (hchg hne).2.1
  · intro hno
    by_contra hne
    obtain ⟨a, ha, hty, _, hval⟩ := (hchg hne).2.2
    exact hno a ha hty hval
  · intro m hmem
    simp only [go, enumerate, netlink_request] at hmem
    split_ifs at hmem with h1 h2 h3
    · simp at hmem
    · simp at hmem
    · simp only [List.nil_append, List.mem_singleton] at hmem
      exact Or.inl hmem
    · rcases go_loop_mem w metric _ _ _ m hmem with h' | ⟨r, hr, hh⟩
      · simp only [List.nil_append, List.mem_singleton] at h'
        exact Or.inl h'
      · right
        rcases deliver_mem _ _ _ _ _ r hr with h' | ⟨p, hp, hpm, hpe⟩
        · simp at h'
        · subst hpe
          exact ⟨p, hp, hpm, hh⟩

theorem memcpy_length (n : Buf) (len : Nat) : (memcpy n len).length = len := by
  simp [memcpy]

theorem memcpy_get (n : Buf) (len i : Nat) (h : i < len) :
    (memcpy n len)[i]? = some (n.getD i 0) := by
  simp [memcpy, List.getElem?_map, List.getElem?_range h]

theorem memcpy_eq_take (n : Buf) (len : Nat) (h : len ≤ n.length) : memcpy n len = n.take len := by
  apply List.ext_getElem?
  intro i
  by_cases hi : i < len
  · rw [memcpy_get n len i hi, List.getElem?_take_of_lt hi]
    have : i < n.length := by omega
    simp [List.getElem?_eq_getElem this]
  · rw [List.getElem?_eq_none (by rw [memcpy_length]; omega),
      List.getElem?_eq_none (by rw [List.length_take]; omega)]

theorem mem_oif_attrs (n : Buf) (a : Nat) :
    a ∈ oif_attrs n ↔ a ∈ attrs n ∧ rta_type n a = RTA_OIF := by
  simp [oif_attrs, List.mem_filter]

/-- C7, amended. For every new-route record of the main table that carries
exactly one output-interface attribute, its 4-byte payload equal to the index,
handled while the route set holds fewer than 64 entries and the allocation
succeeds, `enumerate_callback` returns 0 and the route set afterwards is the
previous one with one entry appended, a copy of the record of the declared
length, byte for byte. -/
theorem enumerate_callback_append (n : Buf) (ifn : Int) (malloc : Nat → Bool)
    (routes : List Buf) (a : Nat)
    (hty : nlmsg_type n = RTM_NEWROUTE) (htab : rtm_table n NLMSG_DATA = RT_TABLE_MAIN)
    (hone : oif_attrs n = [a]) (hpay : RTA_PAYLOAD n a = 4)
    (hval : rdInt n (RTA_DATA a) = ifn)
    (hroom : routes.length < MAX_ROUTES) (hm : malloc routes.length = true) :
    enumerate_callback n ifn malloc routes = (0, routes ++ [memcpy n (nlmsg_len n)]) ∧
    (memcpy n (nlmsg_len n)).length = nlmsg_len n ∧
    (∀ i, i < nlmsg_len n → (memcpy n (nlmsg_len n))[i]? = some (n.getD i 0)) ∧
    (nlmsg_len n ≤ n.length → memcpy n (nlmsg_len n) = n.take (nlmsg_len n)) := by
  refine ⟨?_, memcpy_length _ _, fun i hi => memcpy_get n _ i hi, memcpy_eq_take n _⟩
  rw [enumerate_callback_eq]
  have := enumerate_attrs_one n ifn malloc a hpay hval (attrs n) routes hone hroom hm
  simp [hty, htab, this]

/-- What the handler does with a record that has at most one
output-interface attribute, well formed, when allocation succeeds and the set
is within its capacity. -/
theorem enumerate_callback_clean (n : Buf) (ifn : Int) (malloc : Nat → Bool)
    (routes : List Buf) (hm : ∀ k, malloc k = true)
    (hty : nlmsg_type n = RTM_NEWROUTE) (hone : (oif_attrs n).length ≤ 1)
    (hpay : ∀ a ∈ attrs n, rta_type n a = RTA_OIF → RTA_PAYLOAD n a = 4)
    (hlen : routes.length ≤ MAX_ROUTES) :
    enumerate_callback n ifn malloc routes =
      (0, (routes ++ if Matches ifn n then [memcpy n (nlmsg_len n)] else []).take MAX_ROUTES) := by
  rw [enumerate_callback_eq]
  by_cases htab : rtm_table n NLMSG_DATA = RT_TABLE_MAIN
  · cases ho : oif_attrs n with
    | nil =>
      have hno : ∀ a ∈ attrs n, rta_type n a = RTA_OIF →
          RTA_PAYLOAD n a = 4 ∧ rdInt n (RTA_DATA a) ≠ ifn := by
        intro a ha hoif
        have : a ∈ oif_attrs n := (mem_oif_attrs n a).2 ⟨ha, hoif⟩
        rw [ho] at this
        simp at this
      have hnm : ¬ Matches ifn n := by
        rintro ⟨_, _, a, ha, hoif, _, hv⟩
        exact (hno a ha hoif).2 hv
      rw [enumerate_attrs_skip n ifn malloc (attrs n) routes hno]
      simp [hty, htab, hnm, List.take_of_length_le hlen]
    | cons a rest =>
      have hrest : rest = [] := by
        rw [ho] at hone
        cases rest with
        | nil => rfl
        | cons b bs => simp at hone
      subst hrest
      have ha : a ∈ attrs n ∧ rta_type n a = RTA_OIF :=
        (mem_oif_attrs n a).1 (by rw [ho]; simp)
      have hpa := hpay a ha.1 ha.2
      by_cases hv : rdInt n (RTA_DATA a) = ifn
      · have hmt : Matches ifn n := ⟨hty, htab, a, ha.1, ha.2, hpa, hv⟩
        by_cases hroom : routes.length < MAX_ROUTES
        · rw [enumerate_attrs_one n ifn malloc a hpa hv (attrs n) routes ho hroom (hm _)]
          have : (routes ++ [memcpy n (nlmsg_len n)]).length ≤ MAX_ROUTES := by
            simp
            omega
          simp [hty, htab, hmt, List.take_of_length_le this]
        · have hfull : MAX_ROUTES ≤ routes.length := by omega
          have h1 := enumerate_attrs_full n ifn malloc (attrs n) routes hfull
          have h2 := enumerate_attrs_clean n ifn malloc hm (attrs n) routes hpay
          have heq : routes.length = MAX_ROUTES := by omega
          simp [hty, htab, hmt, h1, h2, ← heq]
      · have hno : ∀ b ∈ attrs n, rta_type n b = RTA_OIF →
            RTA_PAYLOAD n b = 4 ∧ rdInt n (RTA_DATA b) ≠ ifn := by
          intro b hb hoif
          have : b ∈ oif_attrs n := (mem_oif_attrs n b).2 ⟨hb, hoif⟩
          rw [ho] at this
          have hba : b = a := by simpa using this
          subst hba
          exact ⟨hpa, hv⟩
        have hnm : ¬ Matches ifn n := by
          rintro ⟨_, _, b, hb, hoif, _, hv'⟩
          exact (hno b hb hoif).2 hv'
        rw [enumerate_attrs_skip n ifn malloc (attrs n) routes hno]
        simp [hty, htab, hnm, List.take_of_length_le hlen]
  · have hnm : ¬ Matches ifn n := fun h => htab h.2.1
    simp [hty, htab, hnm, List.take_of_length_le hlen]

theorem take_take_append (l r : List Buf) (k : Nat) :
    ((l.take k) ++ r).take k = (l ++ r).take k := by
  by_cases h : l.length ≤ k
  · rw [List.take_of_length_le h]
  · have hk : k ≤ l.length := by omega
    rw [List.take_append_of_le_length hk, List.take_append_of_le_length (by simp [hk])]
    simp

/-- A dump of records that each have at most one output-interface attribute,
well formed, leaves the first 64 copies of those that pass the filter. -/
theorem deliver_clean (ifn : Int) (malloc : Nat → Bool) (status : Int)
    (hm : ∀ k, malloc k = true) :
    ∀ (records routes : List Buf), routes.length ≤ MAX_ROUTES →
      (∀ r ∈ records, nlmsg_type r = RTM_NEWROUTE ∧ (oif_attrs r).length ≤ 1 ∧
        ∀ a ∈ attrs r, rta_type r a = RTA_OIF → RTA_PAYLOAD r a = 4) →
      deliver (fun n u => enumerate_callback n ifn malloc u) status records routes =
        (status, (routes ++ (records.filter (fun r => Matches ifn r)).map
          (fun r => memcpy r (nlmsg_len r))).take MAX_ROUTES) := by
  intro records
  induction records with
  | nil =>
    intro routes hlen _
    simp [deliver, List.take_of_length_le hlen]
  | cons p ps ih =>
    intro routes hlen hclean
    obtain ⟨h1, h2, h3⟩ := hclean p (List.mem_cons_self _ _)
    have hcb := enumerate_callback_clean p ifn malloc routes hm h1 h2 h3 hlen
    simp only [deliver, hcb]
    rw [if_neg (by decide)]
    rw [ih _ (by rw [List.length_take]; omega) (fun r hr => hclean r (List.mem_cons_of_mem _ hr))]
    rw [take_take_append]
    by_cases hmt : Matches ifn p
    · simp [hmt, List.filter_cons]
    · simp [hmt, List.filter_cons]

theorem deliver_length (ifn : Int) (malloc : Nat → Bool) (status : Int) :
    ∀ (records routes : List Buf), routes.length ≤ MAX_ROUTES →
      (deliver (fun n u => enumerate_callback n ifn malloc u) status records routes).2.length
        ≤ MAX_ROUTES := by
  intro records
  induction records with
  | nil =>
    intro routes hlen
    simpa [deliver] using hlen
  | cons p ps ih =>
    intro routes hlen
    have hstep : (enumerate_callback p ifn malloc routes).2.length ≤ MAX_ROUTES := by
      rw [enumerate_callback_eq]
      split_ifs
      · exact hlen
      · exact hlen
      · exact enumerate_attrs_length p ifn malloc (attrs p) routes hlen
    simp only [deliver]
    split_ifs
    · exact hstep
    · exact ih _ hstep

/-- C8, amended. Capacity: starting within the capacity, the route set never
holds more than 64 entries after any sequence of `enumerate_callback` calls; a
record that arrives while the set holds 64 entries leaves it unchanged, and the
handler returns 0 for it when it is a new-route record whose output-interface
attributes all have 4-byte payloads; after a dump of new-route records that each
carry at most one output-interface attribute, with a 4-byte payload, all
allocations succeeding, the set holds exactly the copies of the first 64 records
that pass the filter, in the order delivered. -/
theorem route_set_capacity (ifn : Int) (malloc : Nat → Bool) (status : Int)
    (records routes : List Buf) (n : Buf) :
    (routes.length ≤ MAX_ROUTES →
      (deliver (fun n u => enumerate_callback n ifn malloc u) status records routes).2.length
        ≤ MAX_ROUTES) ∧
    (routes.length = MAX_ROUTES →
      (enumerate_callback n ifn malloc routes).2 = routes ∧
      (nlmsg_type n = RTM_NEWROUTE →
        (∀ a ∈ attrs n, rta_type n a = RTA_OIF → RTA_PAYLOAD n a = 4) →
        (enumerate_callback n ifn malloc routes).1 = 0)) ∧
    ((∀ k, malloc k = true) →
      (∀ r ∈ records, nlmsg_type r = RTM_NEWROUTE ∧ (oif_attrs r).length ≤ 1 ∧
        ∀ a ∈ attrs r, rta_type r a = RTA_OIF → RTA_PAYLOAD r a = 4) →
      deliver (fun n u => enumerate_callback n ifn malloc u) status records [] =
        (status, ((records.filter (fun r => Matches ifn r)).map
          (fun r => memcpy r (nlmsg_len r))).take MAX_ROUTES)) := by
  refine ⟨deliver_length ifn malloc status records routes, ?_, ?_⟩
  · intro hfull
    have hset : (enumerate_callback n ifn malloc routes).2 = routes := by
      rw [enumerate_callback_eq]
      split_ifs
      · rfl
      · rfl
      · exact enumerate_attrs_full n ifn malloc (attrs n) routes (by omega)
    refine ⟨hset, ?_⟩
    intro hty hpay
    rw [enumerate_callback_eq]
    by_cases htab : rtm_table n NLMSG_DATA = RT_TABLE_MAIN
    · have hret := enumerate_attrs_ret n ifn malloc (attrs n) routes
      have hnc : (enumerate_attrs n ifn malloc (attrs n) routes).1 ≠ some (-1) := by
        clear hret
        have hgen : ∀ (as : List Nat),
            (∀ a ∈ as, rta_type n a = RTA_OIF → RTA_PAYLOAD n a = 4) →
            (enumerate_attrs n ifn malloc as routes).1 = none := by
          intro as
          induction as with
          | nil =>
            intro _
            simp [enumerate_attrs]
          | cons a as ih =>
            intro h
            have hrest := ih (fun b hb => h b (List.mem_cons_of_mem _ hb))
            simp only [enumerate_attrs]
            split_ifs with h1 h2 h3 h4 h5
            · exact absurd (h a (List.mem_cons_self _ _) h1) (by simpa [sizeof_int] using h2)
            · omega
            · omega
            · exact hrest
            · exact hrest
            · exact hrest
        rw [hgen (attrs n) hpay]
        simp
      rcases hret with h | h
      · simp [hty, htab, h]
      · exact absurd h hnc
    · simp [hty, htab]
  · intro hm hclean
    have := deliver_clean ifn malloc status hm records [] (by simp) hclean
    simpa using this

/-- C9, amended. For every main-table new-route record whose attribute stream
contains an output-interface attribute with a payload length other than 4
bytes, `enumerate_callback` returns a negative result; when that attribute is
the first output-interface attribute of the record the route set is left as it
was. -/
theorem enumerate_callback_corrupt (n : Buf) (ifn : Int) (malloc : Nat → Bool)
    (routes : List Buf) (a : Nat)
    (hty : nlmsg_type n = RTM_NEWROUTE) (htab : rtm_table n NLMSG_DATA = RT_TABLE_MAIN)
    (ha : a ∈ attrs n) (hoif : rta_type n a = RTA_OIF) (hpay : RTA_PAYLOAD n a ≠ 4) :
    (enumerate_callback n ifn malloc routes).1 = -1 ∧
    (first_attr n RTA_OIF = some a → (enumerate_callback n ifn malloc routes).2 = routes) := by
  rw [enumerate_callback_eq]
  constructor
  · have := enumerate_attrs_corrupt n ifn malloc (attrs n) routes ⟨a, ha, hoif, hpay⟩
    simp [hty, htab, this]
  · intro hfirst
    unfold first_attr at hfirst
    have := enumerate_attrs_first_corrupt n ifn malloc a hpay (attrs n) routes hfirst
    simp [hty, htab, this]

theorem attrs_of_zero_len (n : Buf) (h : nlmsg_len n = 0) : attrs n = [] := by
  unfold attrs
  apply rta_walk_stop
  rw [RTA_OK_iff]
  simp only [NLMSG_PAYLOAD, NLMSG_SPACE_rtmsg, toInt32, h]
  omega

/-- C10, amended. A new-route record whose declared length is zero is not
reported: `enumerate_callback` returns 0 and leaves the route set unchanged.
A truncated attribute stream (the walk stops with room for an attribute header
left, at an attribute whose declared length is undersized or oversized) is not
reported either: the walk ends there and `enumerate_callback` returns 0,
provided the output-interface attributes before it have 4-byte payloads and
allocation succeeds. -/
theorem enumerate_callback_truncated (n : Buf) (ifn : Int) (malloc : Nat → Bool)
    (routes : List Buf) (hty : nlmsg_type n = RTM_NEWROUTE) :
    (nlmsg_len n = 0 → enumerate_callback n ifn malloc routes = (0, routes)) ∧
    ((sizeof_rtattr : Int) ≤ attrs_rest n →
      (∀ a ∈ attrs n, rta_type n a = RTA_OIF → RTA_PAYLOAD n a = 4) →
      (∀ k, malloc k = true) →
      (enumerate_callback n ifn malloc routes).1 = 0) := by
  constructor
  · intro hz
    rw [enumerate_callback_eq, attrs_of_zero_len n hz]
    simp [hty, enumerate_attrs]
  · intro _ hpay hm
    rw [enumerate_callback_eq]
    have := enumerate_attrs_clean n ifn malloc hm (attrs n) routes hpay
    by_cases htab : rtm_table n NLMSG_DATA = RT_TABLE_MAIN
    · simp [hty, htab, this]
    · simp [hty, htab]

/-! ## Instances and counterexamples -/

set_option maxRecDepth 100000

/-- Witness of C1: `route_prio` rewritten to metric 42. -/
theorem set_route_metric_overwrite_witness :
    (nlmsg_len route_prio ≤ route_prio.length ∧
      first_attr route_prio RTA_PRIORITY = some 36 ∧ RTA_PAYLOAD route_prio 36 = 4) ∧
    ∃ n', set_route_metric route_prio 42 none = some n' ∧
      n'.length = route_prio.length ∧ nlmsg_len n' = nlmsg_len route_prio ∧
      rd32 n' (RTA_DATA 36) = ofInt32 42 ∧
      (-2147483648 ≤ (42 : Int) → (42 : Int) < 2147483648 → rdInt n' (RTA_DATA 36) = 42) ∧
      ∀ i, i < RTA_DATA 36 ∨ RTA_DATA 36 + 4 ≤ i → n'[i]? = route_prio[i]? :=
  ⟨by decide,
    set_route_metric_overwrite route_prio 42 none 36 (by decide) (by decide) (by decide)⟩

/-- Witness of C2: `route_plain` gets a priority TLV of value 7 at offset 36. -/
theorem set_route_metric_append_witness :
    (nlmsg_len route_plain ≤ route_plain.length ∧
      NLMSG_LENGTH sizeof_rtmsg ≤ nlmsg_len route_plain ∧
      nlmsg_len route_plain + 1024 < 2147483648 ∧ nlmsg_len route_plain % 4 = 0 ∧
      first_attr route_plain RTA_PRIORITY = none) ∧
    ∃ n', set_route_metric route_plain 7 (some (fun _ => 0)) = some n' ∧
      n'.length = nlmsg_len route_plain + 1024 ∧
      nlmsg_len n' = nlmsg_len route_plain + 8 ∧
      (∀ j, 4 ≤ j → j < nlmsg_len route_plain → n'[j]? = route_plain[j]?) ∧
      rta_len n' (nlmsg_len route_plain) = RTA_LENGTH 4 ∧
      rta_type n' (nlmsg_len route_plain) = RTA_PRIORITY ∧
      rd32 n' (RTA_DATA (nlmsg_len route_plain)) = ofInt32 7 ∧
      (-2147483648 ≤ (7 : Int) → (7 : Int) < 2147483648 →
        rdInt n' (RTA_DATA (nlmsg_len route_plain)) = 7) :=
  ⟨by decide,
    set_route_metric_append route_plain 7 (fun _ => 0) (by decide) (by decide) (by decide)
      (by decide) (by decide)⟩

/-- Counterexample to C3: `route_truncated` has one attribute that declares 12
bytes where 8 are left, so the walk finds no priority attribute and a TLV is
appended at offset 36; the walk over the result now steps over the 12-byte
attribute into the payload of the new TLV and finds no priority attribute. -/
theorem set_route_metric_readback_counterexample :
    nlmsg_len route_truncated = route_truncated.length ∧
    (set_route_metric route_truncated 7 (some (fun _ => 0))).map
      (fun n' => (nlmsg_len n', attrs n', first_attr n' RTA_PRIORITY)) =
        some (44, [28], none) := by
  decide

/-- Witness of C3, amended: the append branch on `route_plain`. -/
theorem set_route_metric_readback_witness :
    (nlmsg_len route_plain ≤ route_plain.length ∧
      nlmsg_len route_plain + 1024 < 2147483648 ∧
      (first_attr route_plain RTA_PRIORITY ≠ none ∨ attrs_rest route_plain = 0) ∧
      set_route_metric route_plain 7 (some (fun _ => 0)) =
        some ((set_route_metric route_plain 7 (some (fun _ => 0))).getD [])) ∧
    ∃ p, first_attr ((set_route_metric route_plain 7 (some (fun _ => 0))).getD [])
        RTA_PRIORITY = some p ∧
      RTA_PAYLOAD ((set_route_metric route_plain 7 (some (fun _ => 0))).getD []) p = 4 ∧
      rdInt ((set_route_metric route_plain 7 (some (fun _ => 0))).getD []) (RTA_DATA p) = 7 :=
  ⟨by decide,
    set_route_metric_readback route_plain 7 (some (fun _ => 0)) _ (by decide) (by decide)
      (by decide) (by decide) (by decide) (by decide)⟩

/-- Counterexample to C4: `route_plain` fills its 36-byte buffer; after the
append the header declares 44 bytes and the buffer has 1060. -/
theorem set_route_metric_length_counterexample :
    nlmsg_len route_plain = route_plain.length ∧
    (set_route_metric route_plain 7 (some (fun _ => 0))).map
      (fun n' => (nlmsg_len n', n'.length)) = some (44, 1060) := by
  decide

/-- Witness of C4, amended: the append branch on `route_plain`. -/
theorem set_route_metric_length_witness :
    (nlmsg_len route_plain = route_plain.length ∧
      NLMSG_LENGTH sizeof_rtmsg ≤ nlmsg_len route_plain ∧
      nlmsg_len route_plain + 1024 < 2147483648 ∧
      first_attr route_plain RTA_PRIORITY = none ∧
      set_route_metric route_plain 7 (some (fun _ => 0)) =
        some ((set_route_metric route_plain 7 (some (fun _ => 0))).getD [])) ∧
    ((set_route_metric route_plain 7 (some (fun _ => 0))).getD []).length =
      route_plain.length + 1024 ∧
    nlmsg_len ((set_route_metric route_plain 7 (some (fun _ => 0))).getD []) =
      NLMSG_ALIGN (nlmsg_len route_plain) + RTA_LENGTH 4 ∧
    nlmsg_len ((set_route_metric route_plain 7 (some (fun _ => 0))).getD []) <
      ((set_route_metric route_plain 7 (some (fun _ => 0))).getD []).length :=
  ⟨by decide,
    (set_route_metric_length route_plain 7 (some (fun _ => 0)) _ (by decide) (by decide)
      (by decide) (by decide)).2 (by decide)⟩

/-- Counterexample to C5: `go` on a kernel that reports the one route
`route_prio` sends the dump request, a delete and an add; the delete and the
add differ at offset 4, the record kind (25 and 24), and at offset 7, the high
byte of the flags, both outside the payload of the priority attribute at
offsets 40 to 43. -/
theorem go_preservation_counterexample :
    ∃ D A, (go sample_world "eth0" AF_INET 42).2 = [enumerate_req AF_INET, D, A] ∧
      first_attr D RTA_PRIORITY = some 36 ∧ RTA_DATA 36 = 40 ∧
      D[4]? = some 25 ∧ A[4]? = some 24 ∧ D[7]? = some 0 ∧ A[7]? = some 4 :=
  ⟨delete_msg route_prio, add_msg (wrInt (delete_msg route_prio) 40 42),
    by decide, by decide, by decide, by decide, by decide, by decide, by decide⟩

/-- Witness of C5, amended: the route `route_prio` under `sample_world`. -/
theorem go_body_preservation_witness :
    (nlmsg_len (delete_msg route_prio) ≤ (delete_msg route_prio).length ∧
      NLMSG_LENGTH sizeof_rtmsg ≤ nlmsg_len (delete_msg route_prio) ∧
      nlmsg_len (delete_msg route_prio) + 1024 < 2147483648 ∧
      go_body sample_world 42 0 route_prio [] =
        [] ++ [delete_msg route_prio, add_msg (wrInt (delete_msg route_prio) 40 42)]) ∧
    ∀ i, (add_msg (wrInt (delete_msg route_prio) 40 42))[i]? ≠ (delete_msg route_prio)[i]? →
      (4 ≤ i ∧ i < 8) ∨
      (∃ p, first_attr (delete_msg route_prio) RTA_PRIORITY = some p ∧
        RTA_DATA p ≤ i ∧ i < RTA_DATA p + 4) ∨
      (first_attr (delete_msg route_prio) RTA_PRIORITY = none ∧
        (i < 4 ∨ nlmsg_len (delete_msg route_prio) ≤ i)) :=
  ⟨by decide,
    (go_body_preservation sample_world 42 0 route_prio [] (delete_msg route_prio)
      (add_msg (wrInt (delete_msg route_prio) 40 42)) (by decide) (by decide) (by decide)
      (by decide)).2⟩

/-- Witness of C6: `route_plain`, whose output interface is 3, asked for index
4, and `sample_world`, whose one delivered record passes the filter. -/
theorem enumerate_callback_filter_witness :
    (∀ a ∈ attrs route_plain, rta_type route_plain a = RTA_OIF →
      rdInt route_plain (RTA_DATA a) ≠ 4) ∧
    (enumerate_callback route_plain 4 (fun _ => true) []).2 = [] ∧
    ∀ m ∈ (go sample_world "eth0" AF_INET 42).2, m = enumerate_req AF_INET ∨
      ∃ p ∈ (sample_world.respond [] (enumerate_req AF_INET)).1,
        Matches (sample_world.getifn sample_world.netlink_open "eth0") p ∧
        (m = delete_msg (memcpy p (nlmsg_len p)) ∨
          ∃ b i, set_route_metric (delete_msg (memcpy p (nlmsg_len p))) 42
            (sample_world.realloc i) = some b ∧ m = add_msg b) :=
  ⟨by decide,
    (enumerate_callback_filter route_plain 4 (fun _ => true) [] sample_world "eth0" AF_INET
      42).2.2.2.1 (by decide),
    (enumerate_callback_filter route_plain 4 (fun _ => true) [] sample_world "eth0" AF_INET
      42).2.2.2.2⟩

/-- Counterexample to C7: `route_two_oif` is a new-route record of the main
table whose output-interface attributes equal the index 3; handled with an
empty route set it is appended twice. -/
theorem enumerate_callback_append_counterexample :
    Matches 3 route_two_oif ∧ oif_attrs route_two_oif = [28, 36] ∧
    enumerate_callback route_two_oif 3 (fun _ => true) [] =
      (0, [memcpy route_two_oif 44, memcpy route_two_oif 44]) ∧
    enumerate_callback route_two_oif 3 (fun _ => true) [] ≠
      (0, [] ++ [memcpy route_two_oif (nlmsg_len route_two_oif)]) := by
  decide

/-- Witness of C7, amended: `route_plain` for index 3 and an empty set. -/
theorem enumerate_callback_append_witness :
    (nlmsg_type route_plain = RTM_NEWROUTE ∧ rtm_table route_plain NLMSG_DATA = RT_TABLE_MAIN ∧
      oif_attrs route_plain = [28] ∧ RTA_PAYLOAD route_plain 28 = 4 ∧
      rdInt route_plain (RTA_DATA 28) = 3 ∧ ([] : List Buf).length < MAX_ROUTES) ∧
    enumerate_callback route_plain 3 (fun _ => true) [] =
      (0, [] ++ [memcpy route_plain (nlmsg_len route_plain)]) :=
  ⟨by decide,
    (enumerate_callback_append route_plain 3 (fun _ => true) [] 28 (by decide) (by decide)
      (by decide) (by decide) (by decide) (by decide) rfl).1⟩

/-- Counterexample to C8: a dump of 65 records that all pass the filter for
index 3, the first with two output-interface attributes: the set ends with the
first record twice and 62 of the others, not with the first 64 records. -/
theorem route_set_capacity_counterexample :
    (∀ r ∈ route_two_oif :: List.replicate 64 route_plain, Matches 3 r) ∧
    (deliver (fun n u => enumerate_callback n 3 (fun _ => true) u) 0
      (route_two_oif :: List.replicate 64 route_plain) []).2 =
        route_two_oif :: route_two_oif :: List.replicate 62 route_plain ∧
    ((route_two_oif :: List.replicate 64 route_plain).take 64).map
      (fun r => memcpy r (nlmsg_len r)) = route_two_oif :: List.replicate 63 route_plain ∧
    (deliver (fun n u => enumerate_callback n 3 (fun _ => true) u) 0
      (route_two_oif :: List.replicate 64 route_plain) []).2 ≠
        ((route_two_oif :: List.replicate 64 route_plain).take 64).map
          (fun r => memcpy r (nlmsg_len r)) := by
  decide

/-- Witness of C8, amended: a dump of 65 copies of `route_plain`, and
`route_plain` arriving at a full set. -/
theorem route_set_capacity_witness :
    (deliver (fun n u => enumerate_callback n 3 (fun _ => true) u) 0
      (List.replicate 65 route_plain) [] =
        (0, (((List.replicate 65 route_plain).filter (fun r => Matches 3 r)).map
          (fun r => memcpy r (nlmsg_len r))).take MAX_ROUTES)) ∧
    ((List.replicate 64 route_plain).length = MAX_ROUTES ∧
      (enumerate_callback route_plain 3 (fun _ => true) (List.replicate 64 route_plain)).2 =
        List.replicate 64 route_plain ∧
      (enumerate_callback route_plain 3 (fun _ => true) (List.replicate 64 route_plain)).1 = 0) :=
  ⟨(route_set_capacity 3 (fun _ => true) 0 (List.replicate 65 route_plain) [] route_plain).2.2
      (fun _ => rfl) (by decide),
    by decide,
    ((route_set_capacity 3 (fun _ => true) 0 [] (List.replicate 64 route_plain)
      route_plain).2.1 (by decide)).1,
    ((route_set_capacity 3 (fun _ => true) 0 [] (List.replicate 64 route_plain)
      route_plain).2.1 (by decide)).2 (by decide) (by decide)⟩

/-- Counterexample to C9: in `route_oif_corrupt` the attribute at offset 36 is
an output-interface attribute without payload; the handler returns `-1`, but the
matching attribute at offset 28 had already put a copy into the route set. -/
theorem enumerate_callback_corrupt_counterexample :
    nlmsg_type route_oif_corrupt = RTM_NEWROUTE ∧
    rtm_table route_oif_corrupt NLMSG_DATA = RT_TABLE_MAIN ∧
    36 ∈ attrs route_oif_corrupt ∧ rta_type route_oif_corrupt 36 = RTA_OIF ∧
    RTA_PAYLOAD route_oif_corrupt 36 = 0 ∧
    enumerate_callback route_oif_corrupt 3 (fun _ => true) [] =
      (-1, [memcpy route_oif_corrupt 40]) := by
  decide

/-- Witness of C9, amended: `route_corrupt_oif`, whose first and only
output-interface attribute declares a 2-byte payload. -/
theorem enumerate_callback_corrupt_witness :
    (nlmsg_type route_corrupt_oif = RTM_NEWROUTE ∧
      rtm_table route_corrupt_oif NLMSG_DATA = RT_TABLE_MAIN ∧
      28 ∈ attrs route_corrupt_oif ∧ rta_type route_corrupt_oif 28 = RTA_OIF ∧
      RTA_PAYLOAD route_corrupt_oif 28 ≠ 4 ∧ first_attr route_corrupt_oif RTA_OIF = some 28) ∧
    (enumerate_callback route_corrupt_oif 3 (fun _ => true) []).1 = -1 ∧
    (enumerate_callback route_corrupt_oif 3 (fun _ => true) []).2 = [] :=
  ⟨by decide,
    (enumerate_callback_corrupt route_corrupt_oif 3 (fun _ => true) [] 28 (by decide)
      (by decide) (by decide) (by decide) (by decide)).1,
    (enumerate_callback_corrupt route_corrupt_oif 3 (fun _ => true) [] 28 (by decide)
      (by decide) (by decide) (by decide) (by decide)).2 (by decide)⟩

/-- Counterexample to C10: a new-route record that declares length zero, and
`route_truncated`, whose attribute declares 12 bytes where 8 are left, are both
answered with 0, not with a negative result. -/
theorem enumerate_callback_truncated_counterexample :
    (nlmsg_len record_zero_len = 0 ∧
      enumerate_callback record_zero_len 3 (fun _ => true) [] = (0, [])) ∧
    (NLMSG_PAYLOAD route_truncated sizeof_rtmsg = 8 ∧ rta_len route_truncated 28 = 12 ∧
      enumerate_callback route_truncated 3 (fun _ => true) [] = (0, [])) := by
  decide

/-- Witness of C10, amended: `record_zero_len` and `route_truncated`. -/
theorem enumerate_callback_truncated_witness :
    (nlmsg_type record_zero_len = RTM_NEWROUTE ∧ nlmsg_len record_zero_len = 0 ∧
      nlmsg_type route_truncated = RTM_NEWROUTE ∧
      (sizeof_rtattr : Int) ≤ attrs_rest route_truncated) ∧
    enumerate_callback record_zero_len 3 (fun _ => true) [] = (0, []) ∧
    (enumerate_callback route_truncated 3 (fun _ => true) []).1 = 0 :=
  ⟨by decide,
    (enumerate_callback_truncated record_zero_len 3 (fun _ => true) [] (by decide)).1
      (by decide),
    (enumerate_callback_truncated route_truncated 3 (fun _ => true) [] (by decide)).2
      (by decide) (by decide) (fun _ => rfl)⟩

/-! ## Wrong record kind -/

/-- C11. For every response record whose kind is not new-route, whatever its
table id and attributes, `enumerate_callback` returns `-1` and leaves the route
set unchanged. -/
theorem enumerate_callback_wrong_kind (n : Buf) (ifn : Int) (malloc : Nat → Bool)
    (routes : List Buf) (hkind : nlmsg_type n ≠ RTM_NEWROUTE) :
    enumerate_callback n ifn malloc routes = (-1, routes) ∧
    (enumerate_callback n ifn malloc routes).1 < 0 := by
  have h : enumerate_callback n ifn malloc routes = (-1, routes) := by
    unfold enumerate_callback
    rw [if_pos hkind]
  rw [h]
  exact ⟨rfl, by norm_num⟩

/-- Witness of C11: a delete-route record of the main table with a matching
output-interface attribute, arriving at a non-empty route set. -/
theorem enumerate_callback_wrong_kind_witness :
    nlmsg_type record_wrong_kind ≠ RTM_NEWROUTE ∧
    rtm_table record_wrong_kind NLMSG_DATA = RT_TABLE_MAIN ∧
    enumerate_callback record_wrong_kind 3 (fun _ => true) [route_prio] = (-1, [route_prio]) ∧
    (enumerate_callback record_wrong_kind 3 (fun _ => true) [route_prio]).1 < 0 :=
  ⟨by decide, by decide,
    enumerate_callback_wrong_kind record_wrong_kind 3 (fun _ => true) [route_prio] (by decide)⟩

/-! ## The header rewrites of `delete_route` and `add_route` -/

theorem delete_route_eq (w : World) (trace : List Buf) (n : Buf) :
    delete_route w trace n =
      ((w.respond trace (delete_msg n)).2, delete_msg n, trace ++ [delete_msg n]) := by
  simp [delete_route, netlink_request, delete_msg]

theorem add_route_eq (w : World) (trace : List Buf) (n : Buf) :
    add_route w trace n =
      ((w.respond trace (add_msg n)).2, add_msg n, trace ++ [add_msg n]) := by
  simp [add_route, netlink_request, add_msg]

theorem delete_msg_header (n : Buf) (h : 8 ≤ n.length) :
    nlmsg_type (delete_msg n) = RTM_DELROUTE ∧ nlmsg_flags (delete_msg n) = NLM_F_REQUEST := by
  unfold nlmsg_type nlmsg_flags delete_msg
  constructor
  · rw [rd16_congr (fun j h1 h2 => wr16_other _ _ _ j (by omega)), rd16_wr16 _ _ _ (by omega)]
    decide
  · rw [rd16_wr16 _ _ _ (by simp; omega)]
    decide

theorem add_msg_header (n : Buf) (h : 8 ≤ n.length) :
    nlmsg_type (add_msg n) = RTM_NEWROUTE ∧
      nlmsg_flags (add_msg n) = NLM_F_REQUEST ||| NLM_F_CREATE := by
  unfold nlmsg_type nlmsg_flags add_msg
  constructor
  · rw [rd16_congr (fun j h1 h2 => wr16_other _ _ _ j (by omega)), rd16_wr16 _ _ _ (by omega)]
    decide
  · rw [rd16_wr16 _ _ _ (by simp; omega)]
    decide

/-- C16. For every route message whose buffer holds at least the first 8
bytes of the header, `delete_route` hands to the transport the message with
record kind delete-route and flags exactly request, and `add_route` the message
with record kind new-route and flags exactly request|create; in both the buffer
keeps its size and every byte outside the kind and flags fields (offsets 4 to
7) is the one of the message passed in. -/
theorem delete_add_route_header (w : World) (trace : List Buf) (n : Buf) (h : 8 ≤ n.length) :
    (∃ d, delete_route w trace n = ((w.respond trace d).2, d, trace ++ [d]) ∧
      nlmsg_type d = RTM_DELROUTE ∧ nlmsg_flags d = NLM_F_REQUEST ∧
      d.length = n.length ∧ ∀ j, j < 4 ∨ 8 ≤ j → d[j]? = n[j]?) ∧
    (∃ d, add_route w trace n = ((w.respond trace d).2, d, trace ++ [d]) ∧
      nlmsg_type d = RTM_NEWROUTE ∧ nlmsg_flags d = NLM_F_REQUEST ||| NLM_F_CREATE ∧
      d.length = n.length ∧ ∀ j, j < 4 ∨ 8 ≤ j → d[j]? = n[j]?) := by
  constructor
  · exact ⟨delete_msg n, delete_route_eq w trace n, (delete_msg_header n h).1,
      (delete_msg_header n h).2, by simp [delete_msg], fun j hj => delete_msg_other n j hj⟩
  · exact ⟨add_msg n, add_route_eq w trace n, (add_msg_header n h).1,
      (add_msg_header n h).2, by simp [add_msg], fun j hj => add_msg_other n j hj⟩

/-- Witness of C16: `route_prio`. -/
theorem delete_add_route_header_witness :
    8 ≤ route_prio.length ∧
    (∃ d, delete_route sample_world [] route_prio =
        ((sample_world.respond [] d).2, d, [] ++ [d]) ∧
      nlmsg_type d = RTM_DELROUTE ∧ nlmsg_flags d = NLM_F_REQUEST ∧
      d.length = route_prio.length ∧ ∀ j, j < 4 ∨ 8 ≤ j → d[j]? = route_prio[j]?) ∧
    (∃ d, add_route sample_world [] route_prio =
        ((sample_world.respond [] d).2, d, [] ++ [d]) ∧
      nlmsg_type d = RTM_NEWROUTE ∧ nlmsg_flags d = NLM_F_REQUEST ||| NLM_F_CREATE ∧
      d.length = route_prio.length ∧ ∀ j, j < 4 ∨ 8 ≤ j → d[j]? = route_prio[j]?) :=
  ⟨by decide, delete_add_route_header sample_world [] route_prio (by decide)⟩

/-! ## The orchestrator -/

theorem enumerate_trace (w : World) (trace : List Buf) (ifn : Int) (family : Nat)
    (routes : List Buf) :
    (enumerate w trace ifn family routes).2.2 = trace ++ [enumerate_req family] := by
  simp [enumerate, netlink_request]

theorem go_eq (w : World) (iface : String) (family : Nat) (metric : Int) :
    go w iface family metric =
      if w.netlink_open < 0 then (-1, [])
      else if w.getifn w.netlink_open iface < 0 then (-1, [])
      else if (enumerate w [] (w.getifn w.netlink_open iface) family []).1 < 0 then
        (-1, [enumerate_req family])
      else
        (0, go_loop w metric 0 (enumerate w [] (w.getifn w.netlink_open iface) family []).2.1
          [enumerate_req family]) := by
  have ht := enumerate_trace w [] (w.getifn w.netlink_open iface) family []
  simp only [List.nil_append] at ht
  unfold go
  simp only
  split_ifs <;> simp_all

/-- The loop of `go` sends the mutation requests the spec prescribes. -/
theorem go_loop_mutations (w : World) (metric : Int) :
    ∀ (routes : List Buf) (j : Nat) (trace : List Buf),
      ∃ sent, go_loop w metric j routes trace = trace ++ sent ∧
        Mutations w metric j routes trace sent := by
  intro routes
  induction routes with
  | nil =>
    intro j trace
    exact ⟨[], by simp [go_loop], Mutations.done j trace⟩
  | cons r rs ih =>
    intro j trace
    simp only [go_loop]
    rw [go_body_eq]
    by_cases hd : (w.respond trace (delete_msg r)).2 ≥ 0
    · rw [if_pos hd]
      cases hs : set_route_metric (delete_msg r) metric (w.realloc j) with
      | some b =>
        obtain ⟨sent, h1, h2⟩ := ih (j + 1) (trace ++ [delete_msg r, add_msg b])
        exact ⟨delete_msg r :: add_msg b :: sent, by simp [h1],
          Mutations.readded j r b rs trace sent hd hs h2⟩
      | none =>
        obtain ⟨sent, h1, h2⟩ := ih (j + 1) (trace ++ [delete_msg r])
        exact ⟨delete_msg r :: sent, by simp [h1],
          Mutations.rewrite_failed j r rs trace sent hd hs h2⟩
    · rw [if_neg hd]
      obtain ⟨sent, h1, h2⟩ := ih (j + 1) (trace ++ [delete_msg r])
      exact ⟨delete_msg r :: sent, by simp [h1],
        Mutations.delete_failed j r rs trace sent (by omega) h2⟩

/-- C12. For every run of `go` in which open, resolve and enumerate succeed,
the requests sent are the dump request followed by the mutation requests for
the enumerated routes in the order of the set: for route `j` its delete
message, followed by the add message of the rewritten route exactly when that
delete succeeded and the rewrite yielded a buffer; an empty route set sends no
mutation request at all. -/
theorem go_sequence (w : World) (iface : String) (family : Nat) (metric : Int)
    (hopen : 0 ≤ w.netlink_open) (hifn : 0 ≤ w.getifn w.netlink_open iface)
    (henum : 0 ≤ (enumerate w [] (w.getifn w.netlink_open iface) family []).1) :
    ∃ sent, (go w iface family metric).2 = [enumerate_req family] ++ sent ∧
      Mutations w metric 0 (enumerate w [] (w.getifn w.netlink_open iface) family []).2.1
        [enumerate_req family] sent ∧
      ((enumerate w [] (w.getifn w.netlink_open iface) family []).2.1 = [] → sent = []) := by
  obtain ⟨sent, h1, h2⟩ := go_loop_mutations w metric
    (enumerate w [] (w.getifn w.netlink_open iface) family []).2.1 0 [enumerate_req family]
  refine ⟨sent, ?_, h2, ?_⟩
  · rw [go_eq, if_neg (by omega), if_neg (by omega), if_neg (by omega)]
    exact h1
  · intro hempty
    rw [hempty] at h1
    simpa [go_loop] using h1.symm

/-- Witness of C12: under `reject_world` the one route is deleted, the delete
is refused and no add follows. -/
theorem go_sequence_witness :
    (0 ≤ reject_world.netlink_open ∧
      0 ≤ reject_world.getifn reject_world.netlink_open "eth0" ∧
      0 ≤ (enumerate reject_world []
        (reject_world.getifn reject_world.netlink_open "eth0") AF_INET []).1) ∧
    (go reject_world "eth0" AF_INET 42).2 = [enumerate_req AF_INET, delete_msg route_prio] ∧
    ∃ sent, (go reject_world "eth0" AF_INET 42).2 = [enumerate_req AF_INET] ++ sent ∧
      Mutations reject_world 42 0
        (enumerate reject_world []
          (reject_world.getifn reject_world.netlink_open "eth0") AF_INET []).2.1
        [enumerate_req AF_INET] sent ∧
      ((enumerate reject_world []
        (reject_world.getifn reject_world.netlink_open "eth0") AF_INET []).2.1 = [] →
        sent = []) :=
  ⟨by decide, by decide,
    go_sequence reject_world "eth0" AF_INET 42 (by decide) (by decide) (by decide)⟩

theorem enumerate_req_kind (family : Nat) : nlmsg_type (enumerate_req family) = RTM_GETROUTE := by
  have h16 : NLMSG_DATA = 16 := by decide
  unfold nlmsg_type enumerate_req
  simp only [h16]
  rw [rd16_congr (fun j h1 h2 => wr8_other _ _ _ j (by omega)),
    rd16_congr (fun j h1 h2 => wr8_other _ _ _ j (by omega))]
  decide

theorem main_exit (w : World) (atoi : String → Int) (argv : List String) (iface : String)
    (family : Nat) (metric : Int) (h : (main w atoi argv).call = some (iface, family, metric)) :
    (main w atoi argv).exit = (if (go w iface family metric).1 < 0 then 1 else 0) ∧
      (main w atoi argv).trace = (go w iface family metric).2 := by
  unfold main at h ⊢
  cases hopt : main_options (List.drop 1 argv) AF_INET 1 with
  | none =>
    rw [hopt] at h
    simp at h
  | some fo =>
    obtain ⟨fam, opt⟩ := fo
    rw [hopt] at h
    simp only at h ⊢
    by_cases h1 : (argv.length : Int) - opt < 2
    · simp [h1] at h
    · simp only [h1, ↓reduceIte, Option.some.injEq, Prod.mk.injEq] at h ⊢
      obtain ⟨e1, e2, e3⟩ := h
      rw [e1, e2, e3]
      exact ⟨rfl, rfl⟩

/-- C13. `go` returns `-1`, and `main` then the exit code 1, if and only if
opening the transport, resolving the interface or enumerating the routes fails;
in each of those cases nothing but the dump request is sent, so no delete and
no add; whenever the three steps succeed `go` returns 0 and `main` the exit
code 0, whatever the per-route deletes, rewrites and adds yield. -/
theorem go_exit (w : World) (iface : String) (family : Nat) (metric : Int)
    (atoi : String → Int) (argv : List String) :
    ((go w iface family metric).1 = -1 ↔
      (w.netlink_open < 0 ∨ w.getifn w.netlink_open iface < 0 ∨
        (enumerate w [] (w.getifn w.netlink_open iface) family []).1 < 0)) ∧
    ((go w iface family metric).1 = -1 →
      ∀ m ∈ (go w iface family metric).2, m = enumerate_req family ∧
        nlmsg_type m = RTM_GETROUTE) ∧
    ((go w iface family metric).1 ≠ -1 → (go w iface family metric).1 = 0) ∧
    ((main w atoi argv).call = some (iface, family, metric) →
      ((main w atoi argv).exit = 1 ↔ (go w iface family metric).1 = -1) ∧
      ((main w atoi argv).exit ≠ 1 → (main w atoi argv).exit = 0)) := by
  have hgo := go_eq w iface family metric
  have hcases : (∃ t, go w iface family metric = (-1, t) ∧ (∀ m ∈ t, m = enumerate_req family) ∧
        (w.netlink_open < 0 ∨ w.getifn w.netlink_open iface < 0 ∨
          (enumerate w [] (w.getifn w.netlink_open iface) family []).1 < 0)) ∨
      (∃ t, go w iface family metric = (0, t) ∧
        ¬ (w.netlink_open < 0 ∨ w.getifn w.netlink_open iface < 0 ∨
          (enumerate w [] (w.getifn w.netlink_open iface) family []).1 < 0)) := by
    by_cases h1 : w.netlink_open < 0
    · exact Or.inl ⟨[], by rw [hgo, if_pos h1], by simp, Or.inl h1⟩
    · by_cases h2 : w.getifn w.netlink_open iface < 0
      · exact Or.inl ⟨[], by rw [hgo, if_neg h1, if_pos h2], by simp, Or.inr (Or.inl h2)⟩
      · by_cases h3 : (enumerate w [] (w.getifn w.netlink_open iface) family []).1 < 0
        · exact Or.inl ⟨[enumerate_req family], by rw [hgo, if_neg h1, if_neg h2, if_pos h3],
            by simp, Or.inr (Or.inr h3)⟩
        · exact Or.inr ⟨_, by rw [hgo, if_neg h1, if_neg h2, if_neg h3], by
            rintro (h | h | h)
            · exact h1 h
            · exact h2 h
            · exact h3 h⟩
  rcases hcases with ⟨t, ht, hmem, hfail⟩ | ⟨t, ht, hok⟩
  · refine ⟨?_, ?_, ?_, ?_⟩
    · rw [ht]
      exact ⟨fun _ => hfail, fun _ => rfl⟩
    · intro _ m hm
      rw [ht] at hm
      have := hmem m hm
      subst this
      exact ⟨rfl, enumerate_req_kind family⟩
    · intro hne
      rw [ht] at hne
      exact absurd rfl hne
    · intro hcall
      have hm := (main_exit w atoi argv iface family metric hcall).1
      rw [hm, ht]
      simp
  · refine ⟨?_, ?_, ?_, ?_⟩
    · rw [ht]
      constructor
      · intro h
        simp at h
      · intro h
        exact absurd h hok
    · intro h
      rw [ht] at h
      simp at h
    · intro _
      rw [ht]
    · intro hcall
      have hm := (main_exit w atoi argv iface family metric hcall).1
      rw [hm, ht]
      simp

/-- Witness of C13: under `sample_world` all three steps succeed and the
exit code is 0. -/
theorem go_exit_witness :
    (main sample_world (fun _ => 42) ["ifmetric", "eth0", "42"]).call =
      some ("eth0", AF_INET, 42) ∧
    (go sample_world "eth0" AF_INET 42).1 = 0 ∧
    (main sample_world (fun _ => 42) ["ifmetric", "eth0", "42"]).exit = 0 :=
  ⟨by decide,
    (go_exit sample_world "eth0" AF_INET 42 (fun _ => 42) ["ifmetric", "eth0", "42"]).2.2.1
      (by decide),
    ((go_exit sample_world "eth0" AF_INET 42 (fun _ => 42) ["ifmetric", "eth0", "42"]).2.2.2
      (by decide)).2 (by decide)⟩

/-- Counterexample to C14: the resolver yields index 0; `go` sends the dump
request and returns 0. -/
theorem go_resolve_counterexample :
    zero_index_world.getifn zero_index_world.netlink_open "eth0" = 0 ∧
    go zero_index_world "eth0" AF_INET 42 = (0, [enumerate_req AF_INET]) := by
  decide

/-- C14, amended. Negative interface indices are invalid: when the transport
opens and the resolver yields a negative index, `go` sends no request and
returns `-1`.  An index of zero is not rejected: for every index that is not
negative `go` sends the dump request, and returns 0 exactly when the
enumeration succeeds. -/
theorem go_resolve (w : World) (iface : String) (family : Nat) (metric : Int)
    (hopen : 0 ≤ w.netlink_open) :
    (w.getifn w.netlink_open iface < 0 → go w iface family metric = (-1, [])) ∧
    (0 ≤ w.getifn w.netlink_open iface →
      ∃ sent, (go w iface family metric).2 = enumerate_req family :: sent ∧
        ((go w iface family metric).1 = 0 ↔
          0 ≤ (enumerate w [] (w.getifn w.netlink_open iface) family []).1)) := by
  have hgo := go_eq w iface family metric
  constructor
  · intro h
    rw [hgo, if_neg (by omega), if_pos h]
  · intro h
    by_cases h3 : (enumerate w [] (w.getifn w.netlink_open iface) family []).1 < 0
    · refine ⟨[], ?_, ?_⟩
      · rw [hgo, if_neg (by omega), if_neg (by omega), if_pos h3]
      · rw [hgo, if_neg (by omega), if_neg (by omega), if_pos h3]
        constructor
        · intro h0
          simp at h0
        · intro h0
          omega
    · obtain ⟨sent, h1, _⟩ := go_loop_mutations w metric
        (enumerate w [] (w.getifn w.netlink_open iface) family []).2.1 0 [enumerate_req family]
      refine ⟨sent, ?_, ?_⟩
      · rw [hgo, if_neg (by omega), if_neg (by omega), if_neg h3]
        simpa using h1
      · rw [hgo, if_neg (by omega), if_neg (by omega), if_neg h3]
        constructor
        · intro _
          omega
        · intro _
          rfl

/-- Witness of C14, amended: a resolver that fails, and a resolver that
yields index 0. -/
theorem go_resolve_witness :
    (0 ≤ no_interface_world.netlink_open ∧
      no_interface_world.getifn no_interface_world.netlink_open "wlan0" < 0 ∧
      0 ≤ zero_index_world.netlink_open ∧
      0 ≤ zero_index_world.getifn zero_index_world.netlink_open "eth0") ∧
    go no_interface_world "wlan0" AF_INET 0 = (-1, []) ∧
    ∃ sent, (go zero_index_world "eth0" AF_INET 42).2 = enumerate_req AF_INET :: sent ∧
      ((go zero_index_world "eth0" AF_INET 42).1 = 0 ↔
        0 ≤ (enumerate zero_index_world []
          (zero_index_world.getifn zero_index_world.netlink_open "eth0") AF_INET []).1) :=
  ⟨by decide,
    (go_resolve no_interface_world "wlan0" AF_INET 0 (by decide)).1 (by decide),
    (go_resolve zero_index_world "eth0" AF_INET 42 (by decide)).2 (by decide)⟩

/-! ## Messages that agree on their attributes -/

/-- The walk reads nothing before its start. -/
theorem rta_walk_congr (n n' : Buf) :
    ∀ (k a : Nat) (l : Int) (h : l.toNat ≤ k), (∀ j, a ≤ j → n'[j]? = n[j]?) →
      rta_walk n' k a l h = rta_walk n k a l h := by
  intro k
  induction k with
  | zero =>
    intro a l h _
    simp [rta_walk]
  | succ k ih =>
    intro a l h hagree
    have hlen : rta_len n' a = rta_len n a :=
      rd16_congr (fun j h1 _ => hagree j h1)
    by_cases hok : RTA_OK n a l = true
    · have hok' : RTA_OK n' a l = true := by
        rw [RTA_OK_iff] at hok ⊢
        rw [hlen]
        exact hok
      have hn := RTA_NEXT_len_toNat n k a l h hok
      have hn' := RTA_NEXT_len_toNat n' k a l h hok'
      rw [rta_walk_ok n k a l h hok hn, rta_walk_ok n' k a l h hok' hn']
      rw [rta_walk_cast n' k (RTA_NEXT n' a) (RTA_NEXT n a) (RTA_NEXT_len n' a l)
        (RTA_NEXT_len n a l) hn' hn (by simp [RTA_NEXT, hlen]) (by simp [RTA_NEXT_len, hlen])]
      rw [ih (RTA_NEXT n a) (RTA_NEXT_len n a l) hn
        (fun j hj => hagree j (by simp only [RTA_NEXT] at hj; omega))]
    · have hok' : ¬ RTA_OK n' a l = true := by
        rw [RTA_OK_iff] at hok ⊢
        rw [hlen]
        exact hok
      rw [rta_walk_stop n _ a l h hok, rta_walk_stop n' _ a l h hok']

theorem find_congr (l : List Nat) (f g : Nat → Bool) (h : ∀ x ∈ l, f x = g x) :
    l.find? f = l.find? g := by
  induction l with
  | nil => rfl
  | cons x xs ih =>
    simp only [List.find?_cons, h x (List.mem_cons_self _ _)]
    rw [ih (fun y hy => h y (List.mem_cons_of_mem _ hy))]

/-- Two messages with the same declared length and the same bytes from the
first attribute on have the same attributes. -/
theorem attrs_congr (n n' : Buf) (hlen : nlmsg_len n' = nlmsg_len n)
    (hagree : ∀ j, 28 ≤ j → n'[j]? = n[j]?) :
    attrs n' = attrs n ∧ (∀ ty, first_attr n' ty = first_attr n ty) ∧
      (∀ p, 28 ≤ p → RTA_PAYLOAD n' p = RTA_PAYLOAD n p) := by
  have hP := NLMSG_PAYLOAD_congr n n' hlen
  have hattrs : attrs n' = attrs n := by
    unfold attrs
    rw [rta_walk_cast n' _ (RTM_RTA NLMSG_DATA) (RTM_RTA NLMSG_DATA)
      (NLMSG_PAYLOAD n' sizeof_rtmsg) (NLMSG_PAYLOAD n sizeof_rtmsg)
      (Nat.le_refl _) (by rw [hP]) rfl hP]
    rw [rta_walk_bound n' _ (NLMSG_PAYLOAD n sizeof_rtmsg).toNat _ _ _ (Nat.le_refl _)]
    exact rta_walk_congr n n' _ _ _ _ (fun j hj => hagree j (by rw [RTM_RTA_DATA] at hj; exact hj))
  refine ⟨hattrs, ?_, ?_⟩
  · intro ty
    unfold first_attr
    rw [hattrs]
    apply find_congr
    intro p hp
    have hp28 := (attrs_mem n p hp).1
    have : rta_type n' p = rta_type n p :=
      rd16_congr (fun j h1 _ => hagree j (by omega))
    rw [this]
  · intro p hp
    rw [RTA_PAYLOAD_eq, RTA_PAYLOAD_eq]
    have : rta_len n' p = rta_len n p :=
      rd16_congr (fun j h1 _ => hagree j (by omega))
    rw [this]

theorem delete_msg_attrs (n : Buf) :
    attrs (delete_msg n) = attrs n ∧ (∀ ty, first_attr (delete_msg n) ty = first_attr n ty) ∧
      (∀ p, 28 ≤ p → RTA_PAYLOAD (delete_msg n) p = RTA_PAYLOAD n p) := by
  apply attrs_congr
  · unfold nlmsg_len
    exact rd32_congr (fun j _ hj => delete_msg_other n j (by omega))
  · intro j hj
    exact delete_msg_other n j (by omega)

/-! ## Failure of the rewrite -/

/-- C15. `set_route_metric` returns no buffer exactly when the first priority
attribute of the walk has a payload other than 4 bytes or, there being no
priority attribute, the reallocation fails; so, reallocation failure aside, it
fails exactly on a malformed first priority attribute, and it succeeds for
every message without priority attribute or with a 4-byte first priority
attribute.  For a route whose first priority attribute is malformed the loop
body of `go` sends the delete and no add. -/
theorem set_route_metric_failure (n : Buf) (metric : Int) (heap : Option (Nat → Nat))
    (fresh : Nat → Nat) (w : World) (j : Nat) (trace : List Buf) :
    (set_route_metric n metric heap = none ↔
      (∃ p, first_attr n RTA_PRIORITY = some p ∧ RTA_PAYLOAD n p ≠ 4) ∨
        (first_attr n RTA_PRIORITY = none ∧ heap = none)) ∧
    (set_route_metric n metric (some fresh) = none ↔
      ∃ p, first_attr n RTA_PRIORITY = some p ∧ RTA_PAYLOAD n p ≠ 4) ∧
    (first_attr n RTA_PRIORITY = none →
      (set_route_metric n metric (some fresh)).isSome = true) ∧
    ((∃ p, first_attr n RTA_PRIORITY = some p ∧ RTA_PAYLOAD n p = 4) →
      (set_route_metric n metric heap).isSome = true) ∧
    ((∃ p, first_attr n RTA_PRIORITY = some p ∧ RTA_PAYLOAD n p ≠ 4) →
      go_body w metric j n trace = trace ++ [delete_msg n]) := by
  have key : ∀ hp : Option (Nat → Nat), (set_route_metric n metric hp = none ↔
      (∃ p, first_attr n RTA_PRIORITY = some p ∧ RTA_PAYLOAD n p ≠ 4) ∨
        (first_attr n RTA_PRIORITY = none ∧ hp = none)) := by
    intro hp
    rw [set_route_metric_eq]
    cases hf : first_attr n RTA_PRIORITY with
    | some p =>
      by_cases hpay : RTA_PAYLOAD n p = 4
      · simp [hpay, sizeof_int]
      · simp [hpay, sizeof_int]
    | none =>
      cases hp with
      | none => simp [realloc]
      | some f => simp [realloc]
  refine ⟨key heap, ?_, ?_, ?_, ?_⟩
  · rw [key (some fresh)]
    simp
  · intro hf
    cases hs : set_route_metric n metric (some fresh) with
    | some b => rfl
    | none =>
      rcases (key (some fresh)).1 hs with ⟨p, hp, _⟩ | ⟨_, h⟩
      · rw [hf] at hp
        simp at hp
      · simp at h
  · rintro ⟨p, hp, hpay⟩
    cases hs : set_route_metric n metric heap with
    | some b => rfl
    | none =>
      rcases (key heap).1 hs with ⟨q, hq, hqpay⟩ | ⟨h, _⟩
      · rw [hp] at hq
        simp only [Option.some.injEq] at hq
        subst hq
        exact absurd hpay hqpay
      · rw [hp] at h
        simp at h
  · rintro ⟨p, hp, hpay⟩
    have hm := attrs_mem n p (first_attr_mem n _ p hp).1
    obtain ⟨_, d2, d3⟩ := delete_msg_attrs n
    have hnone : set_route_metric (delete_msg n) metric (w.realloc j) = none := by
      rw [set_route_metric_eq, d2, hp]
      simp [d3 p hm.1, hpay, sizeof_int]
    rw [go_body_eq, hnone]
    simp

/-- Witness of C15: `route_corrupt_prio`, whose priority attribute declares a
2-byte payload, `route_plain` without priority attribute and `route_prio`. -/
theorem set_route_metric_failure_witness :
    ((∃ p, first_attr route_corrupt_prio RTA_PRIORITY = some p ∧
        RTA_PAYLOAD route_corrupt_prio p ≠ 4) ∧
      first_attr route_plain RTA_PRIORITY = none ∧
      ∃ p, first_attr route_prio RTA_PRIORITY = some p ∧ RTA_PAYLOAD route_prio p = 4) ∧
    set_route_metric route_corrupt_prio 42 (some (fun _ => 0)) = none ∧
    go_body sample_world 42 0 route_corrupt_prio [] = [] ++ [delete_msg route_corrupt_prio] ∧
    (set_route_metric route_plain 42 (some (fun _ => 0))).isSome = true ∧
    (set_route_metric route_prio 42 none).isSome = true :=
  ⟨⟨⟨36, by decide, by decide⟩, by decide, ⟨36, by decide, by decide⟩⟩,
    (set_route_metric_failure route_corrupt_prio 42 none (fun _ => 0) sample_world 0 []).2.1.2
      ⟨36, by decide, by decide⟩,
    (set_route_metric_failure route_corrupt_prio 42 none (fun _ => 0) sample_world 0 []).2.2.2.2
      ⟨36, by decide, by decide⟩,
    (set_route_metric_failure route_plain 42 none (fun _ => 0) sample_world 0 []).2.2.1
      (by decide),
    (set_route_metric_failure route_prio 42 none (fun _ => 0) sample_world 0 []).2.2.2.1
      ⟨36, by decide, by decide⟩⟩

/-! ## Termination of the walk -/

theorem rta_walk_length (n : Buf) : ∀ (k a : Nat) (l : Int) (h : l.toNat ≤ k),
    4 * (rta_walk n k a l h).length ≤ l.toNat := by
  intro k
  induction k with
  | zero =>
    intro a l h
    simp [rta_walk]
  | succ k ih =>
    intro a l h
    by_cases hok : RTA_OK n a l = true
    · have hn := RTA_NEXT_len_toNat n k a l h hok
      rw [rta_walk_ok n k a l h hok hn]
      have := ih (RTA_NEXT n a) (RTA_NEXT_len n a l) hn
      have hge := RTA_ALIGN_ge (rta_len n a)
      rw [RTA_OK_iff] at hok
      simp only [RTA_NEXT_len, List.length_cons] at this ⊢
      omega
    · rw [rta_walk_stop n _ a l h hok]
      simp

theorem enumerate_loop_bound (n : Buf) (ifn : Int) (malloc : Nat → Bool) (k k' a : Nat)
    (l : Int) (h : l.toNat ≤ k) (h' : l.toNat ≤ k') (routes : List Buf) :
    enumerate_loop n ifn malloc k a l h routes = enumerate_loop n ifn malloc k' a l h' routes := by
  rw [enumerate_loop_eq, enumerate_loop_eq, rta_walk_bound n k k' a l h h']

theorem set_route_metric_loop_bound (n : Buf) (metric : Int) (k k' a : Nat)
    (l : Int) (h : l.toNat ≤ k) (h' : l.toNat ≤ k') :
    set_route_metric_loop n metric k a l h = set_route_metric_loop n metric k' a l h' := by
  rw [set_route_metric_loop_eq, set_route_metric_loop_eq, rta_walk_bound n k k' a l h h']

/-- C19. The attribute walk of `enumerate_callback` and `set_route_metric`
terminates on every buffer and every length: an attribute is stepped over only
when its declared length is at least the size of an attribute header, every
iteration lowers the remaining length by at least that size, so there is no
infinite sequence of iterations, the walk steps over at most a quarter of the
remaining length in attributes, and the two loops return the same result under
every bound that is at least the remaining length. -/
theorem rta_walk_terminates (n : Buf) (ifn : Int) (malloc : Nat → Bool) (metric : Int)
    (k k' a : Nat) (l : Int) (h : l.toNat ≤ k) (h' : l.toNat ≤ k') (routes : List Buf) :
    WellFounded (walk_step n) ∧
    (RTA_OK n a l = true →
      sizeof_rtattr ≤ rta_len n a ∧ RTA_NEXT_len n a l ≤ l - sizeof_rtattr ∧
      (RTA_NEXT_len n a l).toNat < l.toNat) ∧
    4 * (rta_walk n k a l h).length ≤ l.toNat ∧
    enumerate_loop n ifn malloc k a l h routes = enumerate_loop n ifn malloc k' a l h' routes ∧
    set_route_metric_loop n metric k a l h = set_route_metric_loop n metric k' a l h' := by
  refine ⟨?_, ?_, rta_walk_length n k a l h, enumerate_loop_bound n ifn malloc k k' a l h h' routes,
    set_route_metric_loop_bound n metric k k' a l h h'⟩
  · apply Subrelation.wf (r := InvImage (fun x y : Nat => x < y)
      (fun s : Nat × Int => s.2.toNat)) ?_ (InvImage.wf _ Nat.lt_wfRel.wf)
    intro s' s hstep
    obtain ⟨hok, hs⟩ := hstep
    rw [RTA_OK_iff] at hok
    have hge := RTA_ALIGN_ge (rta_len n s.1)
    subst hs
    simp only [InvImage, RTA_NEXT_len]
    omega
  · intro hok
    rw [RTA_OK_iff] at hok
    have hge := RTA_ALIGN_ge (rta_len n a)
    simp only [RTA_NEXT_len, sizeof_rtattr]
    refine ⟨hok.2.1, by omega, by omega⟩

/-- Witness of C19: the walks over `route_zero_attr`, whose attribute declares
length zero, under the bounds 8 and 100. -/
theorem rta_walk_terminates_witness :
    ((8 : Int).toNat ≤ 8 ∧ (8 : Int).toNat ≤ 100 ∧ rta_len route_zero_attr 28 = 0 ∧
      RTA_OK route_plain 28 8 = true) ∧
    (sizeof_rtattr ≤ rta_len route_plain 28 ∧
      RTA_NEXT_len route_plain 28 8 ≤ 8 - sizeof_rtattr ∧
      (RTA_NEXT_len route_plain 28 8).toNat < (8 : Int).toNat) ∧
    WellFounded (walk_step route_zero_attr) ∧
    4 * (rta_walk route_zero_attr 8 28 8 (by decide)).length ≤ (8 : Int).toNat ∧
    enumerate_loop route_zero_attr 3 (fun _ => true) 8 28 8 (by decide) [] =
      enumerate_loop route_zero_attr 3 (fun _ => true) 100 28 8 (by decide) [] ∧
    set_route_metric_loop route_zero_attr 7 8 28 8 (by decide) =
      set_route_metric_loop route_zero_attr 7 100 28 8 (by decide) :=
  ⟨by decide,
    (rta_walk_terminates route_plain 3 (fun _ => true) 7 8 100 28 8 (by decide) (by decide)
      []).2.1 (by decide),
    (rta_walk_terminates route_zero_attr 3 (fun _ => true) 7 8 100 28 8 (by decide) (by decide)
      []).1,
    (rta_walk_terminates route_zero_attr 3 (fun _ => true) 7 8 100 28 8 (by decide) (by decide)
      []).2.2.1,
    (rta_walk_terminates route_zero_attr 3 (fun _ => true) 7 8 100 28 8 (by decide) (by decide)
      []).2.2.2⟩

/-! ## The accesses stay inside the message -/

theorem RTA_OK_accesses_mem (a : Nat) (l : Int) (x : Access) (hx : x ∈ RTA_OK_accesses a l) :
    4 ≤ l ∧ x = (a, 2) := by
  unfold RTA_OK_accesses at hx
  split_ifs at hx with h
  · simp only [sizeof_rtattr] at h
    exact ⟨by omega, by simpa using hx⟩
  · simp at hx

/-- Forgetting the accesses gives the loop of `enumerate_callback`. -/
theorem enumerate_loop_traced_fst (n : Buf) (ifn : Int) (malloc : Nat → Bool) :
    ∀ (k a : Nat) (l : Int) (h : l.toNat ≤ k) (routes : List Buf),
      (enumerate_loop_traced n ifn malloc k a l h routes).1 =
        enumerate_loop n ifn malloc k a l h routes := by
  intro k
  induction k with
  | zero =>
    intro a l h routes
    have hne : ¬ RTA_OK n a l = true := by
      rw [RTA_OK_iff]
      omega
    simp [enumerate_loop_traced, enumerate_loop, hne]
  | succ k ih =>
    intro a l h routes
    simp only [enumerate_loop_traced, enumerate_loop]
    split_ifs <;> simp [ih]

/-- Forgetting the accesses gives the loop of `set_route_metric`. -/
theorem set_route_metric_loop_traced_fst (n : Buf) (metric : Int) :
    ∀ (k a : Nat) (l : Int) (h : l.toNat ≤ k),
      (set_route_metric_loop_traced n metric k a l h).1 =
        set_route_metric_loop n metric k a l h := by
  intro k
  induction k with
  | zero =>
    intro a l h
    have hne : ¬ RTA_OK n a l = true := by
      rw [RTA_OK_iff]
      omega
    simp [set_route_metric_loop_traced, set_route_metric_loop, hne]
  | succ k ih =>
    intro a l h
    simp only [set_route_metric_loop_traced, set_route_metric_loop]
    split_ifs <;> simp [ih]

/-- Every access of the loop of `enumerate_callback` ends at or before the
declared end, when the walk starts with its remaining length reaching at most
to the declared end. -/
theorem enumerate_loop_traced_bounds (n : Buf) (ifn : Int) (malloc : Nat → Bool)
    (h4 : 4 ≤ nlmsg_len n) :
    ∀ (k a : Nat) (l : Int) (h : l.toNat ≤ k) (routes : List Buf),
      (4 ≤ l → (a : Int) + l ≤ nlmsg_len n) →
      ∀ x ∈ (enumerate_loop_traced n ifn malloc k a l h routes).2,
        x.1 + x.2 ≤ nlmsg_len n := by
  intro k
  induction k with
  | zero =>
    intro a l h routes hinv x hx
    have hne : ¬ RTA_OK n a l = true := by
      rw [RTA_OK_iff]
      omega
    simp only [enumerate_loop_traced, hne, ↓reduceDIte] at hx
    obtain ⟨hl, rfl⟩ := RTA_OK_accesses_mem a l x hx
    have := hinv hl
    simp only
    omega
  | succ k ih =>
    intro a l h routes hinv x hx
    have hA : ∀ y ∈ RTA_OK_accesses a l, y.1 + y.2 ≤ nlmsg_len n := by
      intro y hy
      obtain ⟨hl, rfl⟩ := RTA_OK_accesses_mem a l y hy
      have := hinv hl
      simp only
      omega
    by_cases hok : RTA_OK n a l = true
    · have hokp := (RTA_OK_iff n a l).1 hok
      have hi := hinv hokp.1
      have hge := RTA_ALIGN_ge (rta_len n a)
      have hnext : ∀ routes', ∀ y ∈ (enumerate_loop_traced n ifn malloc k (RTA_NEXT n a)
          (RTA_NEXT_len n a l) (RTA_NEXT_len_toNat n k a l h hok) routes').2,
          y.1 + y.2 ≤ nlmsg_len n := by
        intro routes'
        apply ih
        intro _
        simp only [RTA_NEXT, RTA_NEXT_len]
        push_cast
        omega
      have hdata : RTA_PAYLOAD n a = sizeof_int → RTA_DATA a + 4 ≤ nlmsg_len n := by
        intro hp
        rw [RTA_PAYLOAD_eq] at hp
        simp only [sizeof_int] at hp
        rw [RTA_DATA_eq]
        omega
      simp only [enumerate_loop_traced, hok, ↓reduceDIte] at hx
      split_ifs at hx with h1 h2 h3 h4' h5 <;>
        simp only [List.mem_append, List.mem_cons, List.mem_singleton, List.not_mem_nil,
          or_false] at hx <;>
        casesm* _ ∨ _ <;>
        first
          | exact hA x (by assumption)
          | exact hnext _ x (by assumption)
          | (subst x
             have := hdata (by simpa using h2)
             simp only
             omega)
          | (subst x
             simp only
             omega)
    · simp only [enumerate_loop_traced, hok, ↓reduceDIte] at hx
      exact hA x hx

/-- Every access of the loop of `set_route_metric` ends at or before the
declared end, under the same condition. -/
theorem set_route_metric_loop_traced_bounds (n : Buf) (metric : Int) :
    ∀ (k a : Nat) (l : Int) (h : l.toNat ≤ k),
      (4 ≤ l → (a : Int) + l ≤ nlmsg_len n) →
      ∀ x ∈ (set_route_metric_loop_traced n metric k a l h).2,
        x.1 + x.2 ≤ nlmsg_len n := by
  intro k
  induction k with
  | zero =>
    intro a l h hinv x hx
    have hne : ¬ RTA_OK n a l = true := by
      rw [RTA_OK_iff]
      omega
    simp only [set_route_metric_loop_traced, hne, ↓reduceDIte] at hx
    obtain ⟨hl, rfl⟩ := RTA_OK_accesses_mem a l x hx
    have := hinv hl
    simp only
    omega
  | succ k ih =>
    intro a l h hinv x hx
    have hA : ∀ y ∈ RTA_OK_accesses a l, y.1 + y.2 ≤ nlmsg_len n := by
      intro y hy
      obtain ⟨hl, rfl⟩ := RTA_OK_accesses_mem a l y hy
      have := hinv hl
      simp only
      omega
    by_cases hok : RTA_OK n a l = true
    · have hokp := (RTA_OK_iff n a l).1 hok
      have hi := hinv hokp.1
      have hge := RTA_ALIGN_ge (rta_len n a)
      have hnext : ∀ y ∈ (set_route_metric_loop_traced n metric k (RTA_NEXT n a)
          (RTA_NEXT_len n a l) (RTA_NEXT_len_toNat n k a l h hok)).2,
          y.1 + y.2 ≤ nlmsg_len n := by
        apply ih
        intro _
        simp only [RTA_NEXT, RTA_NEXT_len]
        push_cast
        omega
      have hdata : RTA_PAYLOAD n a = sizeof_int → RTA_DATA a + 4 ≤ nlmsg_len n := by
        intro hp
        rw [RTA_PAYLOAD_eq] at hp
        simp only [sizeof_int] at hp
        rw [RTA_DATA_eq]
        omega
      simp only [set_route_metric_loop_traced, hok, ↓reduceDIte] at hx
      split_ifs at hx with h1 h2 <;>
        simp only [List.mem_append, List.mem_cons, List.mem_singleton, List.not_mem_nil,
          or_false] at hx <;>
        casesm* _ ∨ _ <;>
        first
          | exact hA x (by assumption)
          | exact hnext x (by assumption)
          | (subst x
             have := hdata (by simpa using h2)
             simp only
             omega)
          | (subst x
             simp only
             omega)
    · simp only [set_route_metric_loop_traced, hok, ↓reduceDIte] at hx
      exact hA x hx

theorem enumerate_callback_traced_fst (n : Buf) (ifn : Int) (malloc : Nat → Bool)
    (routes : List Buf) :
    (enumerate_callback_traced n ifn malloc routes).1 = enumerate_callback n ifn malloc routes := by
  unfold enumerate_callback_traced enumerate_callback
  simp only [enumerate_loop_traced_fst]
  split_ifs <;> rfl

/-- C20. For every buffer at least as long as the declared length of its
header, the declared length being at least the header plus the route
descriptor, every access that `enumerate_callback` makes to the record and
every access that `set_route_metric` makes to the message up to the end of its
walk (the header fields, every attribute header read, every 4-byte payload read
or overwritten, the bytes copied) lies inside the first declared-length bytes,
hence inside the buffer.  The traced functions return what the plain ones
return. -/
theorem walk_in_bounds (n : Buf) (ifn : Int) (malloc : Nat → Bool) (routes : List Buf)
    (metric : Int) (hbuf : nlmsg_len n ≤ n.length)
    (hmin : NLMSG_LENGTH sizeof_rtmsg ≤ nlmsg_len n) :
    (enumerate_callback_traced n ifn malloc routes).1 = enumerate_callback n ifn malloc routes ∧
    (∀ x ∈ (enumerate_callback_traced n ifn malloc routes).2,
      x.1 + x.2 ≤ nlmsg_len n ∧ x.1 + x.2 ≤ n.length) ∧
    (set_route_metric_walk_traced n metric).1 =
      set_route_metric_loop n metric (NLMSG_PAYLOAD n sizeof_rtmsg).toNat (RTM_RTA NLMSG_DATA)
        (NLMSG_PAYLOAD n sizeof_rtmsg) (Nat.le_refl _) ∧
    (∀ x ∈ (set_route_metric_walk_traced n metric).2,
      x.1 + x.2 ≤ nlmsg_len n ∧ x.1 + x.2 ≤ n.length) := by
  have h28 : NLMSG_LENGTH sizeof_rtmsg = 28 := by decide
  have h16 : NLMSG_DATA = 16 := by decide
  have hinv : 4 ≤ NLMSG_PAYLOAD n sizeof_rtmsg →
      ((RTM_RTA NLMSG_DATA : Nat) : Int) + NLMSG_PAYLOAD n sizeof_rtmsg ≤ nlmsg_len n := by
    intro h
    rw [NLMSG_PAYLOAD_pos n (by omega), RTM_RTA_DATA]
    push_cast
    omega
  have hloop1 := enumerate_loop_traced_bounds n ifn malloc (by omega)
    (NLMSG_PAYLOAD n sizeof_rtmsg).toNat (RTM_RTA NLMSG_DATA) (NLMSG_PAYLOAD n sizeof_rtmsg)
    (Nat.le_refl _) routes hinv
  have hloop2 := set_route_metric_loop_traced_bounds n metric
    (NLMSG_PAYLOAD n sizeof_rtmsg).toNat (RTM_RTA NLMSG_DATA) (NLMSG_PAYLOAD n sizeof_rtmsg)
    (Nat.le_refl _) hinv
  refine ⟨enumerate_callback_traced_fst n ifn malloc routes, ?_, ?_, ?_⟩
  · have key : ∀ x ∈ (enumerate_callback_traced n ifn malloc routes).2,
        x.1 + x.2 ≤ nlmsg_len n := by
      intro x hx
      unfold enumerate_callback_traced at hx
      simp only [h16] at hx
      split_ifs at hx <;>
        simp only [List.mem_append, List.mem_cons, List.mem_singleton, List.not_mem_nil,
          or_false] at hx <;>
        (try casesm* _ ∨ _) <;>
        first
          | exact hloop1 x (by assumption)
          | (subst x
             simp only
             omega)
    intro x hx
    exact ⟨key x hx, by have := key x hx; omega⟩
  · unfold set_route_metric_walk_traced
    simp only [set_route_metric_loop_traced_fst]
  · have key : ∀ x ∈ (set_route_metric_walk_traced n metric).2,
        x.1 + x.2 ≤ nlmsg_len n := by
      intro x hx
      unfold set_route_metric_walk_traced at hx
      simp only [List.mem_append, List.mem_singleton] at hx
      rcases hx with rfl | hx
      · simp only
        omega
      · exact hloop2 x hx
    intro x hx
    exact ⟨key x hx, by have := key x hx; omega⟩

/-- Witness of C20: `route_prio`, for which `enumerate_callback` copies the
record and `set_route_metric` overwrites the payload at offsets 40 to 43. -/
theorem walk_in_bounds_witness :
    (nlmsg_len route_prio ≤ route_prio.length ∧
      NLMSG_LENGTH sizeof_rtmsg ≤ nlmsg_len route_prio) ∧
    (enumerate_callback_traced route_prio 3 (fun _ => true) []).2 =
      [(4, 2), (0, 4), (20, 1), (28, 2), (30, 2), (28, 2), (32, 4), (0, 4), (0, 4), (0, 44),
        (28, 2), (36, 2), (38, 2), (36, 2)] ∧
    (set_route_metric_walk_traced route_prio 42).2 =
      [(0, 4), (28, 2), (30, 2), (28, 2), (36, 2), (38, 2), (36, 2), (40, 4)] ∧
    (∀ x ∈ (enumerate_callback_traced route_prio 3 (fun _ => true) []).2,
      x.1 + x.2 ≤ nlmsg_len route_prio ∧ x.1 + x.2 ≤ route_prio.length) ∧
    (∀ x ∈ (set_route_metric_walk_traced route_prio 42).2,
      x.1 + x.2 ≤ nlmsg_len route_prio ∧ x.1 + x.2 ≤ route_prio.length) :=
  ⟨by decide, by decide, by decide,
    (walk_in_bounds route_prio 3 (fun _ => true) [] 42 (by decide) (by decide)).2.1,
    (walk_in_bounds route_prio 3 (fun _ => true) [] 42 (by decide) (by decide)).2.2.2⟩

/-! ## Bytes: what a store leaves -/

theorem wr8_at (b : Buf) (i v : Nat) :
    (wr8 b i v)[i]? = if i < b.length then some (v % 256) else none := by
  simp [wr8, List.getElem?_set]

theorem wr16_in (b : Buf) (i v j : Nat) (h1 : i ≤ j) (h2 : j < i + 2) :
    (wr16 b i v)[j]? = if j < b.length then some (v / 256 ^ (j - i) % 256) else none := by
  obtain ⟨d, rfl⟩ : ∃ d, j = i + d := ⟨j - i, by omega⟩
  have hd : d < 2 := by omega
  unfold wr16
  interval_cases d
  · rw [wr8_other _ _ _ _ (by omega), Nat.add_zero, wr8_at]
    simp
  · rw [wr8_at]
    simp

theorem wr32_in (b : Buf) (i v j : Nat) (h1 : i ≤ j) (h2 : j < i + 4) :
    (wr32 b i v)[j]? = if j < b.length then some (v / 256 ^ (j - i) % 256) else none := by
  obtain ⟨d, rfl⟩ : ∃ d, j = i + d := ⟨j - i, by omega⟩
  have hd : d < 4 := by omega
  unfold wr32
  interval_cases d
  · rw [wr8_other _ _ _ _ (by omega), wr8_other _ _ _ _ (by omega),
      wr8_other _ _ _ _ (by omega), Nat.add_zero, wr8_at]
    simp
  · rw [wr8_other _ _ _ _ (by omega), wr8_other _ _ _ _ (by omega), wr8_at]
    simp
  · rw [wr8_other _ _ _ _ (by omega), wr8_at]
    simp
  · rw [wr8_at]
    simp

/-- Storing an `int` where its bytes already stand changes nothing. -/
theorem wrInt_fixed (b : Buf) (i : Nat) (v : Int)
    (h : ∀ j, i ≤ j → j < i + 4 → j < b.length →
      b[j]? = some (ofInt32 v / 256 ^ (j - i) % 256)) :
    wrInt b i v = b := by
  apply List.ext_getElem?
  intro j
  by_cases hj : i ≤ j ∧ j < i + 4
  · unfold wrInt
    rw [wr32_in b i _ j hj.1 hj.2]
    by_cases hl : j < b.length
    · rw [if_pos hl, h j hj.1 hj.2 hl]
    · rw [if_neg hl, List.getElem?_eq_none (by omega)]
  · exact wrInt_other b i v j (by omega)

theorem wrInt_in (b : Buf) (i : Nat) (v : Int) (j : Nat) (h1 : i ≤ j) (h2 : j < i + 4)
    (hl : j < b.length) :
    (wrInt b i v)[j]? = some (ofInt32 v / 256 ^ (j - i) % 256) := by
  unfold wrInt
  rw [wr32_in b i _ j h1 h2, if_pos hl]

/-- The header rewrite of `add_route` hides the one of `delete_route`. -/
theorem add_msg_delete_msg (n : Buf) : add_msg (delete_msg n) = add_msg n := by
  apply List.ext_getElem?
  intro j
  by_cases hj : j < 4 ∨ 8 ≤ j
  · rw [add_msg_other _ j hj, add_msg_other _ j hj, delete_msg_other _ j hj]
  · unfold add_msg
    by_cases h6 : j < 6
    · rw [wr16_other _ 6 _ j (by omega), wr16_other _ 6 _ j (by omega),
        wr16_in _ 4 _ j (by omega) (by omega), wr16_in _ 4 _ j (by omega) (by omega)]
      simp [delete_msg]
    · rw [wr16_in _ 6 _ j (by omega) (by omega), wr16_in _ 6 _ j (by omega) (by omega)]
      simp [delete_msg]

/-- The bytes `addattr32` leaves in the payload of the new TLV. -/
theorem addattr32_data (m : Buf) (t : Int) (ty : Nat) (data : Int)
    (h4 : 4 ≤ nlmsg_len m) (hroom : NLMSG_ALIGN (nlmsg_len m) + 8 ≤ m.length) :
    ∀ j, NLMSG_ALIGN (nlmsg_len m) + 4 ≤ j → j < NLMSG_ALIGN (nlmsg_len m) + 8 →
      (addattr32 m t ty data)[j]? =
        some (ofInt32 data / 256 ^ (j - (NLMSG_ALIGN (nlmsg_len m) + 4)) % 256) := by
  have hge := NLMSG_ALIGN_ge (nlmsg_len m)
  have hlen8 : RTA_LENGTH 4 = 8 := by decide
  generalize he : NLMSG_ALIGN (nlmsg_len m) = e at *
  have hres : addattr32 m t ty data =
      wr32 (wrInt (wr16 (wr16 m (e + 2) ty) e 8) (e + 4) data) 0 (e + 8) := by
    simp only [addattr32, he, hlen8, RTA_DATA_eq]
  intro j hj1 hj2
  rw [hres, wr32_other _ _ _ j (by omega), wrInt_in _ _ _ j hj1 (by omega) (by simp; omega)]

/-! ## Rewriting twice -/

/-- The append branch of `set_route_metric` leaves the bytes of the metric in
the payload of the new TLV. -/
theorem set_route_metric_grow_data (n : Buf) (metric : Int) (fresh : Nat → Nat)
    (hlen : nlmsg_len n ≤ n.length) (hmin : 4 ≤ nlmsg_len n)
    (hmax : nlmsg_len n + 1024 < 2147483648)
    (hp : first_attr n RTA_PRIORITY = none) :
    ∃ n', set_route_metric n metric (some fresh) = some n' ∧
      ∀ j, NLMSG_ALIGN (nlmsg_len n) + 4 ≤ j → j < NLMSG_ALIGN (nlmsg_len n) + 8 →
        n'[j]? = some (ofInt32 metric / 256 ^ (j - (NLMSG_ALIGN (nlmsg_len n) + 4)) % 256) := by
  have hsize : toSize (toInt32 ((nlmsg_len n : Int) + 1024)) = nlmsg_len n + 1024 := by
    unfold toSize toInt32
    omega
  obtain ⟨r, hr, hrl, hrj⟩ := realloc_some n (nlmsg_len n + 1024) fresh
  have hrn : nlmsg_len r = nlmsg_len n := by
    unfold nlmsg_len
    exact rd32_congr (fun j _ hj => hrj j (by omega) (by omega))
  have hlt := NLMSG_ALIGN_lt (nlmsg_len n)
  have hdata := addattr32_data r (toInt32 ((nlmsg_len n : Int) + 1024)) RTA_PRIORITY metric
    (by omega) (by rw [hrn]; omega)
  rw [hrn] at hdata
  refine ⟨_, ?_, hdata⟩
  rw [set_route_metric_eq, hp]
  simp only [hsize, hr, Option.map_some']

/-- A message that extends a stream the walk consumes exactly by a priority
TLV at its end has that TLV as its first priority attribute. -/
theorem first_attr_appended (n m : Buf) (hz : attrs_rest n = 0)
    (hf : first_attr n RTA_PRIORITY = none)
    (hlen : nlmsg_len m = nlmsg_len n + 8) (hmax : nlmsg_len n + 1024 < 2147483648)
    (hl : rta_len m (nlmsg_len n) = 8) (ht : rta_type m (nlmsg_len n) = RTA_PRIORITY)
    (hagree : ∀ j, 28 ≤ j → j < nlmsg_len n → m[j]? = n[j]?) :
    first_attr m RTA_PRIORITY = some (nlmsg_len n) := by
  obtain ⟨z1, z2, z3⟩ := attrs_rest_zero n hz
  have hP : NLMSG_PAYLOAD m sizeof_rtmsg = NLMSG_PAYLOAD n sizeof_rtmsg + 8 := by
    rw [z3]
    simp only [NLMSG_PAYLOAD, NLMSG_SPACE_rtmsg, toInt32, hlen]
    push_cast
    omega
  unfold first_attr attrs at hf ⊢
  unfold attrs_rest at hz
  rw [rta_walk_cast m _ (RTM_RTA NLMSG_DATA) (RTM_RTA NLMSG_DATA)
    (NLMSG_PAYLOAD m sizeof_rtmsg) (NLMSG_PAYLOAD n sizeof_rtmsg + 8)
    (Nat.le_refl _) (by rw [hP]) rfl hP]
  apply rta_walk_append n m RTA_PRIORITY (nlmsg_len n) hl ht _ _ _ _ _ _ _ _ hz hf
  · rw [RTM_RTA_DATA, z3]
    push_cast
    omega
  · intro j hj1 hj2
    rw [RTM_RTA_DATA] at hj1
    exact hagree j hj1 hj2

/-- The result of a rewrite has a well-formed first priority attribute whose
payload already holds the bytes of the metric. -/
theorem set_route_metric_fixpoint (n : Buf) (metric : Int) (heap : Option (Nat → Nat))
    (n' : Buf) (hlen : nlmsg_len n ≤ n.length) (hmax : nlmsg_len n + 1024 < 2147483648)
    (hwf : attrs_rest n = 0) (hs : set_route_metric n metric heap = some n') :
    ∃ p, first_attr n' RTA_PRIORITY = some p ∧ RTA_PAYLOAD n' p = 4 ∧
      wrInt n' (RTA_DATA p) metric = n' := by
  cases hf : first_attr n RTA_PRIORITY with
  | some p =>
    rw [set_route_metric_eq, hf] at hs
    by_cases hpay : RTA_PAYLOAD n p = sizeof_int
    · simp only [hpay, ne_eq, not_true_eq_false, ↓reduceIte, Option.some.injEq] at hs
      subst hs
      have hm := attrs_mem n p (first_attr_mem n _ p hf).1
      refine ⟨p, first_attr_overwrite n metric p hf, ?_, ?_⟩
      · rw [RTA_PAYLOAD_eq]
        have : rta_len (wrInt n (RTA_DATA p) metric) p = rta_len n p := by
          apply rd16_congr
          intro j _ hj
          apply wrInt_other
          rw [RTA_DATA_eq]
          omega
        rw [this, ← RTA_PAYLOAD_eq, hpay]
        rfl
      · apply wrInt_fixed
        intro j h1 h2 h3
        exact wrInt_in n _ metric j h1 h2 (by simpa using h3)
    · simp [hpay] at hs
  | none =>
    obtain ⟨z1, z2, z3⟩ := attrs_rest_zero n hwf
    cases heap with
    | none =>
      rw [set_route_metric_eq, hf] at hs
      simp [realloc] at hs
    | some fresh =>
      obtain ⟨m, g1, g2, g3, g4, g5, g6, g7⟩ :=
        set_route_metric_grow n metric fresh hlen (by omega) hmax hf
      obtain ⟨m2, d1, d2⟩ := set_route_metric_grow_data n metric fresh hlen (by omega) hmax hf
      rw [g1] at hs d1
      simp only [Option.some.injEq] at hs d1
      subst hs
      subst d1
      rw [NLMSG_ALIGN_of_mod _ z2] at g3 g4 g5 g6 g7 d2
      have hfind := first_attr_appended n m hwf hf g3 hmax g4 g5
        (fun j hj1 hj2 => g7 j (by omega) (by omega) (by omega) (Or.inl hj2))
      refine ⟨nlmsg_len n, hfind, ?_, ?_⟩
      · rw [RTA_PAYLOAD_eq, g4]
        norm_num
      · apply wrInt_fixed
        intro j h1 h2 _
        rw [RTA_DATA_eq] at h1 h2 ⊢
        exact d2 j h1 (by omega)

/-- A route whose first priority attribute already holds the metric is
deleted and added back as it is. -/
theorem go_body_fixed (w : World) (metric : Int) (j : Nat) (r : Buf) (trace : List Buf)
    (p : Nat) (hp : first_attr r RTA_PRIORITY = some p) (hpay : RTA_PAYLOAD r p = 4)
    (hfix : wrInt r (RTA_DATA p) metric = r)
    (hdel : 0 ≤ (w.respond trace (delete_msg r)).2) :
    set_route_metric (delete_msg r) metric (w.realloc j) = some (delete_msg r) ∧
    go_body w metric j r trace = trace ++ [delete_msg r, add_msg r] := by
  have hm := attrs_mem r p (first_attr_mem r _ p hp).1
  obtain ⟨_, d2, d3⟩ := delete_msg_attrs r
  have hset : set_route_metric (delete_msg r) metric (w.realloc j) = some (delete_msg r) := by
    rw [set_route_metric_eq, d2, hp]
    simp only [d3 p hm.1, hpay, sizeof_int, Nat.cast_ofNat, ne_eq, not_true_eq_false,
      ↓reduceIte, Option.some.injEq]
    apply wrInt_fixed
    intro i h1 h2 h3
    rw [RTA_DATA_eq] at h1
    rw [delete_msg_other r i (by omega)]
    have hlen : i < r.length := by simpa [delete_msg] using h3
    have := wrInt_in r (RTA_DATA p) metric i (by rw [RTA_DATA_eq]; exact h1) h2 hlen
    rw [hfix] at this
    exact this
  refine ⟨hset, ?_⟩
  rw [go_body_eq, if_pos hdel, hset]
  simp only [add_msg_delete_msg]

/-- C17. Idempotence of the rewrite: for every route message held in a buffer
of at least its declared length whose attribute stream the walk consumes
exactly (the grown size fitting an `int`), and every metric, the result of
`set_route_metric` is left as it is by a second `set_route_metric` with the same
metric, which succeeds whatever the allocator does; the result has a first
priority attribute with a 4-byte payload that already holds the metric, and
every route of that kind that `go` finds and deletes is added back byte for byte
(up to the header's kind and flags, which `add_route` sets). -/
theorem set_route_metric_idempotent (n : Buf) (metric : Int) (heap heap2 : Option (Nat → Nat))
    (n' : Buf) (w : World) (j : Nat) (trace : List Buf)
    (hlen : nlmsg_len n ≤ n.length) (hmax : nlmsg_len n + 1024 < 2147483648)
    (hwf : attrs_rest n = 0) (hs : set_route_metric n metric heap = some n') :
    set_route_metric n' metric heap2 = some n' ∧
    (∃ p, first_attr n' RTA_PRIORITY = some p ∧ RTA_PAYLOAD n' p = 4 ∧
      wrInt n' (RTA_DATA p) metric = n') ∧
    (∀ r p, first_attr r RTA_PRIORITY = some p → RTA_PAYLOAD r p = 4 →
      wrInt r (RTA_DATA p) metric = r → 0 ≤ (w.respond trace (delete_msg r)).2 →
      go_body w metric j r trace = trace ++ [delete_msg r, add_msg r]) := by
  obtain ⟨p, h1, h2, h3⟩ := set_route_metric_fixpoint n metric heap n' hlen hmax hwf hs
  refine ⟨?_, ⟨p, h1, h2, h3⟩, ?_⟩
  · rw [set_route_metric_eq, h1]
    simp [h2, sizeof_int, h3]
  · intro r q hq hpay hfix hdel
    exact (go_body_fixed w metric j r trace q hq hpay hfix hdel).2

/-- Witness of C17: `route_plain` rewritten to metric 7 and rewritten again
with a failing allocator; the result, found and deleted by `go`, is added back
as it is. -/
theorem set_route_metric_idempotent_witness :
    (nlmsg_len route_plain ≤ route_plain.length ∧
      nlmsg_len route_plain + 1024 < 2147483648 ∧ attrs_rest route_plain = 0 ∧
      set_route_metric route_plain 7 (some (fun _ => 0)) =
        some ((set_route_metric route_plain 7 (some (fun _ => 0))).getD []) ∧
      first_attr ((set_route_metric route_plain 7 (some (fun _ => 0))).getD [])
        RTA_PRIORITY = some 36) ∧
    set_route_metric ((set_route_metric route_plain 7 (some (fun _ => 0))).getD []) 7 none =
      some ((set_route_metric route_plain 7 (some (fun _ => 0))).getD []) ∧
    go_body sample_world 7 0 (wrInt route_prio 40 7) [enumerate_req AF_INET] =
      [enumerate_req AF_INET] ++
        [delete_msg (wrInt route_prio 40 7), add_msg (wrInt route_prio 40 7)] :=
  ⟨by decide,
    (set_route_metric_idempotent route_plain 7 (some (fun _ => 0)) none
      ((set_route_metric route_plain 7 (some (fun _ => 0))).getD []) sample_world 0
      [enumerate_req AF_INET] (by decide) (by decide) (by decide) (by decide)).1,
    (set_route_metric_idempotent route_plain 7 (some (fun _ => 0)) none
      ((set_route_metric route_plain 7 (some (fun _ => 0))).getD []) sample_world 0
      [enumerate_req AF_INET] (by decide) (by decide) (by decide) (by decide)).2.2
      (wrInt route_prio 40 7) 36 (by decide) (by decide) (by decide) (by decide)⟩

/-! ## The command line -/

/-- The option loop over `k` flags `-6` followed by one argument that is no
option stops at that argument. -/
theorem main_options_flags (iface : String) (h6 : iface ≠ "-6") (hh : iface ≠ "-h")
    (hhelp : iface ≠ "--help") :
    ∀ (k family optind : Nat) (rest : List String),
      main_options (List.replicate k "-6" ++ iface :: rest) family optind =
        some (if k = 0 then family else AF_INET6, optind + k) := by
  intro k
  induction k with
  | zero =>
    intro family optind rest
    simp [main_options, h6, hh, hhelp]
  | succ k ih =>
    intro family optind rest
    have hstep : main_options (List.replicate (k + 1) "-6" ++ iface :: rest) family optind =
        main_options (List.replicate k "-6" ++ iface :: rest) AF_INET6 (optind + 1) := by
      simp [List.replicate_succ, main_options]
    rw [hstep, ih]
    have e : optind + 1 + k = optind + (k + 1) := by omega
    by_cases hk : k = 0
    · simp [hk]
    · simp [hk, e]

/-- With any number of `-6` flags and exactly one positional argument `main`
prints the usage text and returns 0; `go` is not called. -/
theorem main_single_positional (w : World) (atoi : String → Int) (prog iface : String)
    (k : Nat) (h6 : iface ≠ "-6") (hh : iface ≠ "-h") (hhelp : iface ≠ "--help") :
    main w atoi (prog :: (List.replicate k "-6" ++ [iface])) =
      { exit := 0, output := some (usage prog), call := none, trace := [] } := by
  unfold main
  simp only [List.drop_succ_cons, List.drop_zero, main_options_flags iface h6 hh hhelp]
  have : ((prog :: (List.replicate k "-6" ++ [iface])).length : Int) - ((1 + k : Nat) : Int) < 2 := by
    simp
    omega
  simp only [this, ↓reduceIte]
  simp

/-- With the metric given as second positional argument `main` calls `go` on
the interface with the value of `atoi` and returns 1 or 0 as `go` fails or
not. -/
theorem main_two_positionals (w : World) (atoi : String → Int) (prog iface metric : String)
    (k : Nat) (h6 : iface ≠ "-6") (hh : iface ≠ "-h") (hhelp : iface ≠ "--help") :
    (main w atoi (prog :: (List.replicate k "-6" ++ [iface, metric]))).call =
      some (iface, if k = 0 then AF_INET else AF_INET6, atoi metric) := by
  unfold main
  simp only [List.drop_succ_cons, List.drop_zero, main_options_flags iface h6 hh hhelp]
  have h1 : ¬ ((prog :: (List.replicate k "-6" ++ [iface, metric])).length : Int)
      - ((1 + k : Nat) : Int) < 2 := by
    simp
    omega
  have h2 : ((prog :: (List.replicate k "-6" ++ [iface, metric])).length : Int) > 2 := by
    simp
    omega
  simp only [h1, h2, ↓reduceIte]
  have e1 : (prog :: (List.replicate k "-6" ++ [iface, metric])).getD (1 + k) "" = iface := by
    rw [Nat.add_comm, List.getD_cons_succ, List.getD_eq_getElem?_getD,
      List.getElem?_append_right (by simp)]
    simp
  have e2 : (prog :: (List.replicate k "-6" ++ [iface, metric])).getD (1 + k + 1) "" = metric := by
    have : 1 + k + 1 = (k + 1) + 1 := by omega
    rw [this, List.getD_cons_succ, List.getD_eq_getElem?_getD,
      List.getElem?_append_right (by simp)]
    simp
  simp only [e1, e2]

/-- C18, at the failing inputs: with the interface as only positional
argument, with or without `-6`, `main` prints the usage text and returns 0
without calling `go`; the metric 0 of the usage text is never used.  With a
metric given `go` is called. -/
theorem main_no_metric :
    main sample_world (fun _ => 0) ["ifmetric", "eth0"] =
      { exit := 0, output := some (usage "ifmetric"), call := none, trace := [] } ∧
    main sample_world (fun _ => 0) ["ifmetric", "-6", "eth0"] =
      { exit := 0, output := some (usage "ifmetric"), call := none, trace := [] } ∧
    (main sample_world (fun _ => 0) ["ifmetric", "eth0", "0"]).call =
      some ("eth0", AF_INET, 0) ∧
    (main sample_world (fun _ => 0) ["ifmetric", "-6", "eth0", "0"]).call =
      some ("eth0", AF_INET6, 0) := by
  decide

end Ifmetric
